import Mathlib

/-!
Polynomial layer of the ML-DSA (Dilithium) reference code: `poly.c`.

A shallow embedding of
`vendor/aws-lc-sys/aws-lc/crypto/dilithium/pqcrystals_dilithium_ref_common/poly.c`.

Conventions of the embedding.

* A `poly` is the coefficient array `a->coeffs[]`, indexed by `Nat`; the code only
  touches the indices `0 .. N-1`.  A coefficient (`int32_t`) is an `Int`.
* A byte array (`uint8_t *`) is a function `Nat → Nat`; every store into one is
  reduced modulo `256`.
* Values of unsigned C types are `Nat`s, reduced modulo `2^w` by the conversions
  `u8`, `u32`, `u64` wherever the C code converts or can wrap.  Values of
  `int32_t` are `Int`s, brought back into range by `i32`.
* A `for` loop over `0 .. n-1` is `forLoop n body`, the body being a state
  transformer; array stores are `Function.update`.
* The `unsigned int` counters and positions of the rejection loops (`ctr`, `pos`,
  `buflen`) are `Nat`s without reduction: they are bounded by the buffer lengths,
  far below `2^32`.
* A loop whose number of iterations depends on the byte stream takes a `fuel`
  argument and returns `none` when the fuel runs out before the loop exits.
-/

namespace Dilithium

/-! ## Machine integers -/

/-- Conversion to `uint8_t`. -/
def u8 (x : Int) : Nat := (x % 256).toNat

/-- Conversion to `uint32_t`. -/
def u32 (x : Int) : Nat := (x % 4294967296).toNat

/-- Conversion to `uint64_t`. -/
def u64 (x : Int) : Nat := (x % 18446744073709551616).toNat

/-- Conversion to `int32_t` (twos-complement wrap-around). -/
def i32 (x : Int) : Int := (x + 2147483648) % 4294967296 - 2147483648

/-- The operator `x | y` on two `int32_t` values, computed on their 32-bit patterns. -/
def or_i32 (x y : Int) : Int := i32 (u32 x ||| u32 y)

/-- The operator `x & y` on two `int32_t` values, computed on their 32-bit patterns. -/
def and_i32 (x y : Int) : Int := i32 (u32 x &&& u32 y)

/-- The operator `x << k` on an `int32_t` value, wrapping to 32 bits. -/
def shl_i32 (x : Int) (k : Nat) : Int := i32 (x * 2 ^ k)

/-- The operator `x >> k` on an `int32_t` value (arithmetic shift). -/
def shr_i32 (x : Int) (k : Nat) : Int := x >>> k

/-- The operator `x << k` on a `uint32_t` value. -/
def shl_u32 (x : Nat) (k : Nat) : Nat := (x <<< k) % 4294967296

/-- The compound assignment `c |= y` of a `uint32_t` value `y` into an `int32_t` object `c`:
the operation is carried out in `uint32_t` and the result converted back. -/
def or_u32 (c : Int) (y : Nat) : Int := i32 (u32 c ||| y)

/-! ## Constants and data model -/

/-- Number of coefficients of a polynomial. -/
def N : Nat := 256

/-- The modulus. -/
def Q : Int := 8380417

/-- Number of dropped bits in `power2round`. -/
def D : Nat := 13

/-- The struct `poly`: the array `coeffs[N]` of `int32_t`. -/
abbrev poly := Nat → Int

/-- A byte array reached through a `uint8_t *`. -/
abbrev bytes := Nat → Nat

/-- Modelled from the spec: the ParameterSet record `ml_dsa_params` (its declaration,
`params.h`, is not among the sources); only the fields `poly.c` reads are kept. -/
structure ml_dsa_params where
  eta : Int
  tau : Nat
  gamma1 : Int
  gamma2 : Int
  c_tilde_bytes : Nat

/-- A `for (i = 0; i < n; ++i)` loop whose body transforms the state. -/
def forLoop {σ : Type} : Nat → (Nat → σ → σ) → σ → σ
  | 0, _, s => s
  | n + 1, body, s => body n (forLoop n body s)

/-! ## Codec: `t1` -/

/-- Body of the loop of `polyt1_pack`. -/
def polyt1_pack_body (a : poly) (i : Nat) (r : bytes) : bytes :=
  let r := Function.update r (5*i+0) (u8 (shr_i32 (a (4*i+0)) 0))
  let r := Function.update r (5*i+1) (u8 (or_i32 (shr_i32 (a (4*i+0)) 8) (shl_i32 (a (4*i+1)) 2)))
  let r := Function.update r (5*i+2) (u8 (or_i32 (shr_i32 (a (4*i+1)) 6) (shl_i32 (a (4*i+2)) 4)))
  let r := Function.update r (5*i+3) (u8 (or_i32 (shr_i32 (a (4*i+2)) 4) (shl_i32 (a (4*i+3)) 6)))
  let r := Function.update r (5*i+4) (u8 (shr_i32 (a (4*i+3)) 2))
  r

/-- The function `polyt1_pack`. -/
def polyt1_pack (r : bytes) (a : poly) : bytes :=
  forLoop (N/4) (polyt1_pack_body a) r

/-- Body of the loop of `polyt1_unpack`. -/
def polyt1_unpack_body (a : bytes) (i : Nat) (r : poly) : poly :=
  let r := Function.update r (4*i+0)
    (i32 (((a (5*i+0) >>> 0) ||| shl_u32 (a (5*i+1)) 8) &&& 0x3FF : Nat))
  let r := Function.update r (4*i+1)
    (i32 (((a (5*i+1) >>> 2) ||| shl_u32 (a (5*i+2)) 6) &&& 0x3FF : Nat))
  let r := Function.update r (4*i+2)
    (i32 (((a (5*i+2) >>> 4) ||| shl_u32 (a (5*i+3)) 4) &&& 0x3FF : Nat))
  let r := Function.update r (4*i+3)
    (i32 (((a (5*i+3) >>> 6) ||| shl_u32 (a (5*i+4)) 2) &&& 0x3FF : Nat))
  r

/-- The function `polyt1_unpack`. -/
def polyt1_unpack (r : poly) (a : bytes) : poly :=
  forLoop (N/4) (polyt1_unpack_body a) r

/-! ## Codec: `eta` -/

/-- Body of the loop of `polyeta_pack`, branch `eta == 2`.  The `t[k]` are `uint8_t`; the
shifts and ors are done on their promotions to `int`, where nothing overflows, and the
store into `r` truncates. -/
def polyeta_pack_body2 (params : ml_dsa_params) (a : poly) (i : Nat) (r : bytes) : bytes :=
  let t0 := u8 (params.eta - a (8*i+0))
  let t1 := u8 (params.eta - a (8*i+1))
  let t2 := u8 (params.eta - a (8*i+2))
  let t3 := u8 (params.eta - a (8*i+3))
  let t4 := u8 (params.eta - a (8*i+4))
  let t5 := u8 (params.eta - a (8*i+5))
  let t6 := u8 (params.eta - a (8*i+6))
  let t7 := u8 (params.eta - a (8*i+7))
  let r := Function.update r (3*i+0) (((t0 >>> 0) ||| (t1 <<< 3) ||| (t2 <<< 6)) % 256)
  let r := Function.update r (3*i+1)
    (((t2 >>> 2) ||| (t3 <<< 1) ||| (t4 <<< 4) ||| (t5 <<< 7)) % 256)
  let r := Function.update r (3*i+2) (((t5 >>> 1) ||| (t6 <<< 2) ||| (t7 <<< 5)) % 256)
  r

/-- Body of the loop of `polyeta_pack`, branch `eta == 4`. -/
def polyeta_pack_body4 (params : ml_dsa_params) (a : poly) (i : Nat) (r : bytes) : bytes :=
  let t0 := u8 (params.eta - a (2*i+0))
  let t1 := u8 (params.eta - a (2*i+1))
  Function.update r i ((t0 ||| (t1 <<< 4)) % 256)

/-- The function `polyeta_pack`. -/
def polyeta_pack (params : ml_dsa_params) (r : bytes) (a : poly) : bytes :=
  if params.eta = 2 then forLoop (N/8) (polyeta_pack_body2 params a) r
  else if params.eta = 4 then forLoop (N/2) (polyeta_pack_body4 params a) r
  else r

/-- Body of the loop of `polyeta_unpack`, branch `eta == 2`. -/
def polyeta_unpack_body2 (params : ml_dsa_params) (a : bytes) (i : Nat) (r : poly) : poly :=
  let r := Function.update r (8*i+0) (i32 (((a (3*i+0) >>> 0) &&& 7 : Nat)))
  let r := Function.update r (8*i+1) (i32 (((a (3*i+0) >>> 3) &&& 7 : Nat)))
  let r := Function.update r (8*i+2) (i32 ((((a (3*i+0) >>> 6) ||| (a (3*i+1) <<< 2)) &&& 7 : Nat)))
  let r := Function.update r (8*i+3) (i32 (((a (3*i+1) >>> 1) &&& 7 : Nat)))
  let r := Function.update r (8*i+4) (i32 (((a (3*i+1) >>> 4) &&& 7 : Nat)))
  let r := Function.update r (8*i+5) (i32 ((((a (3*i+1) >>> 7) ||| (a (3*i+2) <<< 1)) &&& 7 : Nat)))
  let r := Function.update r (8*i+6) (i32 (((a (3*i+2) >>> 2) &&& 7 : Nat)))
  let r := Function.update r (8*i+7) (i32 (((a (3*i+2) >>> 5) &&& 7 : Nat)))
  let r := Function.update r (8*i+0) (i32 (params.eta - r (8*i+0)))
  let r := Function.update r (8*i+1) (i32 (params.eta - r (8*i+1)))
  let r := Function.update r (8*i+2) (i32 (params.eta - r (8*i+2)))
  let r := Function.update r (8*i+3) (i32 (params.eta - r (8*i+3)))
  let r := Function.update r (8*i+4) (i32 (params.eta - r (8*i+4)))
  let r := Function.update r (8*i+5) (i32 (params.eta - r (8*i+5)))
  let r := Function.update r (8*i+6) (i32 (params.eta - r (8*i+6)))
  let r := Function.update r (8*i+7) (i32 (params.eta - r (8*i+7)))
  r

/-- Body of the loop of `polyeta_unpack`, branch `eta == 4`. -/
def polyeta_unpack_body4 (params : ml_dsa_params) (a : bytes) (i : Nat) (r : poly) : poly :=
  let r := Function.update r (2*i+0) (i32 ((a i &&& 0x0F : Nat)))
  let r := Function.update r (2*i+1) (i32 ((a i >>> 4 : Nat)))
  let r := Function.update r (2*i+0) (i32 (params.eta - r (2*i+0)))
  let r := Function.update r (2*i+1) (i32 (params.eta - r (2*i+1)))
  r

/-- The function `polyeta_unpack`. -/
def polyeta_unpack (params : ml_dsa_params) (r : poly) (a : bytes) : poly :=
  if params.eta = 2 then forLoop (N/8) (polyeta_unpack_body2 params a) r
  else if params.eta = 4 then forLoop (N/2) (polyeta_unpack_body4 params a) r
  else r

/-! ## Codec: `t0` -/

/-- Body of the loop of `polyt0_pack`.  The `t[k]` are `uint32_t`. -/
def polyt0_pack_body (a : poly) (i : Nat) (r : bytes) : bytes :=
  let t0 := u32 (((1 <<< (D-1) : Nat) : Int) - a (8*i+0))
  let t1 := u32 (((1 <<< (D-1) : Nat) : Int) - a (8*i+1))
  let t2 := u32 (((1 <<< (D-1) : Nat) : Int) - a (8*i+2))
  let t3 := u32 (((1 <<< (D-1) : Nat) : Int) - a (8*i+3))
  let t4 := u32 (((1 <<< (D-1) : Nat) : Int) - a (8*i+4))
  let t5 := u32 (((1 <<< (D-1) : Nat) : Int) - a (8*i+5))
  let t6 := u32 (((1 <<< (D-1) : Nat) : Int) - a (8*i+6))
  let t7 := u32 (((1 <<< (D-1) : Nat) : Int) - a (8*i+7))
  let r := Function.update r (13*i+0) (t0 % 256)
  let r := Function.update r (13*i+1) ((t0 >>> 8) % 256)
  let r := Function.update r (13*i+1) ((r (13*i+1) ||| shl_u32 t1 5) % 256)
  let r := Function.update r (13*i+2) ((t1 >>> 3) % 256)
  let r := Function.update r (13*i+3) ((t1 >>> 11) % 256)
  let r := Function.update r (13*i+3) ((r (13*i+3) ||| shl_u32 t2 2) % 256)
  let r := Function.update r (13*i+4) ((t2 >>> 6) % 256)
  let r := Function.update r (13*i+4) ((r (13*i+4) ||| shl_u32 t3 7) % 256)
  let r := Function.update r (13*i+5) ((t3 >>> 1) % 256)
  let r := Function.update r (13*i+6) ((t3 >>> 9) % 256)
  let r := Function.update r (13*i+6) ((r (13*i+6) ||| shl_u32 t4 4) % 256)
  let r := Function.update r (13*i+7) ((t4 >>> 4) % 256)
  let r := Function.update r (13*i+8) ((t4 >>> 12) % 256)
  let r := Function.update r (13*i+8) ((r (13*i+8) ||| shl_u32 t5 1) % 256)
  let r := Function.update r (13*i+9) ((t5 >>> 7) % 256)
  let r := Function.update r (13*i+9) ((r (13*i+9) ||| shl_u32 t6 6) % 256)
  let r := Function.update r (13*i+10) ((t6 >>> 2) % 256)
  let r := Function.update r (13*i+11) ((t6 >>> 10) % 256)
  let r := Function.update r (13*i+11) ((r (13*i+11) ||| shl_u32 t7 3) % 256)
  let r := Function.update r (13*i+12) ((t7 >>> 5) % 256)
  r

/-- The function `polyt0_pack`. -/
def polyt0_pack (r : bytes) (a : poly) : bytes :=
  forLoop (N/8) (polyt0_pack_body a) r

/-- Body of the loop of `polyt0_unpack`. -/
def polyt0_unpack_body (a : bytes) (i : Nat) (r : poly) : poly :=
  let r := Function.update r (8*i+0) (i32 (a (13*i+0)))
  let r := Function.update r (8*i+0) (or_u32 (r (8*i+0)) (shl_u32 (a (13*i+1)) 8))
  let r := Function.update r (8*i+0) (and_i32 (r (8*i+0)) 0x1FFF)

  let r := Function.update r (8*i+1) (i32 ((a (13*i+1) >>> 5 : Nat)))
  let r := Function.update r (8*i+1) (or_u32 (r (8*i+1)) (shl_u32 (a (13*i+2)) 3))
  let r := Function.update r (8*i+1) (or_u32 (r (8*i+1)) (shl_u32 (a (13*i+3)) 11))
  let r := Function.update r (8*i+1) (and_i32 (r (8*i+1)) 0x1FFF)

  let r := Function.update r (8*i+2) (i32 ((a (13*i+3) >>> 2 : Nat)))
  let r := Function.update r (8*i+2) (or_u32 (r (8*i+2)) (shl_u32 (a (13*i+4)) 6))
  let r := Function.update r (8*i+2) (and_i32 (r (8*i+2)) 0x1FFF)

  let r := Function.update r (8*i+3) (i32 ((a (13*i+4) >>> 7 : Nat)))
  let r := Function.update r (8*i+3) (or_u32 (r (8*i+3)) (shl_u32 (a (13*i+5)) 1))
  let r := Function.update r (8*i+3) (or_u32 (r (8*i+3)) (shl_u32 (a (13*i+6)) 9))
  let r := Function.update r (8*i+3) (and_i32 (r (8*i+3)) 0x1FFF)

  let r := Function.update r (8*i+4) (i32 ((a (13*i+6) >>> 4 : Nat)))
  let r := Function.update r (8*i+4) (or_u32 (r (8*i+4)) (shl_u32 (a (13*i+7)) 4))
  let r := Function.update r (8*i+4) (or_u32 (r (8*i+4)) (shl_u32 (a (13*i+8)) 12))
  let r := Function.update r (8*i+4) (and_i32 (r (8*i+4)) 0x1FFF)

  let r := Function.update r (8*i+5) (i32 ((a (13*i+8) >>> 1 : Nat)))
  let r := Function.update r (8*i+5) (or_u32 (r (8*i+5)) (shl_u32 (a (13*i+9)) 7))
  let r := Function.update r (8*i+5) (and_i32 (r (8*i+5)) 0x1FFF)

  let r := Function.update r (8*i+6) (i32 ((a (13*i+9) >>> 6 : Nat)))
  let r := Function.update r (8*i+6) (or_u32 (r (8*i+6)) (shl_u32 (a (13*i+10)) 2))
  let r := Function.update r (8*i+6) (or_u32 (r (8*i+6)) (shl_u32 (a (13*i+11)) 10))
  let r := Function.update r (8*i+6) (and_i32 (r (8*i+6)) 0x1FFF)

  let r := Function.update r (8*i+7) (i32 ((a (13*i+11) >>> 3 : Nat)))
  let r := Function.update r (8*i+7) (or_u32 (r (8*i+7)) (shl_u32 (a (13*i+12)) 5))
  let r := Function.update r (8*i+7) (and_i32 (r (8*i+7)) 0x1FFF)

  let r := Function.update r (8*i+0) (i32 (((1 <<< (D-1) : Nat) : Int) - r (8*i+0)))
  let r := Function.update r (8*i+1) (i32 (((1 <<< (D-1) : Nat) : Int) - r (8*i+1)))
  let r := Function.update r (8*i+2) (i32 (((1 <<< (D-1) : Nat) : Int) - r (8*i+2)))
  let r := Function.update r (8*i+3) (i32 (((1 <<< (D-1) : Nat) : Int) - r (8*i+3)))
  let r := Function.update r (8*i+4) (i32 (((1 <<< (D-1) : Nat) : Int) - r (8*i+4)))
  let r := Function.update r (8*i+5) (i32 (((1 <<< (D-1) : Nat) : Int) - r (8*i+5)))
  let r := Function.update r (8*i+6) (i32 (((1 <<< (D-1) : Nat) : Int) - r (8*i+6)))
  let r := Function.update r (8*i+7) (i32 (((1 <<< (D-1) : Nat) : Int) - r (8*i+7)))
  r

/-- The function `polyt0_unpack`. -/
def polyt0_unpack (r : poly) (a : bytes) : poly :=
  forLoop (N/8) (polyt0_unpack_body a) r

/-! ## Codec: `z` -/

/-- Body of the loop of `polyz_pack`, branch `gamma1 == 2^17`.  The `t[k]` are `uint32_t`. -/
def polyz_pack_body17 (params : ml_dsa_params) (a : poly) (i : Nat) (r : bytes) : bytes :=
  let t0 := u32 (params.gamma1 - a (4*i+0))
  let t1 := u32 (params.gamma1 - a (4*i+1))
  let t2 := u32 (params.gamma1 - a (4*i+2))
  let t3 := u32 (params.gamma1 - a (4*i+3))
  let r := Function.update r (9*i+0) (t0 % 256)
  let r := Function.update r (9*i+1) ((t0 >>> 8) % 256)
  let r := Function.update r (9*i+2) ((t0 >>> 16) % 256)
  let r := Function.update r (9*i+2) ((r (9*i+2) ||| shl_u32 t1 2) % 256)
  let r := Function.update r (9*i+3) ((t1 >>> 6) % 256)
  let r := Function.update r (9*i+4) ((t1 >>> 14) % 256)
  let r := Function.update r (9*i+4) ((r (9*i+4) ||| shl_u32 t2 4) % 256)
  let r := Function.update r (9*i+5) ((t2 >>> 4) % 256)
  let r := Function.update r (9*i+6) ((t2 >>> 12) % 256)
  let r := Function.update r (9*i+6) ((r (9*i+6) ||| shl_u32 t3 6) % 256)
  let r := Function.update r (9*i+7) ((t3 >>> 2) % 256)
  let r := Function.update r (9*i+8) ((t3 >>> 10) % 256)
  r

/-- Body of the loop of `polyz_pack`, branch `gamma1 == 2^19`. -/
def polyz_pack_body19 (params : ml_dsa_params) (a : poly) (i : Nat) (r : bytes) : bytes :=
  let t0 := u32 (params.gamma1 - a (2*i+0))
  let t1 := u32 (params.gamma1 - a (2*i+1))
  let r := Function.update r (5*i+0) (t0 % 256)
  let r := Function.update r (5*i+1) ((t0 >>> 8) % 256)
  let r := Function.update r (5*i+2) ((t0 >>> 16) % 256)
  let r := Function.update r (5*i+2) ((r (5*i+2) ||| shl_u32 t1 4) % 256)
  let r := Function.update r (5*i+3) ((t1 >>> 4) % 256)
  let r := Function.update r (5*i+4) ((t1 >>> 12) % 256)
  r

/-- The function `polyz_pack`. -/
def polyz_pack (params : ml_dsa_params) (r : bytes) (a : poly) : bytes :=
  if params.gamma1 = ((1 <<< 17 : Nat) : Int) then forLoop (N/4) (polyz_pack_body17 params a) r
  else if params.gamma1 = ((1 <<< 19 : Nat) : Int) then forLoop (N/2) (polyz_pack_body19 params a) r
  else r

/-- Body of the loop of `polyz_unpack`, branch `gamma1 == 2^17`. -/
def polyz_unpack_body17 (params : ml_dsa_params) (a : bytes) (i : Nat) (r : poly) : poly :=
  let r := Function.update r (4*i+0) (i32 (a (9*i+0)))
  let r := Function.update r (4*i+0) (or_u32 (r (4*i+0)) (shl_u32 (a (9*i+1)) 8))
  let r := Function.update r (4*i+0) (or_u32 (r (4*i+0)) (shl_u32 (a (9*i+2)) 16))
  let r := Function.update r (4*i+0) (and_i32 (r (4*i+0)) 0x3FFFF)

  let r := Function.update r (4*i+1) (i32 ((a (9*i+2) >>> 2 : Nat)))
  let r := Function.update r (4*i+1) (or_u32 (r (4*i+1)) (shl_u32 (a (9*i+3)) 6))
  let r := Function.update r (4*i+1) (or_u32 (r (4*i+1)) (shl_u32 (a (9*i+4)) 14))
  let r := Function.update r (4*i+1) (and_i32 (r (4*i+1)) 0x3FFFF)

  let r := Function.update r (4*i+2) (i32 ((a (9*i+4) >>> 4 : Nat)))
  let r := Function.update r (4*i+2) (or_u32 (r (4*i+2)) (shl_u32 (a (9*i+5)) 4))
  let r := Function.update r (4*i+2) (or_u32 (r (4*i+2)) (shl_u32 (a (9*i+6)) 12))
  let r := Function.update r (4*i+2) (and_i32 (r (4*i+2)) 0x3FFFF)

  let r := Function.update r (4*i+3) (i32 ((a (9*i+6) >>> 6 : Nat)))
  let r := Function.update r (4*i+3) (or_u32 (r (4*i+3)) (shl_u32 (a (9*i+7)) 2))
  let r := Function.update r (4*i+3) (or_u32 (r (4*i+3)) (shl_u32 (a (9*i+8)) 10))
  let r := Function.update r (4*i+3) (and_i32 (r (4*i+3)) 0x3FFFF)

  let r := Function.update r (4*i+0) (i32 (params.gamma1 - r (4*i+0)))
  let r := Function.update r (4*i+1) (i32 (params.gamma1 - r (4*i+1)))
  let r := Function.update r (4*i+2) (i32 (params.gamma1 - r (4*i+2)))
  let r := Function.update r (4*i+3) (i32 (params.gamma1 - r (4*i+3)))
  r

/-- Body of the loop of `polyz_unpack`, branch `gamma1 == 2^19`; the second coefficient
is not masked. -/
def polyz_unpack_body19 (params : ml_dsa_params) (a : bytes) (i : Nat) (r : poly) : poly :=
  let r := Function.update r (2*i+0) (i32 (a (5*i+0)))
  let r := Function.update r (2*i+0) (or_u32 (r (2*i+0)) (shl_u32 (a (5*i+1)) 8))
  let r := Function.update r (2*i+0) (or_u32 (r (2*i+0)) (shl_u32 (a (5*i+2)) 16))
  let r := Function.update r (2*i+0) (and_i32 (r (2*i+0)) 0xFFFFF)

  let r := Function.update r (2*i+1) (i32 ((a (5*i+2) >>> 4 : Nat)))
  let r := Function.update r (2*i+1) (or_u32 (r (2*i+1)) (shl_u32 (a (5*i+3)) 4))
  let r := Function.update r (2*i+1) (or_u32 (r (2*i+1)) (shl_u32 (a (5*i+4)) 12))

  let r := Function.update r (2*i+0) (i32 (params.gamma1 - r (2*i+0)))
  let r := Function.update r (2*i+1) (i32 (params.gamma1 - r (2*i+1)))
  r

/-- The function `polyz_unpack`. -/
def polyz_unpack (params : ml_dsa_params) (r : poly) (a : bytes) : poly :=
  if params.gamma1 = ((1 <<< 17 : Nat) : Int) then forLoop (N/4) (polyz_unpack_body17 params a) r
  else if params.gamma1 = ((1 <<< 19 : Nat) : Int) then
    forLoop (N/2) (polyz_unpack_body19 params a) r
  else r

/-! ## Codec: `w1` -/

/-- Body of the loop of `polyw1_pack`, branch `gamma2 == (Q-1)/88`.  A byte of `r` read back
by `|=` is promoted to `int`, and the coefficients are `int32_t`. -/
def polyw1_pack_body88 (a : poly) (i : Nat) (r : bytes) : bytes :=
  let r := Function.update r (3*i+0) (u8 (a (4*i+0)))
  let r := Function.update r (3*i+0) (u8 (or_i32 (r (3*i+0)) (shl_i32 (a (4*i+1)) 6)))
  let r := Function.update r (3*i+1) (u8 (shr_i32 (a (4*i+1)) 2))
  let r := Function.update r (3*i+1) (u8 (or_i32 (r (3*i+1)) (shl_i32 (a (4*i+2)) 4)))
  let r := Function.update r (3*i+2) (u8 (shr_i32 (a (4*i+2)) 4))
  let r := Function.update r (3*i+2) (u8 (or_i32 (r (3*i+2)) (shl_i32 (a (4*i+3)) 2)))
  r

/-- Body of the loop of `polyw1_pack`, branch `gamma2 == (Q-1)/32`. -/
def polyw1_pack_body32 (a : poly) (i : Nat) (r : bytes) : bytes :=
  Function.update r i (u8 (or_i32 (a (2*i+0)) (shl_i32 (a (2*i+1)) 4)))

/-- The function `polyw1_pack`. -/
def polyw1_pack (params : ml_dsa_params) (r : bytes) (a : poly) : bytes :=
  if params.gamma2 = (Q-1)/88 then forLoop (N/4) (polyw1_pack_body88 a) r
  else if params.gamma2 = (Q-1)/32 then forLoop (N/2) (polyw1_pack_body32 a) r
  else r

/-! ## Norm check -/

/-- The loop of `poly_chknorm`, at index `i` with `n` iterations left; it returns `1` at the
first coefficient whose masked absolute value reaches `B`, and `0` when it runs out. -/
def poly_chknorm_loop (a : poly) (B : Int) : Nat → Nat → Int
  | _, 0 => 0
  | i, n + 1 =>
    let t := shr_i32 (a i) 31
    let t := i32 (a i - and_i32 t (i32 (2 * a i)))
    if t ≥ B then 1 else poly_chknorm_loop a B (i + 1) n

/-- The function `poly_chknorm`. -/
def poly_chknorm (a : poly) (B : Int) : Int :=
  if B > (Q - 1) / 8 then 1 else poly_chknorm_loop a B 0 N

/-! ## Byte-stream engine -/

/-- Modelled from the spec: the constants and the output function of the byte-stream engine
of §6, whose header and code (`fipsmodule/sha`) are not among the sources.  `stream bs x n`
is byte `n` of the stream keyed by the absorbed input `x` under the parameterization with
block size `bs`; the rates and block sizes are parameters. -/
structure shake_engine where
  SHAKE128_RATE : Nat
  SHAKE128_BLOCKSIZE : Nat
  SHAKE256_RATE : Nat
  SHAKE256_BLOCKSIZE : Nat
  stream : Nat → List Nat → Nat → Nat

/-- Modelled from the spec: the context `KECCAK1600_CTX` of the byte-stream engine, "stateful
and resumable for a fixed absorbed input": the parameterization, the bytes absorbed, and the
number of output bytes already squeezed. -/
structure KECCAK1600_CTX where
  block_size : Nat
  absorbed : List Nat
  squeezed : Nat

/-- Modelled from the spec: `init(securityContext)`. -/
def SHAKE_Init (block_size : Nat) : KECCAK1600_CTX := ⟨block_size, [], 0⟩

/-- Modelled from the spec: `absorb(bytes)`, of the `len` bytes at `data`. -/
def SHA3_Update (ctx : KECCAK1600_CTX) (data : bytes) (len : Nat) : KECCAK1600_CTX :=
  ⟨ctx.block_size, ctx.absorbed ++ (List.range len).map (fun i => data i % 256), ctx.squeezed⟩

/-- Modelled from the spec: `squeeze(context, length) -> bytes`, writing the next `len` bytes
of the stream to `md[off ..]` and advancing the context. -/
def SHAKE_Final (E : shake_engine) (md : bytes) (off : Nat) (ctx : KECCAK1600_CTX) (len : Nat) :
    bytes × KECCAK1600_CTX :=
  (fun j => if off ≤ j ∧ j < off + len then
      E.stream ctx.block_size ctx.absorbed (ctx.squeezed + (j - off)) % 256 else md j,
   ⟨ctx.block_size, ctx.absorbed, ctx.squeezed + len⟩)

/-- Modelled from the spec: `SecureZero(buffer)`, overwriting `len` bytes with zero. -/
def OPENSSL_cleanse (buf : bytes) (len : Nat) : bytes :=
  fun j => if j < len then 0 else buf j

/-- Modelled from the spec: `SecureZero` applied to a stream context. -/
def OPENSSL_cleanse_ctx (_ : KECCAK1600_CTX) : KECCAK1600_CTX := ⟨0, [], 0⟩

/-! ## Challenge sampler -/

/-- The local variables of `poly_challenge` together with the output polynomial. -/
structure challenge_state where
  c : poly
  signs : Nat
  buf : bytes
  pos : Nat
  state : KECCAK1600_CTX

/-- The statement `if (pos >= SHAKE256_RATE) { SHAKE_Final(buf, …); pos = 0; }` inside the
`do … while` loop of `poly_challenge`. -/
def poly_challenge_refill (E : shake_engine) (s : challenge_state) : challenge_state :=
  if s.pos ≥ E.SHAKE256_RATE then
    ⟨s.c, s.signs, (SHAKE_Final E s.buf 0 s.state E.SHAKE256_BLOCKSIZE).1, 0,
      (SHAKE_Final E s.buf 0 s.state E.SHAKE256_BLOCKSIZE).2⟩
  else s

/-- The `do … while (b > i)` loop of `poly_challenge`; `fuel` bounds the number of candidate
bytes drawn, and the result is the accepted byte `b` with the updated locals. -/
def poly_challenge_draw (E : shake_engine) (i : Nat) :
    Nat → challenge_state → Option (Nat × challenge_state)
  | 0, _ => none
  | fuel + 1, s =>
    let s := poly_challenge_refill E s
    let b := s.buf s.pos
    let s : challenge_state := ⟨s.c, s.signs, s.buf, (s.pos + 1) % 4294967296, s.state⟩
    if b > i then poly_challenge_draw E i fuel s else some (b, s)

/-- The loop `for (i = N - tau; i < N; ++i)` of `poly_challenge`, at index `i` with `n`
iterations left. -/
def poly_challenge_loop (E : shake_engine) (fuel : Nat) :
    Nat → Nat → challenge_state → Option challenge_state
  | 0, _, s => some s
  | n + 1, i, s =>
    match poly_challenge_draw E i fuel s with
    | none => none
    | some (b, s) =>
      let c := Function.update s.c i (s.c b)
      let c := Function.update c b (i32 (u64 (1 - 2 * ((s.signs &&& 1 : Nat) : Int))))
      poly_challenge_loop E fuel n (i + 1) ⟨c, s.signs >>> 1, s.buf, s.pos, s.state⟩

/-- The function `poly_challenge`.  `c` is the prior contents of the output polynomial,
`buf0` the indeterminate initial contents of the local buffer; the result is `none` when
some `do … while` loop does not finish within `fuel` draws, and otherwise the output
polynomial with the locals as they are left at the `return`. -/
def poly_challenge (E : shake_engine) (params : ml_dsa_params) (c : poly) (seed : bytes)
    (buf0 : bytes) (fuel : Nat) : Option challenge_state :=
  let state := SHAKE_Init E.SHAKE256_BLOCKSIZE
  let state := SHA3_Update state seed params.c_tilde_bytes
  let buf := (SHAKE_Final E buf0 0 state E.SHAKE256_BLOCKSIZE).1
  let state := (SHAKE_Final E buf0 0 state E.SHAKE256_BLOCKSIZE).2
  let signs := forLoop 8 (fun i signs => signs ||| (buf i <<< (8*i)) % 18446744073709551616) 0
  let pos := 8
  let c := forLoop N (fun i c => Function.update c i 0) c
  let i0 := u32 ((N : Int) - (params.tau : Int))
  match poly_challenge_loop E fuel (N - i0) i0 ⟨c, signs, buf, pos, state⟩ with
  | none => none
  | some s =>
    some ⟨s.c, 0, OPENSSL_cleanse s.buf E.SHAKE256_RATE, s.pos, OPENSSL_cleanse_ctx s.state⟩

/-! ## Specification predicates -/

/-- A packer, as a function of the prior contents `r` of its output array, assigns exactly
the bytes `0 .. P-1`: a byte at an index `≥ P` keeps its prior value, and a byte at an index
`< P` gets a value that does not depend on the prior contents. -/
def assigns_exactly (P : Nat) (pack : bytes → bytes) : Prop :=
  (∀ r j, P ≤ j → pack r j = r j) ∧ (∀ r r' j, j < P → pack r j = pack r' j)


/-! ## Ring operations -/

/-- The function `poly_add`. -/
def poly_add (c a b : poly) : poly :=
  forLoop N (fun i c => Function.update c i (i32 (a i + b i))) c

/-- The function `poly_sub`. -/
def poly_sub (c a b : poly) : poly :=
  forLoop N (fun i c => Function.update c i (i32 (a i - b i))) c

/-- The function `poly_shiftl`, in place. -/
def poly_shiftl (a : poly) : poly :=
  forLoop N (fun i a => Function.update a i (shl_i32 (a i) D)) a

/-! ## Rounding -/

/-- Modelled from the spec: the centred representative of `r` modulo `m`, the one in
`(-m/2, m/2]`; it is what the spec calls "centered" in `power2round` and `decompose`, whose
code (`rounding.c`) is not among the sources. -/
def centered_mod (r m : Int) : Int :=
  if r % m > m / 2 then r % m - m else r % m

/-- Modelled from the spec: `power2round(c) -> (c1, c0)` of §4.2, whose code (`rounding.c`) is
not among the sources: `c0` is the representative of `c` modulo `2^D` centred in
`(-2^(D-1), 2^(D-1)]` and `c1` the quotient left.  The result is `(c1, c0)`. -/
def power2round (a : Int) : Int × Int :=
  let a0 := centered_mod a (2 ^ D)
  ((a - a0) / 2 ^ D, a0)

/-- Modelled from the spec: `decompose(params, c) -> (c1, c0)` of §4.2, whose code
(`rounding.c`) is not among the sources: with `alpha = 2*gamma2`, `c0` is the centred
remainder of `c mod Q` and `c1` the naive high part, except that when the naive high part
equals the top bucket index `(Q-1)/alpha` the result is folded to `c1 = 0` and
`c0 = (c mod Q) - Q`.  The result is `(c1, c0)`. -/
def decompose (params : ml_dsa_params) (a : Int) : Int × Int :=
  let alpha := 2 * params.gamma2
  let r := a % Q
  let r0 := centered_mod r alpha
  let r1 := (r - r0) / alpha
  if r1 = (Q - 1) / alpha then (0, r - Q) else (r1, r0)

/-- The function `poly_power2round`; the state is the pair `(a1, a0)` of output polynomials. -/
def poly_power2round (a1 a0 a : poly) : poly × poly :=
  forLoop N (fun i (s : poly × poly) =>
    (Function.update s.1 i (i32 (power2round (a i)).1),
     Function.update s.2 i (i32 (power2round (a i)).2))) (a1, a0)

/-- The function `poly_decompose`; the state is the pair `(a1, a0)` of output polynomials. -/
def poly_decompose (params : ml_dsa_params) (a1 a0 a : poly) : poly × poly :=
  forLoop N (fun i (s : poly × poly) =>
    (Function.update s.1 i (i32 (decompose params (a i)).1),
     Function.update s.2 i (i32 (decompose params (a i)).2))) (a1, a0)

/-- The function `poly_make_hint`.  The helper `make_hint` of `rounding.c` (not among the
sources) is a parameter with an `unsigned int` result; the state of the loop is the hint
polynomial `h` with the `unsigned int` counter `s`, and the result is `(h, s)`. -/
def poly_make_hint (make_hint : ml_dsa_params → Int → Int → Nat) (params : ml_dsa_params)
    (h a0 a1 : poly) : poly × Nat :=
  forLoop N (fun i (st : poly × Nat) =>
    let h := Function.update st.1 i (i32 (make_hint params (a0 i) (a1 i) : Nat))
    (h, u32 ((st.2 : Int) + h i))) (h, 0)

/-! ## Uniform sampler -/

/-- Modelled from the spec: the constants of `params.h` (not among the sources) that the
samplers use; they are parameters of the development. -/
structure dilithium_consts where
  SEEDBYTES : Nat
  CRHBYTES : Nat
  DILITHIUM_POLY_UNIFORM_ETA_NBLOCKS_MAX : Nat
  DILITHIUM_POLYZ_PACKEDBYTES_MAX : Nat

/-- The two-byte array `t` of the samplers: `t[0] = nonce & 0xff; t[1] = nonce >> 8`. -/
def nonce_bytes (nonce : Nat) : bytes :=
  Function.update (Function.update (fun _ => 0) 0 ((nonce &&& 0xff) % 256)) 1
    ((nonce >>> 8) % 256)

/-- The `while` loop of `rej_uniform`, writing at `a[base + ctr]` (the pointer passed by the
caller is `a->coeffs + base`).  Every iteration advances `pos` by `3`, so the loop runs at
most `buflen` times; `fuel` counts the iterations left. -/
def rej_uniform_loop (base len : Nat) (buf : bytes) (buflen : Nat) :
    Nat → poly → Nat → Nat → poly × Nat
  | 0, a, ctr, _ => (a, ctr)
  | fuel + 1, a, ctr, pos =>
    if ctr < len ∧ pos + 3 ≤ buflen then
      let t := buf pos
      let t := t ||| shl_u32 (buf (pos + 1)) 8
      let t := t ||| shl_u32 (buf (pos + 2)) 16
      let t := t &&& 0x7FFFFF
      if (t : Int) < Q then
        rej_uniform_loop base len buf buflen fuel (Function.update a (base + ctr) (i32 t))
          (ctr + 1) (pos + 3)
      else rej_uniform_loop base len buf buflen fuel a ctr (pos + 3)
    else (a, ctr)

/-- The function `rej_uniform`; the result is the array with the counter `ctr` returned. -/
def rej_uniform (a : poly) (base len : Nat) (buf : bytes) (buflen : Nat) : poly × Nat :=
  rej_uniform_loop base len buf buflen buflen a 0 0

/-- The macro `POLY_UNIFORM_NBLOCKS`. -/
def POLY_UNIFORM_NBLOCKS (E : shake_engine) : Nat :=
  (768 + E.SHAKE128_RATE - 1) / E.SHAKE128_RATE

/-- The output polynomial of a rejection sampler together with its locals. -/
structure uniform_state where
  a : poly
  ctr : Nat
  buf : bytes
  buflen : Nat
  state : KECCAK1600_CTX

/-- The loop `while (ctr < N)` of `poly_uniform`; `fuel` bounds the number of refills. -/
def poly_uniform_loop (E : shake_engine) : Nat → uniform_state → Option uniform_state
  | 0, s => if s.ctr < N then none else some s
  | fuel + 1, s =>
    if s.ctr < N then
      let off := s.buflen % 3
      let buf := forLoop off (fun i buf => Function.update buf i (buf (s.buflen - off + i))) s.buf
      let sq := SHAKE_Final E buf off s.state (POLY_UNIFORM_NBLOCKS E * E.SHAKE128_BLOCKSIZE)
      let buflen := E.SHAKE128_RATE + off
      let r := rej_uniform s.a s.ctr (N - s.ctr) sq.1 buflen
      poly_uniform_loop E fuel ⟨r.1, s.ctr + r.2, sq.1, buflen, sq.2⟩
    else some s

/-- The function `poly_uniform`.  `a` is the prior contents of the output polynomial, `buf0`
the indeterminate initial contents of the local buffer; the result is `none` when the loop
is not over after `fuel` refills, and otherwise the output polynomial with the locals as
they are left at the `return`. -/
def poly_uniform (E : shake_engine) (C : dilithium_consts) (a : poly) (seed : bytes)
    (nonce : Nat) (buf0 : bytes) (fuel : Nat) : Option uniform_state :=
  let buflen := POLY_UNIFORM_NBLOCKS E * E.SHAKE128_RATE
  let state := SHAKE_Init E.SHAKE128_BLOCKSIZE
  let state := SHA3_Update state seed C.SEEDBYTES
  let state := SHA3_Update state (nonce_bytes nonce) 2
  let sq := SHAKE_Final E buf0 0 state (POLY_UNIFORM_NBLOCKS E * E.SHAKE128_BLOCKSIZE)
  let r := rej_uniform a 0 N sq.1 buflen
  match poly_uniform_loop E fuel ⟨r.1, r.2, sq.1, buflen, sq.2⟩ with
  | none => none
  | some s =>
    some ⟨s.a, s.ctr, OPENSSL_cleanse s.buf (POLY_UNIFORM_NBLOCKS E * E.SHAKE128_RATE + 2),
      s.buflen, OPENSSL_cleanse_ctx s.state⟩

/-! ## Bounded sampler -/

/-- The `while` loop of `rej_eta`, writing at `a[base + ctr]`.  Every iteration advances
`pos` by `1`; `fuel` counts the iterations left. -/
def rej_eta_loop (params : ml_dsa_params) (base len : Nat) (buf : bytes) (buflen : Nat) :
    Nat → poly → Nat → Nat → poly × Nat
  | 0, a, ctr, _ => (a, ctr)
  | fuel + 1, a, ctr, pos =>
    if ctr < len ∧ pos < buflen then
      let t0 := buf pos &&& 0x0F
      let t1 := buf pos >>> 4
      let pos := pos + 1
      if params.eta = 2 then
        let s : poly × Nat :=
          if t0 < 15 then
            let t0 := u32 ((t0 : Int) - ((((205 * t0) % 4294967296) >>> 10) * 5 : Nat))
            (Function.update a (base + ctr) (i32 (u32 (2 - (t0 : Int)))), ctr + 1)
          else (a, ctr)
        let s : poly × Nat :=
          if t1 < 15 ∧ s.2 < len then
            let t1 := u32 ((t1 : Int) - ((((205 * t1) % 4294967296) >>> 10) * 5 : Nat))
            (Function.update s.1 (base + s.2) (i32 (u32 (2 - (t1 : Int)))), s.2 + 1)
          else s
        rej_eta_loop params base len buf buflen fuel s.1 s.2 pos
      else if params.eta = 4 then
        let s : poly × Nat :=
          if t0 < 9 then (Function.update a (base + ctr) (i32 (u32 (4 - (t0 : Int)))), ctr + 1)
          else (a, ctr)
        let s : poly × Nat :=
          if t1 < 9 ∧ s.2 < len then
            (Function.update s.1 (base + s.2) (i32 (u32 (4 - (t1 : Int)))), s.2 + 1)
          else s
        rej_eta_loop params base len buf buflen fuel s.1 s.2 pos
      else rej_eta_loop params base len buf buflen fuel a ctr pos
    else (a, ctr)

/-- The function `rej_eta`; the result is the array with the counter `ctr` returned. -/
def rej_eta (params : ml_dsa_params) (a : poly) (base len : Nat) (buf : bytes)
    (buflen : Nat) : poly × Nat :=
  rej_eta_loop params base len buf buflen buflen a 0 0

/-- The loop `while (ctr < N)` of `poly_uniform_eta`; `fuel` bounds the number of refills. -/
def poly_uniform_eta_loop (E : shake_engine) (params : ml_dsa_params) :
    Nat → uniform_state → Option uniform_state
  | 0, s => if s.ctr < N then none else some s
  | fuel + 1, s =>
    if s.ctr < N then
      let sq := SHAKE_Final E s.buf 0 s.state E.SHAKE256_BLOCKSIZE
      let r := rej_eta params s.a s.ctr (N - s.ctr) sq.1 E.SHAKE256_RATE
      poly_uniform_eta_loop E params fuel ⟨r.1, s.ctr + r.2, sq.1, s.buflen, sq.2⟩
    else some s

/-- The function `poly_uniform_eta`, with the conventions of `poly_uniform`. -/
def poly_uniform_eta (E : shake_engine) (C : dilithium_consts) (params : ml_dsa_params)
    (a : poly) (seed : bytes) (nonce : Nat) (buf0 : bytes) (fuel : Nat) :
    Option uniform_state :=
  let buflen := C.DILITHIUM_POLY_UNIFORM_ETA_NBLOCKS_MAX * E.SHAKE256_RATE
  let state := SHAKE_Init E.SHAKE256_BLOCKSIZE
  let state := SHA3_Update state seed C.CRHBYTES
  let state := SHA3_Update state (nonce_bytes nonce) 2
  let sq := SHAKE_Final E buf0 0 state
    (C.DILITHIUM_POLY_UNIFORM_ETA_NBLOCKS_MAX * E.SHAKE256_BLOCKSIZE)
  let r := rej_eta params a 0 N sq.1 buflen
  match poly_uniform_eta_loop E params fuel ⟨r.1, r.2, sq.1, buflen, sq.2⟩ with
  | none => none
  | some s =>
    some ⟨s.a, s.ctr,
      OPENSSL_cleanse s.buf (C.DILITHIUM_POLY_UNIFORM_ETA_NBLOCKS_MAX * E.SHAKE256_RATE),
      s.buflen, OPENSSL_cleanse_ctx s.state⟩

/-! ## Gamma sampler -/

/-- The macro `POLY_UNIFORM_GAMMA1_NBLOCKS`. -/
def POLY_UNIFORM_GAMMA1_NBLOCKS (E : shake_engine) (C : dilithium_consts) : Nat :=
  (C.DILITHIUM_POLYZ_PACKEDBYTES_MAX + E.SHAKE256_RATE - 1) / E.SHAKE256_RATE

/-- The output polynomial of `poly_uniform_gamma1` together with its locals. -/
structure gamma1_state where
  a : poly
  buf : bytes
  state : KECCAK1600_CTX

/-- The function `poly_uniform_gamma1`: `a` is the prior contents of the output polynomial,
`buf0` the indeterminate initial contents of the local buffer. -/
def poly_uniform_gamma1 (E : shake_engine) (C : dilithium_consts) (params : ml_dsa_params)
    (a : poly) (seed : bytes) (nonce : Nat) (buf0 : bytes) : gamma1_state :=
  let state := SHAKE_Init E.SHAKE256_BLOCKSIZE
  let state := SHA3_Update state seed C.CRHBYTES
  let state := SHA3_Update state (nonce_bytes nonce) 2
  let sq := SHAKE_Final E buf0 0 state (POLY_UNIFORM_GAMMA1_NBLOCKS E C * E.SHAKE256_BLOCKSIZE)
  let a := polyz_unpack params a sq.1
  ⟨a, OPENSSL_cleanse sq.1 (POLY_UNIFORM_GAMMA1_NBLOCKS E C * E.SHAKE256_RATE),
    OPENSSL_cleanse_ctx sq.2⟩

/-! ## Reference filter of the uniform sampler -/

/-- Candidate `k` of a byte stream `s`, as the specification of the uniform sampler writes
it: `(s[3k] | s[3k+1] << 8 | s[3k+2] << 16) & 0x7FFFFF`. -/
def uniform_cand (s : Nat → Nat) (k : Nat) : Nat :=
  (s (3 * k) ||| s (3 * k + 1) <<< 8 ||| s (3 * k + 2) <<< 16) &&& 0x7FFFFF

/-- The accepted values among the first `K` candidates of the stream `s`, in stream order:
a candidate is accepted when it is below `Q`. -/
def uniform_accepted (s : Nat → Nat) (K : Nat) : List Nat :=
  ((List.range K).map (uniform_cand s)).filter (fun c => (c : Int) < Q)

/-! ## Specification predicates for the rejection loops -/

/-- The state `s' = (a', ctr')` of a rejection loop extends the state `s = (a, ctr)`: the
counter has grown and stays within `len`, the coefficients outside `[base+ctr, base+ctr')`
are those of `a`, and the ones written in between lie in `[lo, hi]`. -/
def extends_with (base len : Nat) (lo hi : Int) (s s' : poly × Nat) : Prop :=
  s.2 ≤ s'.2 ∧ s'.2 ≤ len ∧
  (∀ j, (j < base + s.2 ∨ base + s'.2 ≤ j) → s'.1 j = s.1 j) ∧
  (∀ j, base + s.2 ≤ j → j < base + s'.2 → lo ≤ s'.1 j ∧ s'.1 j ≤ hi)

/-- The byte stream `SHAKE(seed || nonce)` of the samplers: the output stream of the engine
with block size `bs` keyed by the `seedlen` bytes at `seed` followed by the two bytes of the
nonce, as bytes. -/
def xof_stream (E : shake_engine) (bs : Nat) (seed : bytes) (seedlen nonce : Nat) : bytes :=
  fun n => E.stream bs
    (SHA3_Update (SHA3_Update (SHAKE_Init bs) seed seedlen) (nonce_bytes nonce) 2).absorbed n % 256

/-- The value of `t` at the test `t < Q` in `rej_uniform`, for the candidate read at `pos`. -/
def rej_uniform_cand (buf : bytes) (pos : Nat) : Nat :=
  ((buf pos ||| shl_u32 (buf (pos + 1)) 8) ||| shl_u32 (buf (pos + 2)) 16) &&& 0x7FFFFF

/-- The effect of one iteration of the loop of `rej_eta` on the pair `(a, ctr)`, for the
byte `b = buf[pos]`. -/
def rej_eta_step (params : ml_dsa_params) (base len : Nat) (b : Nat) (a : poly) (ctr : Nat) :
    poly × Nat :=
  let t0 := b &&& 0x0F
  let t1 := b >>> 4
  if params.eta = 2 then
    let s : poly × Nat :=
      if t0 < 15 then
        let t0 := u32 ((t0 : Int) - ((((205 * t0) % 4294967296) >>> 10) * 5 : Nat))
        (Function.update a (base + ctr) (i32 (u32 (2 - (t0 : Int)))), ctr + 1)
      else (a, ctr)
    if t1 < 15 ∧ s.2 < len then
      let t1 := u32 ((t1 : Int) - ((((205 * t1) % 4294967296) >>> 10) * 5 : Nat))
      (Function.update s.1 (base + s.2) (i32 (u32 (2 - (t1 : Int)))), s.2 + 1)
    else s
  else if params.eta = 4 then
    let s : poly × Nat :=
      if t0 < 9 then (Function.update a (base + ctr) (i32 (u32 (4 - (t0 : Int)))), ctr + 1)
      else (a, ctr)
    if t1 < 9 ∧ s.2 < len then
      (Function.update s.1 (base + s.2) (i32 (u32 (4 - (t1 : Int)))), s.2 + 1)
    else s
  else (a, ctr)

/-- A byte holds a nibble that `rej_eta` accepts: below `15` when `eta = 2`, below `9` when
`eta = 4`. -/
def eta_accepts (params : ml_dsa_params) (b : Nat) : Prop :=
  (params.eta = 2 ∧ (b &&& 0x0F < 15 ∨ b >>> 4 < 15)) ∨
  (params.eta = 4 ∧ (b &&& 0x0F < 9 ∨ b >>> 4 < 9))

/-- The invariant of the buffer of `poly_challenge` when `SHAKE256_RATE` and
`SHAKE256_BLOCKSIZE` are `136`: the buffer holds block `k` of the stream keyed by `X`, the
context stands after that block, and `pos` is within the block or at its end. -/
def challenge_inv (E : shake_engine) (bs : Nat) (X : List Nat) (s : challenge_state)
    (k : Nat) : Prop :=
  s.state = ⟨bs, X, 136 * (k + 1)⟩ ∧
  (∀ j, j < 136 → s.buf j = E.stream bs X (136 * k + j) % 256) ∧ s.pos ≤ 136


/-! ## Reference filters of the rejection loops -/

/-- The state `s' = (a', ctr')` of a rejection loop is the state `s = (a, ctr)` after writing
the values `vals` in order from index `base + ctr` on, as many as fit below `len`: the
counter is `min len (ctr + |vals|)`, coefficient `base + j` for `ctr ≤ j < ctr'` is
`vals[j - ctr]`, and every other coefficient is that of `a`. -/
def writes_from (base len : Nat) (vals : List Int) (s s' : poly × Nat) : Prop :=
  s'.2 = min len (s.2 + vals.length) ∧
  (∀ j, s.2 ≤ j → j < s'.2 → s'.1 (base + j) = vals.getD (j - s.2) 0) ∧
  (∀ j, (j < base + s.2 ∨ base + s'.2 ≤ j) → s'.1 j = s.1 j)

/-- Nibble `n` of a byte array, low nibble first: `buf[0] & 15, buf[0] >> 4, buf[1] & 15,
...`. -/
def eta_nibble (buf : bytes) (n : Nat) : Nat :=
  if n % 2 = 0 then buf (n / 2) &&& 15 else buf (n / 2) >>> 4

/-- The reference nibble filter of `rej_eta` over the `2 * buflen` nibbles of `buf`: for
`eta = 2` the nibbles `t < 15`, each mapped to `2 - (t mod 5)`; otherwise (`eta = 4`) the
nibbles `t < 9`, each mapped to `4 - t`; in order. -/
def eta_accepted (eta : Int) (buf : bytes) (buflen : Nat) : List Int :=
  if eta = 2 then
    List.map (fun t : Nat => 2 - ((t % 5 : Nat) : Int))
      (List.filter (fun t : Nat => decide (t < 15))
        (List.map (eta_nibble buf) (List.range (2 * buflen))))
  else
    List.map (fun t : Nat => 4 - (t : Int))
      (List.filter (fun t : Nat => decide (t < 9))
        (List.map (eta_nibble buf) (List.range (2 * buflen))))

/-- The expression `t - (205*t >> 10)*5` of `rej_eta`, in `uint32_t` arithmetic. -/
def rej_eta_fold (t : Nat) : Nat :=
  u32 ((t : Int) - ((((205 * t) % 4294967296) >>> 10) * 5 : Nat))

/-! ## Reference challenge sampler -/

/-- The 64-bit little-endian integer formed from bytes `0 .. 7` of a byte stream. -/
def challenge_sign_word (s : Nat → Nat) : Nat :=
  s 0 + s 1 * 2 ^ 8 + s 2 * 2 ^ 16 + s 3 * 2 ^ 24 + s 4 * 2 ^ 32 + s 5 * 2 ^ 40 + s 6 * 2 ^ 48
    + s 7 * 2 ^ 56

/-- The reference selection of one position: the first byte of the stream `s`, from offset
`p` on, that is at most `i`; the result is that byte and the offset after it.  `fuel` bounds
the number of bytes examined. -/
def challenge_ref_draw (s : Nat → Nat) (i : Nat) : Nat → Nat → Option (Nat × Nat)
  | 0, _ => none
  | fuel + 1, p => if s p > i then challenge_ref_draw s i fuel (p + 1) else some (s p, p + 1)

/-- The reference selection steps `j, j+1, ...` (`n` of them) at the indices `i, i+1, ...`:
step `j` selects a position `b` from the stream, moves `c[b]` to `c[i]` and assigns to
`c[b]` the value `+1` if bit `j` of the sign word `S` is `0` and `-1` if it is `1`. -/
def challenge_ref_loop (s : Nat → Nat) (S : Nat) (fuel : Nat) :
    Nat → Nat → Nat → poly → Nat → Option poly
  | 0, _, _, c, _ => some c
  | n + 1, i, j, c, p =>
    match challenge_ref_draw s i fuel p with
    | none => none
    | some (b, p) =>
      let c := Function.update c i (c b)
      let c := Function.update c b (if S.testBit j then -1 else 1)
      challenge_ref_loop s S fuel n (i + 1) (j + 1) c p

/-- The reference challenge sampler over a byte stream `s`: the sign word is formed from
the stream bytes `0 .. 7`, the `tau` selection steps run at the indices `256 - tau .. 255`
on the zero polynomial, and the candidate bytes are taken from stream offset `8` onward. -/
def challenge_ref (s : Nat → Nat) (tau fuel : Nat) : Option poly :=
  challenge_ref_loop s (challenge_sign_word s) fuel tau (256 - tau) 0 (fun _ => 0) 8


/-! ## The refill loop of the uniform sampler, one iteration at a time -/

/-- The body of the loop `while (ctr < N)` of `poly_uniform`, as a transformer of the
locals. -/
def poly_uniform_refill (E : shake_engine) (s : uniform_state) : uniform_state :=
  let off := s.buflen % 3
  let buf := forLoop off (fun i buf => Function.update buf i (buf (s.buflen - off + i))) s.buf
  let sq := SHAKE_Final E buf off s.state (POLY_UNIFORM_NBLOCKS E * E.SHAKE128_BLOCKSIZE)
  let buflen := E.SHAKE128_RATE + off
  let r := rej_uniform s.a s.ctr (N - s.ctr) sq.1 buflen
  ⟨r.1, s.ctr + r.2, sq.1, buflen, sq.2⟩

/-- The locals of `poly_uniform` when the loop `while (ctr < N)` is first reached. -/
def poly_uniform_entry (E : shake_engine) (C : dilithium_consts) (a : poly) (seed : bytes)
    (nonce : Nat) (buf0 : bytes) : uniform_state :=
  let buflen := POLY_UNIFORM_NBLOCKS E * E.SHAKE128_RATE
  let state := SHAKE_Init E.SHAKE128_BLOCKSIZE
  let state := SHA3_Update state seed C.SEEDBYTES
  let state := SHA3_Update state (nonce_bytes nonce) 2
  let sq := SHAKE_Final E buf0 0 state (POLY_UNIFORM_NBLOCKS E * E.SHAKE128_BLOCKSIZE)
  let r := rej_uniform a 0 N sq.1 buflen
  ⟨r.1, r.2, sq.1, buflen, sq.2⟩


/-! ## Norm check, with the operations it executes -/

theorem forLoop_block {β : Type} (s : Nat) (body : Nat → (Nat → β) → (Nat → β))
    (hframe : ∀ i r j, (j < s * i ∨ s * i + s ≤ j) → body i r j = r j) :
    ∀ n r j, forLoop n body r j =
      if j < s * n then body (j / s) (forLoop (j / s) body r) j else r j := by
  intro n
  induction n with
  | zero => intro r j; simp [forLoop]
  | succ n ih =>
    intro r j
    show body n (forLoop n body r) j = _
    by_cases h1 : j < s * n
    · rw [hframe n _ j (Or.inl h1), ih, if_pos h1, if_pos (by rw [Nat.mul_succ]; omega)]
    · by_cases h2 : j < s * n + s
      · have hq : j / s = n := by
          apply Nat.div_eq_of_lt_le
          · rw [Nat.mul_comm]; omega
          · rw [Nat.mul_comm, Nat.mul_succ]; omega
        rw [if_pos (by rw [Nat.mul_succ]; omega), hq]
      · rw [hframe n _ j (Or.inr (by omega)), ih, if_neg h1, if_neg (by rw [Nat.mul_succ]; omega)]

theorem u8_lt (x : Int) : u8 x < 256 := by unfold u8; omega
theorem u32_lt (x : Int) : u32 x < 4294967296 := by unfold u32; omega
theorem u8_i32 (x : Int) : u8 (i32 x) = u8 x := by unfold u8 i32; omega
theorem u8_natCast (n : Nat) : u8 (n : Int) = n % 256 := by unfold u8; omega
theorem u32_i32 (x : Int) : u32 (i32 x) = u32 x := by unfold u32 i32; omega
theorem u32_cast_mod256 (n : Nat) : u32 ((n : Int) % 256) = n % 256 := by unfold u32; omega
theorem u32_natCast (n : Nat) : u32 (n : Int) = n % 4294967296 := by unfold u32; omega
theorem i32_small (x : Int) (h1 : -2147483648 ≤ x) (h2 : x < 2147483648) : i32 x = x := by
  unfold i32; omega
theorem i32_range (x : Int) : -2147483648 ≤ i32 x ∧ i32 x < 2147483648 := by
  unfold i32; omega
theorem u32_inj_i32 (g x y : Int) (hx : -2147483648 ≤ x ∧ x < 2147483648)
    (hy : -2147483648 ≤ y ∧ y < 2147483648) (h : u32 (g - x) = u32 (g - y)) : x = y := by
  unfold u32 at h; omega
theorem u32_sub_i32_sub (g x : Int) : u32 (g - i32 (g - x)) = u32 x := by
  unfold u32 i32; omega
theorem u32_or_u32 (c : Int) (y : Nat) : u32 (or_u32 c y) = (u32 c ||| y) % 4294967296 := by
  unfold or_u32; rw [u32_i32, u32_natCast]
theorem u32_and_i32 (x y : Int) : u32 (and_i32 x y) = (u32 x &&& u32 y) % 4294967296 := by
  unfold and_i32; rw [u32_i32, u32_natCast]
theorem u32_or_i32 (x y : Int) : u32 (or_i32 x y) = (u32 x ||| u32 y) % 4294967296 := by
  unfold or_i32; rw [u32_i32, u32_natCast]
theorem shr_i32_natCast (t k : Nat) : shr_i32 (t : Int) k = ((t >>> k : Nat) : Int) := rfl
theorem shl_i32_natCast (t k : Nat) : shl_i32 (t : Int) k = i32 ((t <<< k : Nat) : Int) := by
  unfold shl_i32; rw [Nat.shiftLeft_eq]; push_cast; rfl

theorem tb_mod256 (x j : Nat) : (x % 256).testBit j = (decide (j < 8) && x.testBit j) :=
  Nat.testBit_mod_two_pow x 8 j
theorem tb_mod32 (x j : Nat) : (x % 4294967296).testBit j = (decide (j < 32) && x.testBit j) :=
  Nat.testBit_mod_two_pow x 32 j
theorem tb_and_mask (w x j : Nat) :
    (x &&& (2 ^ w - 1)).testBit j = (decide (j < w) && x.testBit j) := by
  rw [Nat.and_pow_two_sub_one_eq_mod, Nat.testBit_mod_two_pow]
theorem tb_and7 (x j : Nat) : (x &&& 7).testBit j = (decide (j < 3) && x.testBit j) :=
  tb_and_mask 3 x j
theorem tb_and15 (x j : Nat) : (x &&& 15).testBit j = (decide (j < 4) && x.testBit j) :=
  tb_and_mask 4 x j
theorem tb_and1023 (x j : Nat) : (x &&& 1023).testBit j = (decide (j < 10) && x.testBit j) :=
  tb_and_mask 10 x j
theorem tb_and8191 (x j : Nat) : (x &&& 8191).testBit j = (decide (j < 13) && x.testBit j) :=
  tb_and_mask 13 x j
theorem tb_and262143 (x j : Nat) :
    (x &&& 262143).testBit j = (decide (j < 18) && x.testBit j) :=
  tb_and_mask 18 x j
theorem tb_and1048575 (x j : Nat) :
    (x &&& 1048575).testBit j = (decide (j < 20) && x.testBit j) :=
  tb_and_mask 20 x j

theorem tb_high {w : Nat} {t : Nat} (h : t < 2 ^ w) (n : Nat) (hn : w ≤ n) :
    t.testBit n = false :=
  Nat.testBit_lt_two_pow (lt_of_lt_of_le h (Nat.pow_le_pow_right (by decide) hn))

/-- Two numbers agree when one is read off a bit stream at width `w` and the stream carries
the bits of the other. -/
theorem eq_of_stream_bits (w : Nat) (pk : bytes) (m X T : Nat)
    (hX : ∀ j, X.testBit j = (decide (j < w) && (pk ((w*m+j)/8)).testBit ((w*m+j)%8)))
    (hpk : ∀ j, j < w → (pk ((w*m+j)/8)).testBit ((w*m+j)%8) = T.testBit j)
    (hT : T < 2 ^ w) : X = T := by
  apply Nat.eq_of_testBit_eq
  intro j
  by_cases hj : j < w
  · rw [hX, hpk j hj]; simp [hj]
  · rw [hX, tb_high hT j (by omega)]; simp [hj]

theorem mod256_lt (x : Nat) : x % 256 < 256 := Nat.mod_lt _ (by decide)
theorem u32_lit13 : u32 8191 = 8191 := by decide
theorem u32_lit18 : u32 262143 = 262143 := by decide
theorem u32_lit20 : u32 1048575 = 1048575 := by decide


/-! ## The `t1` codec -/

theorem polyt1_pack_frame (a : poly) (i : Nat) (r : bytes) (j : Nat)
    (hj : j < 5 * i ∨ 5 * i + 5 ≤ j) : polyt1_pack_body a i r j = r j := by
  unfold polyt1_pack_body
  simp only [Function.update_apply]
  repeat (rw [if_neg (by omega)])

theorem polyt1_pack_at (r : bytes) (a : poly) (i c : Nat)
    (hi : i < 64) (hc : c < 5) :
    polyt1_pack r a (5 * i + c) = polyt1_pack_body a i (forLoop i (polyt1_pack_body a) r) (5 * i + c) := by
  have h1 : polyt1_pack r a = forLoop 64 (polyt1_pack_body a) r := by
    rfl
  rw [h1, forLoop_block 5 _ (polyt1_pack_frame a), if_pos (by omega)]
  have e : (5 * i + c) / 5 = i := by omega
  rw [e]

theorem polyt1_pack_out (r : bytes) (a : poly) (j : Nat)
    (hj : 320 ≤ j) : polyt1_pack r a j = r j := by
  have h1 : polyt1_pack r a = forLoop 64 (polyt1_pack_body a) r := by
    rfl
  rw [h1, forLoop_block 5 _ (polyt1_pack_frame a), if_neg (by omega)]

theorem polyt1_pack_indep (r r' : bytes) (a : poly) (j : Nat)
    (hj : j < 320) : polyt1_pack r a j = polyt1_pack r' a j := by
  obtain ⟨i, c, hi, hc, rfl⟩ : ∃ i c, i < 64 ∧ c < 5 ∧ j = 5 * i + c :=
    ⟨j / 5, j % 5, by omega, by omega, by omega⟩
  rw [polyt1_pack_at r a i c hi hc, polyt1_pack_at r' a i c hi hc]
  interval_cases c <;> simp [polyt1_pack_body]

theorem polyt1_pack_lt (r : bytes) (a : poly) (j : Nat)
    (hj : j < 320) : polyt1_pack r a j < 256 := by
  obtain ⟨i, c, hi, hc, rfl⟩ : ∃ i c, i < 64 ∧ c < 5 ∧ j = 5 * i + c :=
    ⟨j / 5, j % 5, by omega, by omega, by omega⟩
  rw [polyt1_pack_at r a i c hi hc]
  interval_cases c <;> simp [polyt1_pack_body, u8_lt, mod256_lt]

set_option maxHeartbeats 4000000 in
theorem polyt1_pack_bits (r : bytes) (a : poly)
    (ha : ∀ m, m < 256 → 0 ≤ a m ∧ a m ≤ 1023)
    (m j : Nat) (hm : m < 256) (hj : j < 10) :
    (polyt1_pack r a ((10 * m + j) / 8)).testBit ((10 * m + j) % 8) = ((a (m)).toNat).testBit j := by
  obtain ⟨i, c, hi, hc, rfl⟩ : ∃ i c, i < 64 ∧ c < 4 ∧ m = 4 * i + c :=
    ⟨m / 4, m % 4, by omega, by omega, by omega⟩
  have e1 : (10 * (4 * i + c) + j) / 8 = 5 * i + (10 * c + j) / 8 := by omega
  have e2 : (10 * (4 * i + c) + j) % 8 = (10 * c + j) % 8 := by omega
  rw [e1, e2, polyt1_pack_at r a i _ hi (by omega)]
  generalize forLoop i (polyt1_pack_body a) r = R
  obtain ⟨t0, h0⟩ : ∃ t : Nat, a (4 * i + 0) = t :=
    ⟨(a (4 * i + 0)).toNat, by have := ha (4 * i + 0) (by omega); omega⟩
  have c0 := tb_high (w := 10) (t := t0) (by have := ha (4 * i + 0) (by omega); omega)
  obtain ⟨t1, h1⟩ : ∃ t : Nat, a (4 * i + 1) = t :=
    ⟨(a (4 * i + 1)).toNat, by have := ha (4 * i + 1) (by omega); omega⟩
  have c1 := tb_high (w := 10) (t := t1) (by have := ha (4 * i + 1) (by omega); omega)
  obtain ⟨t2, h2⟩ : ∃ t : Nat, a (4 * i + 2) = t :=
    ⟨(a (4 * i + 2)).toNat, by have := ha (4 * i + 2) (by omega); omega⟩
  have c2 := tb_high (w := 10) (t := t2) (by have := ha (4 * i + 2) (by omega); omega)
  obtain ⟨t3, h3⟩ : ∃ t : Nat, a (4 * i + 3) = t :=
    ⟨(a (4 * i + 3)).toNat, by have := ha (4 * i + 3) (by omega); omega⟩
  have c3 := tb_high (w := 10) (t := t3) (by have := ha (4 * i + 3) (by omega); omega)
  simp only [Nat.add_zero, Nat.one_mul] at h0
  interval_cases c <;> interval_cases j <;>
    simp [polyt1_pack_body, h0, h1, h2, h3, u8_i32, u8_natCast, u32_cast_mod256, u32_i32, u32_natCast, u32_or_i32, or_i32, shr_i32_natCast, shl_i32_natCast, shl_u32, tb_mod256, tb_mod32, D, c0, c1, c2, c3, -Nat.testBit_zero]

theorem polyt1_unpack_frame (a : bytes) (i : Nat) (r : poly) (j : Nat)
    (hj : j < 4 * i ∨ 4 * i + 4 ≤ j) : polyt1_unpack_body a i r j = r j := by
  unfold polyt1_unpack_body
  simp only [Function.update_apply]
  repeat (rw [if_neg (by omega)])

theorem polyt1_unpack_at (r : poly) (a : bytes) (i c : Nat)
    (hi : i < 64) (hc : c < 4) :
    polyt1_unpack r a (4 * i + c) = polyt1_unpack_body a i (forLoop i (polyt1_unpack_body a) r) (4 * i + c) := by
  have h1 : polyt1_unpack r a = forLoop 64 (polyt1_unpack_body a) r := by
    rfl
  rw [h1, forLoop_block 4 _ (polyt1_unpack_frame a), if_pos (by omega)]
  have e : (4 * i + c) / 4 = i := by omega
  rw [e]

theorem polyt1_unpack_range (r : poly) (b : bytes) (m : Nat) (hm : m < 256) :
    -2147483648 ≤ polyt1_unpack r b m ∧ polyt1_unpack r b m < 2147483648 := by
  obtain ⟨i, c, hi, hc, rfl⟩ : ∃ i c, i < 64 ∧ c < 4 ∧ m = 4 * i + c :=
    ⟨m / 4, m % 4, by omega, by omega, by omega⟩
  rw [polyt1_unpack_at r b i c hi hc]
  interval_cases c <;> simp [polyt1_unpack_body, -Int.reduceNeg] <;> exact i32_range _

set_option maxHeartbeats 4000000 in
theorem polyt1_unpack_bits (r : poly) (b : bytes)
    (hb : ∀ n, n < 320 → b n < 256) (m j : Nat) (hm : m < 256) :
    (u32 (polyt1_unpack r b m)).testBit j
      = (decide (j < 10) && (b ((10 * m + j) / 8)).testBit ((10 * m + j) % 8)) := by
  obtain ⟨i, c, hi, hc, rfl⟩ : ∃ i c, i < 64 ∧ c < 4 ∧ m = 4 * i + c :=
    ⟨m / 4, m % 4, by omega, by omega, by omega⟩
  have e1 : (10 * (4 * i + c) + j) / 8 = 5 * i + (10 * c + j) / 8 := by omega
  have e2 : (10 * (4 * i + c) + j) % 8 = (10 * c + j) % 8 := by omega
  rw [e1, e2, polyt1_unpack_at r b i c hi hc]
  generalize forLoop i (polyt1_unpack_body b) r = R
  have c0 := tb_high (w := 8) (hb (5 * i + 0) (by omega))
  have c1 := tb_high (w := 8) (hb (5 * i + 1) (by omega))
  have c2 := tb_high (w := 8) (hb (5 * i + 2) (by omega))
  have c3 := tb_high (w := 8) (hb (5 * i + 3) (by omega))
  have c4 := tb_high (w := 8) (hb (5 * i + 4) (by omega))
  simp only [Nat.add_zero, Nat.one_mul] at c0
  by_cases hj : j < 10
  · interval_cases c <;> interval_cases j <;>
      simp [polyt1_unpack_body, u32_sub_i32_sub, u32_i32, u32_natCast, u32_or_u32, u32_and_i32, u32_lit13, u32_lit18, u32_lit20, shl_u32, tb_mod32, tb_and7, tb_and15, tb_and1023, tb_and8191, tb_and262143, tb_and1048575, D, c0, c1, c2, c3, c4, -Nat.testBit_zero, -Nat.testBit_and]
  · interval_cases c <;>
      simp (disch := omega) [polyt1_unpack_body, u32_sub_i32_sub, u32_i32, u32_natCast, u32_or_u32, u32_and_i32, u32_lit13, u32_lit18, u32_lit20, shl_u32, tb_mod32, tb_and7, tb_and15, tb_and1023, tb_and8191, tb_and262143, tb_and1048575, D, c0, c1, c2, c3, c4, hj, -Nat.testBit_zero, -Nat.testBit_and]

/-! ## The `eta` codec, `eta = 2` -/

theorem polyeta_pack2_frame (params : ml_dsa_params) (a : poly) (i : Nat) (r : bytes) (j : Nat)
    (hj : j < 3 * i ∨ 3 * i + 3 ≤ j) : polyeta_pack_body2 params a i r j = r j := by
  unfold polyeta_pack_body2
  simp only [Function.update_apply]
  repeat (rw [if_neg (by omega)])

theorem polyeta_pack2_at (params : ml_dsa_params) (hp : params.eta = 2) (r : bytes) (a : poly) (i c : Nat)
    (hi : i < 32) (hc : c < 3) :
    polyeta_pack params r a (3 * i + c) = polyeta_pack_body2 params a i (forLoop i (polyeta_pack_body2 params a) r) (3 * i + c) := by
  have h1 : polyeta_pack params r a = forLoop 32 (polyeta_pack_body2 params a) r := by
    unfold polyeta_pack; rw [if_pos hp]; rfl
  rw [h1, forLoop_block 3 _ (polyeta_pack2_frame params a), if_pos (by omega)]
  have e : (3 * i + c) / 3 = i := by omega
  rw [e]

theorem polyeta_pack2_out (params : ml_dsa_params) (hp : params.eta = 2) (r : bytes) (a : poly) (j : Nat)
    (hj : 96 ≤ j) : polyeta_pack params r a j = r j := by
  have h1 : polyeta_pack params r a = forLoop 32 (polyeta_pack_body2 params a) r := by
    unfold polyeta_pack; rw [if_pos hp]; rfl
  rw [h1, forLoop_block 3 _ (polyeta_pack2_frame params a), if_neg (by omega)]

theorem polyeta_pack2_indep (params : ml_dsa_params) (hp : params.eta = 2) (r r' : bytes) (a : poly) (j : Nat)
    (hj : j < 96) : polyeta_pack params r a j = polyeta_pack params r' a j := by
  obtain ⟨i, c, hi, hc, rfl⟩ : ∃ i c, i < 32 ∧ c < 3 ∧ j = 3 * i + c :=
    ⟨j / 3, j % 3, by omega, by omega, by omega⟩
  rw [polyeta_pack2_at params hp r a i c hi hc, polyeta_pack2_at params hp r' a i c hi hc]
  interval_cases c <;> simp [polyeta_pack_body2]

theorem polyeta_pack2_lt (params : ml_dsa_params) (hp : params.eta = 2) (r : bytes) (a : poly) (j : Nat)
    (hj : j < 96) : polyeta_pack params r a j < 256 := by
  obtain ⟨i, c, hi, hc, rfl⟩ : ∃ i c, i < 32 ∧ c < 3 ∧ j = 3 * i + c :=
    ⟨j / 3, j % 3, by omega, by omega, by omega⟩
  rw [polyeta_pack2_at params hp r a i c hi hc]
  interval_cases c <;> simp [polyeta_pack_body2, u8_lt, mod256_lt]

set_option maxHeartbeats 4000000 in
theorem polyeta_pack2_bits (params : ml_dsa_params) (hp : params.eta = 2) (r : bytes) (a : poly)
    (ha : ∀ m, m < 256 → -2 ≤ a m ∧ a m ≤ 2)
    (m j : Nat) (hm : m < 256) (hj : j < 3) :
    (polyeta_pack params r a ((3 * m + j) / 8)).testBit ((3 * m + j) % 8) = (u8 (params.eta - a (m))).testBit j := by
  obtain ⟨i, c, hi, hc, rfl⟩ : ∃ i c, i < 32 ∧ c < 8 ∧ m = 8 * i + c :=
    ⟨m / 8, m % 8, by omega, by omega, by omega⟩
  have e1 : (3 * (8 * i + c) + j) / 8 = 3 * i + (3 * c + j) / 8 := by omega
  have e2 : (3 * (8 * i + c) + j) % 8 = (3 * c + j) % 8 := by omega
  rw [e1, e2, polyeta_pack2_at params hp r a i _ hi (by omega)]
  generalize forLoop i (polyeta_pack_body2 params a) r = R
  have c0 := tb_high (w := 3) (t := u8 (params.eta - a (8 * i + 0)))
    (by have := ha (8 * i + 0) (by omega); unfold u8; omega)
  have c1 := tb_high (w := 3) (t := u8 (params.eta - a (8 * i + 1)))
    (by have := ha (8 * i + 1) (by omega); unfold u8; omega)
  have c2 := tb_high (w := 3) (t := u8 (params.eta - a (8 * i + 2)))
    (by have := ha (8 * i + 2) (by omega); unfold u8; omega)
  have c3 := tb_high (w := 3) (t := u8 (params.eta - a (8 * i + 3)))
    (by have := ha (8 * i + 3) (by omega); unfold u8; omega)
  have c4 := tb_high (w := 3) (t := u8 (params.eta - a (8 * i + 4)))
    (by have := ha (8 * i + 4) (by omega); unfold u8; omega)
  have c5 := tb_high (w := 3) (t := u8 (params.eta - a (8 * i + 5)))
    (by have := ha (8 * i + 5) (by omega); unfold u8; omega)
  have c6 := tb_high (w := 3) (t := u8 (params.eta - a (8 * i + 6)))
    (by have := ha (8 * i + 6) (by omega); unfold u8; omega)
  have c7 := tb_high (w := 3) (t := u8 (params.eta - a (8 * i + 7)))
    (by have := ha (8 * i + 7) (by omega); unfold u8; omega)
  simp only [Nat.add_zero, Nat.one_mul] at c0
  interval_cases c <;> interval_cases j <;>
    simp [polyeta_pack_body2, u8_i32, u8_natCast, u32_cast_mod256, u32_i32, u32_natCast, u32_or_i32, or_i32, shr_i32_natCast, shl_i32_natCast, shl_u32, tb_mod256, tb_mod32, D, c0, c1, c2, c3, c4, c5, c6, c7, -Nat.testBit_zero]

theorem polyeta_unpack2_frame (params : ml_dsa_params) (a : bytes) (i : Nat) (r : poly) (j : Nat)
    (hj : j < 8 * i ∨ 8 * i + 8 ≤ j) : polyeta_unpack_body2 params a i r j = r j := by
  unfold polyeta_unpack_body2
  simp only [Function.update_apply]
  repeat (rw [if_neg (by omega)])

theorem polyeta_unpack2_at (params : ml_dsa_params) (hp : params.eta = 2) (r : poly) (a : bytes) (i c : Nat)
    (hi : i < 32) (hc : c < 8) :
    polyeta_unpack params r a (8 * i + c) = polyeta_unpack_body2 params a i (forLoop i (polyeta_unpack_body2 params a) r) (8 * i + c) := by
  have h1 : polyeta_unpack params r a = forLoop 32 (polyeta_unpack_body2 params a) r := by
    unfold polyeta_unpack; rw [if_pos hp]; rfl
  rw [h1, forLoop_block 8 _ (polyeta_unpack2_frame params a), if_pos (by omega)]
  have e : (8 * i + c) / 8 = i := by omega
  rw [e]

theorem polyeta_unpack2_range (params : ml_dsa_params) (hp : params.eta = 2) (r : poly) (b : bytes) (m : Nat) (hm : m < 256) :
    -2147483648 ≤ polyeta_unpack params r b m ∧ polyeta_unpack params r b m < 2147483648 := by
  obtain ⟨i, c, hi, hc, rfl⟩ : ∃ i c, i < 32 ∧ c < 8 ∧ m = 8 * i + c :=
    ⟨m / 8, m % 8, by omega, by omega, by omega⟩
  rw [polyeta_unpack2_at params hp r b i c hi hc]
  interval_cases c <;> simp [polyeta_unpack_body2, -Int.reduceNeg] <;> exact i32_range _

set_option maxHeartbeats 4000000 in
theorem polyeta_unpack2_bits (params : ml_dsa_params) (hp : params.eta = 2) (r : poly) (b : bytes)
    (hb : ∀ n, n < 96 → b n < 256) (m j : Nat) (hm : m < 256) :
    (u32 (params.eta - polyeta_unpack params r b m)).testBit j
      = (decide (j < 3) && (b ((3 * m + j) / 8)).testBit ((3 * m + j) % 8)) := by
  obtain ⟨i, c, hi, hc, rfl⟩ : ∃ i c, i < 32 ∧ c < 8 ∧ m = 8 * i + c :=
    ⟨m / 8, m % 8, by omega, by omega, by omega⟩
  have e1 : (3 * (8 * i + c) + j) / 8 = 3 * i + (3 * c + j) / 8 := by omega
  have e2 : (3 * (8 * i + c) + j) % 8 = (3 * c + j) % 8 := by omega
  rw [e1, e2, polyeta_unpack2_at params hp r b i c hi hc]
  generalize forLoop i (polyeta_unpack_body2 params b) r = R
  have c0 := tb_high (w := 8) (hb (3 * i + 0) (by omega))
  have c1 := tb_high (w := 8) (hb (3 * i + 1) (by omega))
  have c2 := tb_high (w := 8) (hb (3 * i + 2) (by omega))
  simp only [Nat.add_zero, Nat.one_mul] at c0
  by_cases hj : j < 3
  · interval_cases c <;> interval_cases j <;>
      simp [polyeta_unpack_body2, u32_sub_i32_sub, u32_i32, u32_natCast, u32_or_u32, u32_and_i32, u32_lit13, u32_lit18, u32_lit20, shl_u32, tb_mod32, tb_and7, tb_and15, tb_and1023, tb_and8191, tb_and262143, tb_and1048575, D, c0, c1, c2, -Nat.testBit_zero, -Nat.testBit_and]
  · interval_cases c <;>
      simp (disch := omega) [polyeta_unpack_body2, u32_sub_i32_sub, u32_i32, u32_natCast, u32_or_u32, u32_and_i32, u32_lit13, u32_lit18, u32_lit20, shl_u32, tb_mod32, tb_and7, tb_and15, tb_and1023, tb_and8191, tb_and262143, tb_and1048575, D, c0, c1, c2, hj, -Nat.testBit_zero, -Nat.testBit_and]

/-! ## The `eta` codec, `eta = 4` -/

theorem polyeta_pack4_frame (params : ml_dsa_params) (a : poly) (i : Nat) (r : bytes) (j : Nat)
    (hj : j < 1 * i ∨ 1 * i + 1 ≤ j) : polyeta_pack_body4 params a i r j = r j := by
  unfold polyeta_pack_body4
  simp only [Function.update_apply]
  repeat (rw [if_neg (by omega)])

theorem polyeta_pack4_at (params : ml_dsa_params) (hp : params.eta = 4) (r : bytes) (a : poly) (i : Nat)
    (hi : i < 128) :
    polyeta_pack params r a i = polyeta_pack_body4 params a i (forLoop i (polyeta_pack_body4 params a) r) i := by
  have h1 : polyeta_pack params r a = forLoop 128 (polyeta_pack_body4 params a) r := by
    unfold polyeta_pack; rw [if_neg (by rw [hp]; decide), if_pos hp]; rfl
  rw [h1, forLoop_block 1 _ (polyeta_pack4_frame params a), if_pos (by omega)]
  rw [Nat.div_one]

theorem polyeta_pack4_out (params : ml_dsa_params) (hp : params.eta = 4) (r : bytes) (a : poly) (j : Nat)
    (hj : 128 ≤ j) : polyeta_pack params r a j = r j := by
  have h1 : polyeta_pack params r a = forLoop 128 (polyeta_pack_body4 params a) r := by
    unfold polyeta_pack; rw [if_neg (by rw [hp]; decide), if_pos hp]; rfl
  rw [h1, forLoop_block 1 _ (polyeta_pack4_frame params a), if_neg (by omega)]

theorem polyeta_pack4_indep (params : ml_dsa_params) (hp : params.eta = 4) (r r' : bytes) (a : poly) (j : Nat)
    (hj : j < 128) : polyeta_pack params r a j = polyeta_pack params r' a j := by
  rw [polyeta_pack4_at params hp r a j hj, polyeta_pack4_at params hp r' a j hj]
  simp [polyeta_pack_body4]

theorem polyeta_pack4_lt (params : ml_dsa_params) (hp : params.eta = 4) (r : bytes) (a : poly) (j : Nat)
    (hj : j < 128) : polyeta_pack params r a j < 256 := by
  rw [polyeta_pack4_at params hp r a j hj]
  simp [polyeta_pack_body4, u8_lt, mod256_lt]

set_option maxHeartbeats 4000000 in
theorem polyeta_pack4_bits (params : ml_dsa_params) (hp : params.eta = 4) (r : bytes) (a : poly)
    (ha : ∀ m, m < 256 → -4 ≤ a m ∧ a m ≤ 4)
    (m j : Nat) (hm : m < 256) (hj : j < 4) :
    (polyeta_pack params r a ((4 * m + j) / 8)).testBit ((4 * m + j) % 8) = (u8 (params.eta - a (m))).testBit j := by
  obtain ⟨i, c, hi, hc, rfl⟩ : ∃ i c, i < 128 ∧ c < 2 ∧ m = 2 * i + c :=
    ⟨m / 2, m % 2, by omega, by omega, by omega⟩
  have e1 : (4 * (2 * i + c) + j) / 8 = i := by omega
  have e2 : (4 * (2 * i + c) + j) % 8 = (4 * c + j) % 8 := by omega
  rw [e1, e2, polyeta_pack4_at params hp r a i hi]
  generalize forLoop i (polyeta_pack_body4 params a) r = R
  have c0 := tb_high (w := 4) (t := u8 (params.eta - a (2 * i + 0)))
    (by have := ha (2 * i + 0) (by omega); unfold u8; omega)
  have c1 := tb_high (w := 4) (t := u8 (params.eta - a (2 * i + 1)))
    (by have := ha (2 * i + 1) (by omega); unfold u8; omega)
  simp only [Nat.add_zero, Nat.one_mul] at c0
  interval_cases c <;> interval_cases j <;>
    simp [polyeta_pack_body4, u8_i32, u8_natCast, u32_cast_mod256, u32_i32, u32_natCast, u32_or_i32, or_i32, shr_i32_natCast, shl_i32_natCast, shl_u32, tb_mod256, tb_mod32, D, c0, c1, -Nat.testBit_zero]

theorem polyeta_unpack4_frame (params : ml_dsa_params) (a : bytes) (i : Nat) (r : poly) (j : Nat)
    (hj : j < 2 * i ∨ 2 * i + 2 ≤ j) : polyeta_unpack_body4 params a i r j = r j := by
  unfold polyeta_unpack_body4
  simp only [Function.update_apply]
  repeat (rw [if_neg (by omega)])

theorem polyeta_unpack4_at (params : ml_dsa_params) (hp : params.eta = 4) (r : poly) (a : bytes) (i c : Nat)
    (hi : i < 128) (hc : c < 2) :
    polyeta_unpack params r a (2 * i + c) = polyeta_unpack_body4 params a i (forLoop i (polyeta_unpack_body4 params a) r) (2 * i + c) := by
  have h1 : polyeta_unpack params r a = forLoop 128 (polyeta_unpack_body4 params a) r := by
    unfold polyeta_unpack; rw [if_neg (by rw [hp]; decide), if_pos hp]; rfl
  rw [h1, forLoop_block 2 _ (polyeta_unpack4_frame params a), if_pos (by omega)]
  have e : (2 * i + c) / 2 = i := by omega
  rw [e]

theorem polyeta_unpack4_range (params : ml_dsa_params) (hp : params.eta = 4) (r : poly) (b : bytes) (m : Nat) (hm : m < 256) :
    -2147483648 ≤ polyeta_unpack params r b m ∧ polyeta_unpack params r b m < 2147483648 := by
  obtain ⟨i, c, hi, hc, rfl⟩ : ∃ i c, i < 128 ∧ c < 2 ∧ m = 2 * i + c :=
    ⟨m / 2, m % 2, by omega, by omega, by omega⟩
  rw [polyeta_unpack4_at params hp r b i c hi hc]
  interval_cases c <;> simp [polyeta_unpack_body4, -Int.reduceNeg] <;> exact i32_range _

set_option maxHeartbeats 4000000 in
theorem polyeta_unpack4_bits (params : ml_dsa_params) (hp : params.eta = 4) (r : poly) (b : bytes)
    (hb : ∀ n, n < 128 → b n < 256) (m j : Nat) (hm : m < 256) :
    (u32 (params.eta - polyeta_unpack params r b m)).testBit j
      = (decide (j < 4) && (b ((4 * m + j) / 8)).testBit ((4 * m + j) % 8)) := by
  obtain ⟨i, c, hi, hc, rfl⟩ : ∃ i c, i < 128 ∧ c < 2 ∧ m = 2 * i + c :=
    ⟨m / 2, m % 2, by omega, by omega, by omega⟩
  have e1 : (4 * (2 * i + c) + j) / 8 = i + (4 * c + j) / 8 := by omega
  have e2 : (4 * (2 * i + c) + j) % 8 = (4 * c + j) % 8 := by omega
  rw [e1, e2, polyeta_unpack4_at params hp r b i c hi hc]
  generalize forLoop i (polyeta_unpack_body4 params b) r = R
  have c0 := tb_high (w := 8) (hb i (by omega))
  simp only [Nat.add_zero, Nat.one_mul] at c0
  by_cases hj : j < 4
  · interval_cases c <;> interval_cases j <;>
      simp [polyeta_unpack_body4, u32_sub_i32_sub, u32_i32, u32_natCast, u32_or_u32, u32_and_i32, u32_lit13, u32_lit18, u32_lit20, shl_u32, tb_mod32, tb_and7, tb_and15, tb_and1023, tb_and8191, tb_and262143, tb_and1048575, D, c0, -Nat.testBit_zero, -Nat.testBit_and]
  · interval_cases c <;>
      simp (disch := omega) [polyeta_unpack_body4, u32_sub_i32_sub, u32_i32, u32_natCast, u32_or_u32, u32_and_i32, u32_lit13, u32_lit18, u32_lit20, shl_u32, tb_mod32, tb_and7, tb_and15, tb_and1023, tb_and8191, tb_and262143, tb_and1048575, D, c0, hj, -Nat.testBit_zero, -Nat.testBit_and]

/-! ## The `t0` codec -/

theorem polyt0_pack_frame (a : poly) (i : Nat) (r : bytes) (j : Nat)
    (hj : j < 13 * i ∨ 13 * i + 13 ≤ j) : polyt0_pack_body a i r j = r j := by
  unfold polyt0_pack_body
  simp only [Function.update_apply]
  repeat (rw [if_neg (by omega)])

theorem polyt0_pack_at (r : bytes) (a : poly) (i c : Nat)
    (hi : i < 32) (hc : c < 13) :
    polyt0_pack r a (13 * i + c) = polyt0_pack_body a i (forLoop i (polyt0_pack_body a) r) (13 * i + c) := by
  have h1 : polyt0_pack r a = forLoop 32 (polyt0_pack_body a) r := by
    rfl
  rw [h1, forLoop_block 13 _ (polyt0_pack_frame a), if_pos (by omega)]
  have e : (13 * i + c) / 13 = i := by omega
  rw [e]

theorem polyt0_pack_out (r : bytes) (a : poly) (j : Nat)
    (hj : 416 ≤ j) : polyt0_pack r a j = r j := by
  have h1 : polyt0_pack r a = forLoop 32 (polyt0_pack_body a) r := by
    rfl
  rw [h1, forLoop_block 13 _ (polyt0_pack_frame a), if_neg (by omega)]

theorem polyt0_pack_indep (r r' : bytes) (a : poly) (j : Nat)
    (hj : j < 416) : polyt0_pack r a j = polyt0_pack r' a j := by
  obtain ⟨i, c, hi, hc, rfl⟩ : ∃ i c, i < 32 ∧ c < 13 ∧ j = 13 * i + c :=
    ⟨j / 13, j % 13, by omega, by omega, by omega⟩
  rw [polyt0_pack_at r a i c hi hc, polyt0_pack_at r' a i c hi hc]
  interval_cases c <;> simp [polyt0_pack_body]

theorem polyt0_pack_lt (r : bytes) (a : poly) (j : Nat)
    (hj : j < 416) : polyt0_pack r a j < 256 := by
  obtain ⟨i, c, hi, hc, rfl⟩ : ∃ i c, i < 32 ∧ c < 13 ∧ j = 13 * i + c :=
    ⟨j / 13, j % 13, by omega, by omega, by omega⟩
  rw [polyt0_pack_at r a i c hi hc]
  interval_cases c <;> simp [polyt0_pack_body, u8_lt, mod256_lt]

set_option maxHeartbeats 4000000 in
theorem polyt0_pack_bits (r : bytes) (a : poly)
    (ha : ∀ m, m < 256 → -4096 < a m ∧ a m ≤ 4096)
    (m j : Nat) (hm : m < 256) (hj : j < 13) :
    (polyt0_pack r a ((13 * m + j) / 8)).testBit ((13 * m + j) % 8) = (u32 (4096 - a (m))).testBit j := by
  obtain ⟨i, c, hi, hc, rfl⟩ : ∃ i c, i < 32 ∧ c < 8 ∧ m = 8 * i + c :=
    ⟨m / 8, m % 8, by omega, by omega, by omega⟩
  have e1 : (13 * (8 * i + c) + j) / 8 = 13 * i + (13 * c + j) / 8 := by omega
  have e2 : (13 * (8 * i + c) + j) % 8 = (13 * c + j) % 8 := by omega
  rw [e1, e2, polyt0_pack_at r a i _ hi (by omega)]
  generalize forLoop i (polyt0_pack_body a) r = R
  have c0 := tb_high (w := 13) (t := u32 (4096 - a (8 * i + 0)))
    (by have := ha (8 * i + 0) (by omega); unfold u32; omega)
  have c1 := tb_high (w := 13) (t := u32 (4096 - a (8 * i + 1)))
    (by have := ha (8 * i + 1) (by omega); unfold u32; omega)
  have c2 := tb_high (w := 13) (t := u32 (4096 - a (8 * i + 2)))
    (by have := ha (8 * i + 2) (by omega); unfold u32; omega)
  have c3 := tb_high (w := 13) (t := u32 (4096 - a (8 * i + 3)))
    (by have := ha (8 * i + 3) (by omega); unfold u32; omega)
  have c4 := tb_high (w := 13) (t := u32 (4096 - a (8 * i + 4)))
    (by have := ha (8 * i + 4) (by omega); unfold u32; omega)
  have c5 := tb_high (w := 13) (t := u32 (4096 - a (8 * i + 5)))
    (by have := ha (8 * i + 5) (by omega); unfold u32; omega)
  have c6 := tb_high (w := 13) (t := u32 (4096 - a (8 * i + 6)))
    (by have := ha (8 * i + 6) (by omega); unfold u32; omega)
  have c7 := tb_high (w := 13) (t := u32 (4096 - a (8 * i + 7)))
    (by have := ha (8 * i + 7) (by omega); unfold u32; omega)
  simp only [Nat.add_zero, Nat.one_mul] at c0
  interval_cases c <;> interval_cases j <;>
    simp [polyt0_pack_body, u8_i32, u8_natCast, u32_cast_mod256, u32_i32, u32_natCast, u32_or_i32, or_i32, shr_i32_natCast, shl_i32_natCast, shl_u32, tb_mod256, tb_mod32, D, c0, c1, c2, c3, c4, c5, c6, c7, -Nat.testBit_zero]

theorem polyt0_unpack_frame (a : bytes) (i : Nat) (r : poly) (j : Nat)
    (hj : j < 8 * i ∨ 8 * i + 8 ≤ j) : polyt0_unpack_body a i r j = r j := by
  unfold polyt0_unpack_body
  simp only [Function.update_apply]
  repeat (rw [if_neg (by omega)])

theorem polyt0_unpack_at (r : poly) (a : bytes) (i c : Nat)
    (hi : i < 32) (hc : c < 8) :
    polyt0_unpack r a (8 * i + c) = polyt0_unpack_body a i (forLoop i (polyt0_unpack_body a) r) (8 * i + c) := by
  have h1 : polyt0_unpack r a = forLoop 32 (polyt0_unpack_body a) r := by
    rfl
  rw [h1, forLoop_block 8 _ (polyt0_unpack_frame a), if_pos (by omega)]
  have e : (8 * i + c) / 8 = i := by omega
  rw [e]

theorem polyt0_unpack_range (r : poly) (b : bytes) (m : Nat) (hm : m < 256) :
    -2147483648 ≤ polyt0_unpack r b m ∧ polyt0_unpack r b m < 2147483648 := by
  obtain ⟨i, c, hi, hc, rfl⟩ : ∃ i c, i < 32 ∧ c < 8 ∧ m = 8 * i + c :=
    ⟨m / 8, m % 8, by omega, by omega, by omega⟩
  rw [polyt0_unpack_at r b i c hi hc]
  interval_cases c <;> simp [polyt0_unpack_body, -Int.reduceNeg] <;> exact i32_range _

set_option maxHeartbeats 4000000 in
theorem polyt0_unpack_bits (r : poly) (b : bytes)
    (hb : ∀ n, n < 416 → b n < 256) (m j : Nat) (hm : m < 256) :
    (u32 (4096 - polyt0_unpack r b m)).testBit j
      = (decide (j < 13) && (b ((13 * m + j) / 8)).testBit ((13 * m + j) % 8)) := by
  obtain ⟨i, c, hi, hc, rfl⟩ : ∃ i c, i < 32 ∧ c < 8 ∧ m = 8 * i + c :=
    ⟨m / 8, m % 8, by omega, by omega, by omega⟩
  have e1 : (13 * (8 * i + c) + j) / 8 = 13 * i + (13 * c + j) / 8 := by omega
  have e2 : (13 * (8 * i + c) + j) % 8 = (13 * c + j) % 8 := by omega
  rw [e1, e2, polyt0_unpack_at r b i c hi hc]
  generalize forLoop i (polyt0_unpack_body b) r = R
  have c0 := tb_high (w := 8) (hb (13 * i + 0) (by omega))
  have c1 := tb_high (w := 8) (hb (13 * i + 1) (by omega))
  have c2 := tb_high (w := 8) (hb (13 * i + 2) (by omega))
  have c3 := tb_high (w := 8) (hb (13 * i + 3) (by omega))
  have c4 := tb_high (w := 8) (hb (13 * i + 4) (by omega))
  have c5 := tb_high (w := 8) (hb (13 * i + 5) (by omega))
  have c6 := tb_high (w := 8) (hb (13 * i + 6) (by omega))
  have c7 := tb_high (w := 8) (hb (13 * i + 7) (by omega))
  have c8 := tb_high (w := 8) (hb (13 * i + 8) (by omega))
  have c9 := tb_high (w := 8) (hb (13 * i + 9) (by omega))
  have c10 := tb_high (w := 8) (hb (13 * i + 10) (by omega))
  have c11 := tb_high (w := 8) (hb (13 * i + 11) (by omega))
  have c12 := tb_high (w := 8) (hb (13 * i + 12) (by omega))
  simp only [Nat.add_zero, Nat.one_mul] at c0
  by_cases hj : j < 13
  · interval_cases c <;> interval_cases j <;>
      simp [polyt0_unpack_body, u32_sub_i32_sub, u32_i32, u32_natCast, u32_or_u32, u32_and_i32, u32_lit13, u32_lit18, u32_lit20, shl_u32, tb_mod32, tb_and7, tb_and15, tb_and1023, tb_and8191, tb_and262143, tb_and1048575, D, c0, c1, c2, c3, c4, c5, c6, c7, c8, c9, c10, c11, c12, -Nat.testBit_zero, -Nat.testBit_and]
  · interval_cases c <;>
      simp (disch := omega) [polyt0_unpack_body, u32_sub_i32_sub, u32_i32, u32_natCast, u32_or_u32, u32_and_i32, u32_lit13, u32_lit18, u32_lit20, shl_u32, tb_mod32, tb_and7, tb_and15, tb_and1023, tb_and8191, tb_and262143, tb_and1048575, D, c0, c1, c2, c3, c4, c5, c6, c7, c8, c9, c10, c11, c12, hj, -Nat.testBit_zero, -Nat.testBit_and]

/-! ## The `z` codec, `gamma1 = 2^17` -/

theorem polyz_pack17_frame (params : ml_dsa_params) (a : poly) (i : Nat) (r : bytes) (j : Nat)
    (hj : j < 9 * i ∨ 9 * i + 9 ≤ j) : polyz_pack_body17 params a i r j = r j := by
  unfold polyz_pack_body17
  simp only [Function.update_apply]
  repeat (rw [if_neg (by omega)])

theorem polyz_pack17_at (params : ml_dsa_params) (hp : params.gamma1 = 131072) (r : bytes) (a : poly) (i c : Nat)
    (hi : i < 64) (hc : c < 9) :
    polyz_pack params r a (9 * i + c) = polyz_pack_body17 params a i (forLoop i (polyz_pack_body17 params a) r) (9 * i + c) := by
  have h1 : polyz_pack params r a = forLoop 64 (polyz_pack_body17 params a) r := by
    unfold polyz_pack; rw [if_pos (by rw [hp]; rfl)]; rfl
  rw [h1, forLoop_block 9 _ (polyz_pack17_frame params a), if_pos (by omega)]
  have e : (9 * i + c) / 9 = i := by omega
  rw [e]

theorem polyz_pack17_out (params : ml_dsa_params) (hp : params.gamma1 = 131072) (r : bytes) (a : poly) (j : Nat)
    (hj : 576 ≤ j) : polyz_pack params r a j = r j := by
  have h1 : polyz_pack params r a = forLoop 64 (polyz_pack_body17 params a) r := by
    unfold polyz_pack; rw [if_pos (by rw [hp]; rfl)]; rfl
  rw [h1, forLoop_block 9 _ (polyz_pack17_frame params a), if_neg (by omega)]

theorem polyz_pack17_indep (params : ml_dsa_params) (hp : params.gamma1 = 131072) (r r' : bytes) (a : poly) (j : Nat)
    (hj : j < 576) : polyz_pack params r a j = polyz_pack params r' a j := by
  obtain ⟨i, c, hi, hc, rfl⟩ : ∃ i c, i < 64 ∧ c < 9 ∧ j = 9 * i + c :=
    ⟨j / 9, j % 9, by omega, by omega, by omega⟩
  rw [polyz_pack17_at params hp r a i c hi hc, polyz_pack17_at params hp r' a i c hi hc]
  interval_cases c <;> simp [polyz_pack_body17]

theorem polyz_pack17_lt (params : ml_dsa_params) (hp : params.gamma1 = 131072) (r : bytes) (a : poly) (j : Nat)
    (hj : j < 576) : polyz_pack params r a j < 256 := by
  obtain ⟨i, c, hi, hc, rfl⟩ : ∃ i c, i < 64 ∧ c < 9 ∧ j = 9 * i + c :=
    ⟨j / 9, j % 9, by omega, by omega, by omega⟩
  rw [polyz_pack17_at params hp r a i c hi hc]
  interval_cases c <;> simp [polyz_pack_body17, u8_lt, mod256_lt]

set_option maxHeartbeats 4000000 in
theorem polyz_pack17_bits (params : ml_dsa_params) (hp : params.gamma1 = 131072) (r : bytes) (a : poly)
    (ha : ∀ m, m < 256 → -131071 ≤ a m ∧ a m ≤ 131072)
    (m j : Nat) (hm : m < 256) (hj : j < 18) :
    (polyz_pack params r a ((18 * m + j) / 8)).testBit ((18 * m + j) % 8) = (u32 (params.gamma1 - a (m))).testBit j := by
  obtain ⟨i, c, hi, hc, rfl⟩ : ∃ i c, i < 64 ∧ c < 4 ∧ m = 4 * i + c :=
    ⟨m / 4, m % 4, by omega, by omega, by omega⟩
  have e1 : (18 * (4 * i + c) + j) / 8 = 9 * i + (18 * c + j) / 8 := by omega
  have e2 : (18 * (4 * i + c) + j) % 8 = (18 * c + j) % 8 := by omega
  rw [e1, e2, polyz_pack17_at params hp r a i _ hi (by omega)]
  generalize forLoop i (polyz_pack_body17 params a) r = R
  have c0 := tb_high (w := 18) (t := u32 (params.gamma1 - a (4 * i + 0)))
    (by have := ha (4 * i + 0) (by omega); unfold u32; omega)
  have c1 := tb_high (w := 18) (t := u32 (params.gamma1 - a (4 * i + 1)))
    (by have := ha (4 * i + 1) (by omega); unfold u32; omega)
  have c2 := tb_high (w := 18) (t := u32 (params.gamma1 - a (4 * i + 2)))
    (by have := ha (4 * i + 2) (by omega); unfold u32; omega)
  have c3 := tb_high (w := 18) (t := u32 (params.gamma1 - a (4 * i + 3)))
    (by have := ha (4 * i + 3) (by omega); unfold u32; omega)
  simp only [Nat.add_zero, Nat.one_mul] at c0
  interval_cases c <;> interval_cases j <;>
    simp [polyz_pack_body17, u8_i32, u8_natCast, u32_cast_mod256, u32_i32, u32_natCast, u32_or_i32, or_i32, shr_i32_natCast, shl_i32_natCast, shl_u32, tb_mod256, tb_mod32, D, c0, c1, c2, c3, -Nat.testBit_zero]

theorem polyz_unpack17_frame (params : ml_dsa_params) (a : bytes) (i : Nat) (r : poly) (j : Nat)
    (hj : j < 4 * i ∨ 4 * i + 4 ≤ j) : polyz_unpack_body17 params a i r j = r j := by
  unfold polyz_unpack_body17
  simp only [Function.update_apply]
  repeat (rw [if_neg (by omega)])

theorem polyz_unpack17_at (params : ml_dsa_params) (hp : params.gamma1 = 131072) (r : poly) (a : bytes) (i c : Nat)
    (hi : i < 64) (hc : c < 4) :
    polyz_unpack params r a (4 * i + c) = polyz_unpack_body17 params a i (forLoop i (polyz_unpack_body17 params a) r) (4 * i + c) := by
  have h1 : polyz_unpack params r a = forLoop 64 (polyz_unpack_body17 params a) r := by
    unfold polyz_unpack; rw [if_pos (by rw [hp]; rfl)]; rfl
  rw [h1, forLoop_block 4 _ (polyz_unpack17_frame params a), if_pos (by omega)]
  have e : (4 * i + c) / 4 = i := by omega
  rw [e]

theorem polyz_unpack17_range (params : ml_dsa_params) (hp : params.gamma1 = 131072) (r : poly) (b : bytes) (m : Nat) (hm : m < 256) :
    -2147483648 ≤ polyz_unpack params r b m ∧ polyz_unpack params r b m < 2147483648 := by
  obtain ⟨i, c, hi, hc, rfl⟩ : ∃ i c, i < 64 ∧ c < 4 ∧ m = 4 * i + c :=
    ⟨m / 4, m % 4, by omega, by omega, by omega⟩
  rw [polyz_unpack17_at params hp r b i c hi hc]
  interval_cases c <;> simp [polyz_unpack_body17, -Int.reduceNeg] <;> exact i32_range _

set_option maxHeartbeats 4000000 in
theorem polyz_unpack17_bits (params : ml_dsa_params) (hp : params.gamma1 = 131072) (r : poly) (b : bytes)
    (hb : ∀ n, n < 576 → b n < 256) (m j : Nat) (hm : m < 256) :
    (u32 (params.gamma1 - polyz_unpack params r b m)).testBit j
      = (decide (j < 18) && (b ((18 * m + j) / 8)).testBit ((18 * m + j) % 8)) := by
  obtain ⟨i, c, hi, hc, rfl⟩ : ∃ i c, i < 64 ∧ c < 4 ∧ m = 4 * i + c :=
    ⟨m / 4, m % 4, by omega, by omega, by omega⟩
  have e1 : (18 * (4 * i + c) + j) / 8 = 9 * i + (18 * c + j) / 8 := by omega
  have e2 : (18 * (4 * i + c) + j) % 8 = (18 * c + j) % 8 := by omega
  rw [e1, e2, polyz_unpack17_at params hp r b i c hi hc]
  generalize forLoop i (polyz_unpack_body17 params b) r = R
  have c0 := tb_high (w := 8) (hb (9 * i + 0) (by omega))
  have c1 := tb_high (w := 8) (hb (9 * i + 1) (by omega))
  have c2 := tb_high (w := 8) (hb (9 * i + 2) (by omega))
  have c3 := tb_high (w := 8) (hb (9 * i + 3) (by omega))
  have c4 := tb_high (w := 8) (hb (9 * i + 4) (by omega))
  have c5 := tb_high (w := 8) (hb (9 * i + 5) (by omega))
  have c6 := tb_high (w := 8) (hb (9 * i + 6) (by omega))
  have c7 := tb_high (w := 8) (hb (9 * i + 7) (by omega))
  have c8 := tb_high (w := 8) (hb (9 * i + 8) (by omega))
  simp only [Nat.add_zero, Nat.one_mul] at c0
  by_cases hj : j < 18
  · interval_cases c <;> interval_cases j <;>
      simp [polyz_unpack_body17, u32_sub_i32_sub, u32_i32, u32_natCast, u32_or_u32, u32_and_i32, u32_lit13, u32_lit18, u32_lit20, shl_u32, tb_mod32, tb_and7, tb_and15, tb_and1023, tb_and8191, tb_and262143, tb_and1048575, D, c0, c1, c2, c3, c4, c5, c6, c7, c8, -Nat.testBit_zero, -Nat.testBit_and]
  · interval_cases c <;>
      simp (disch := omega) [polyz_unpack_body17, u32_sub_i32_sub, u32_i32, u32_natCast, u32_or_u32, u32_and_i32, u32_lit13, u32_lit18, u32_lit20, shl_u32, tb_mod32, tb_and7, tb_and15, tb_and1023, tb_and8191, tb_and262143, tb_and1048575, D, c0, c1, c2, c3, c4, c5, c6, c7, c8, hj, -Nat.testBit_zero, -Nat.testBit_and]

/-! ## The `z` codec, `gamma1 = 2^19` -/

theorem polyz_pack19_frame (params : ml_dsa_params) (a : poly) (i : Nat) (r : bytes) (j : Nat)
    (hj : j < 5 * i ∨ 5 * i + 5 ≤ j) : polyz_pack_body19 params a i r j = r j := by
  unfold polyz_pack_body19
  simp only [Function.update_apply]
  repeat (rw [if_neg (by omega)])

theorem polyz_pack19_at (params : ml_dsa_params) (hp : params.gamma1 = 524288) (r : bytes) (a : poly) (i c : Nat)
    (hi : i < 128) (hc : c < 5) :
    polyz_pack params r a (5 * i + c) = polyz_pack_body19 params a i (forLoop i (polyz_pack_body19 params a) r) (5 * i + c) := by
  have h1 : polyz_pack params r a = forLoop 128 (polyz_pack_body19 params a) r := by
    unfold polyz_pack; rw [if_neg (by rw [hp]; decide), if_pos (by rw [hp]; rfl)]; rfl
  rw [h1, forLoop_block 5 _ (polyz_pack19_frame params a), if_pos (by omega)]
  have e : (5 * i + c) / 5 = i := by omega
  rw [e]

theorem polyz_pack19_out (params : ml_dsa_params) (hp : params.gamma1 = 524288) (r : bytes) (a : poly) (j : Nat)
    (hj : 640 ≤ j) : polyz_pack params r a j = r j := by
  have h1 : polyz_pack params r a = forLoop 128 (polyz_pack_body19 params a) r := by
    unfold polyz_pack; rw [if_neg (by rw [hp]; decide), if_pos (by rw [hp]; rfl)]; rfl
  rw [h1, forLoop_block 5 _ (polyz_pack19_frame params a), if_neg (by omega)]

theorem polyz_pack19_indep (params : ml_dsa_params) (hp : params.gamma1 = 524288) (r r' : bytes) (a : poly) (j : Nat)
    (hj : j < 640) : polyz_pack params r a j = polyz_pack params r' a j := by
  obtain ⟨i, c, hi, hc, rfl⟩ : ∃ i c, i < 128 ∧ c < 5 ∧ j = 5 * i + c :=
    ⟨j / 5, j % 5, by omega, by omega, by omega⟩
  rw [polyz_pack19_at params hp r a i c hi hc, polyz_pack19_at params hp r' a i c hi hc]
  interval_cases c <;> simp [polyz_pack_body19]

theorem polyz_pack19_lt (params : ml_dsa_params) (hp : params.gamma1 = 524288) (r : bytes) (a : poly) (j : Nat)
    (hj : j < 640) : polyz_pack params r a j < 256 := by
  obtain ⟨i, c, hi, hc, rfl⟩ : ∃ i c, i < 128 ∧ c < 5 ∧ j = 5 * i + c :=
    ⟨j / 5, j % 5, by omega, by omega, by omega⟩
  rw [polyz_pack19_at params hp r a i c hi hc]
  interval_cases c <;> simp [polyz_pack_body19, u8_lt, mod256_lt]

set_option maxHeartbeats 4000000 in
theorem polyz_pack19_bits (params : ml_dsa_params) (hp : params.gamma1 = 524288) (r : bytes) (a : poly)
    (ha : ∀ m, m < 256 → -524287 ≤ a m ∧ a m ≤ 524288)
    (m j : Nat) (hm : m < 256) (hj : j < 20) :
    (polyz_pack params r a ((20 * m + j) / 8)).testBit ((20 * m + j) % 8) = (u32 (params.gamma1 - a (m))).testBit j := by
  obtain ⟨i, c, hi, hc, rfl⟩ : ∃ i c, i < 128 ∧ c < 2 ∧ m = 2 * i + c :=
    ⟨m / 2, m % 2, by omega, by omega, by omega⟩
  have e1 : (20 * (2 * i + c) + j) / 8 = 5 * i + (20 * c + j) / 8 := by omega
  have e2 : (20 * (2 * i + c) + j) % 8 = (20 * c + j) % 8 := by omega
  rw [e1, e2, polyz_pack19_at params hp r a i _ hi (by omega)]
  generalize forLoop i (polyz_pack_body19 params a) r = R
  have c0 := tb_high (w := 20) (t := u32 (params.gamma1 - a (2 * i + 0)))
    (by have := ha (2 * i + 0) (by omega); unfold u32; omega)
  have c1 := tb_high (w := 20) (t := u32 (params.gamma1 - a (2 * i + 1)))
    (by have := ha (2 * i + 1) (by omega); unfold u32; omega)
  simp only [Nat.add_zero, Nat.one_mul] at c0
  interval_cases c <;> interval_cases j <;>
    simp [polyz_pack_body19, u8_i32, u8_natCast, u32_cast_mod256, u32_i32, u32_natCast, u32_or_i32, or_i32, shr_i32_natCast, shl_i32_natCast, shl_u32, tb_mod256, tb_mod32, D, c0, c1, -Nat.testBit_zero]

theorem polyz_unpack19_frame (params : ml_dsa_params) (a : bytes) (i : Nat) (r : poly) (j : Nat)
    (hj : j < 2 * i ∨ 2 * i + 2 ≤ j) : polyz_unpack_body19 params a i r j = r j := by
  unfold polyz_unpack_body19
  simp only [Function.update_apply]
  repeat (rw [if_neg (by omega)])

theorem polyz_unpack19_at (params : ml_dsa_params) (hp : params.gamma1 = 524288) (r : poly) (a : bytes) (i c : Nat)
    (hi : i < 128) (hc : c < 2) :
    polyz_unpack params r a (2 * i + c) = polyz_unpack_body19 params a i (forLoop i (polyz_unpack_body19 params a) r) (2 * i + c) := by
  have h1 : polyz_unpack params r a = forLoop 128 (polyz_unpack_body19 params a) r := by
    unfold polyz_unpack; rw [if_neg (by rw [hp]; decide), if_pos (by rw [hp]; rfl)]; rfl
  rw [h1, forLoop_block 2 _ (polyz_unpack19_frame params a), if_pos (by omega)]
  have e : (2 * i + c) / 2 = i := by omega
  rw [e]

theorem polyz_unpack19_range (params : ml_dsa_params) (hp : params.gamma1 = 524288) (r : poly) (b : bytes) (m : Nat) (hm : m < 256) :
    -2147483648 ≤ polyz_unpack params r b m ∧ polyz_unpack params r b m < 2147483648 := by
  obtain ⟨i, c, hi, hc, rfl⟩ : ∃ i c, i < 128 ∧ c < 2 ∧ m = 2 * i + c :=
    ⟨m / 2, m % 2, by omega, by omega, by omega⟩
  rw [polyz_unpack19_at params hp r b i c hi hc]
  interval_cases c <;> simp [polyz_unpack_body19, -Int.reduceNeg] <;> exact i32_range _

set_option maxHeartbeats 4000000 in
theorem polyz_unpack19_bits (params : ml_dsa_params) (hp : params.gamma1 = 524288) (r : poly) (b : bytes)
    (hb : ∀ n, n < 640 → b n < 256) (m j : Nat) (hm : m < 256) :
    (u32 (params.gamma1 - polyz_unpack params r b m)).testBit j
      = (decide (j < 20) && (b ((20 * m + j) / 8)).testBit ((20 * m + j) % 8)) := by
  obtain ⟨i, c, hi, hc, rfl⟩ : ∃ i c, i < 128 ∧ c < 2 ∧ m = 2 * i + c :=
    ⟨m / 2, m % 2, by omega, by omega, by omega⟩
  have e1 : (20 * (2 * i + c) + j) / 8 = 5 * i + (20 * c + j) / 8 := by omega
  have e2 : (20 * (2 * i + c) + j) % 8 = (20 * c + j) % 8 := by omega
  rw [e1, e2, polyz_unpack19_at params hp r b i c hi hc]
  generalize forLoop i (polyz_unpack_body19 params b) r = R
  have c0 := tb_high (w := 8) (hb (5 * i + 0) (by omega))
  have c1 := tb_high (w := 8) (hb (5 * i + 1) (by omega))
  have c2 := tb_high (w := 8) (hb (5 * i + 2) (by omega))
  have c3 := tb_high (w := 8) (hb (5 * i + 3) (by omega))
  have c4 := tb_high (w := 8) (hb (5 * i + 4) (by omega))
  simp only [Nat.add_zero, Nat.one_mul] at c0
  by_cases hj : j < 20
  · interval_cases c <;> interval_cases j <;>
      simp [polyz_unpack_body19, u32_sub_i32_sub, u32_i32, u32_natCast, u32_or_u32, u32_and_i32, u32_lit13, u32_lit18, u32_lit20, shl_u32, tb_mod32, tb_and7, tb_and15, tb_and1023, tb_and8191, tb_and262143, tb_and1048575, D, c0, c1, c2, c3, c4, -Nat.testBit_zero, -Nat.testBit_and]
  · interval_cases c <;>
      simp (disch := omega) [polyz_unpack_body19, u32_sub_i32_sub, u32_i32, u32_natCast, u32_or_u32, u32_and_i32, u32_lit13, u32_lit18, u32_lit20, shl_u32, tb_mod32, tb_and7, tb_and15, tb_and1023, tb_and8191, tb_and262143, tb_and1048575, D, c0, c1, c2, c3, c4, hj, -Nat.testBit_zero, -Nat.testBit_and]

/-! ## The `w1` codec, `gamma2 = (Q-1)/88` -/

theorem polyw1_pack88_frame (a : poly) (i : Nat) (r : bytes) (j : Nat)
    (hj : j < 3 * i ∨ 3 * i + 3 ≤ j) : polyw1_pack_body88 a i r j = r j := by
  unfold polyw1_pack_body88
  simp only [Function.update_apply]
  repeat (rw [if_neg (by omega)])

theorem polyw1_pack88_at (params : ml_dsa_params) (hp : params.gamma2 = (Q - 1) / 88) (r : bytes) (a : poly) (i c : Nat)
    (hi : i < 64) (hc : c < 3) :
    polyw1_pack params r a (3 * i + c) = polyw1_pack_body88 a i (forLoop i (polyw1_pack_body88 a) r) (3 * i + c) := by
  have h1 : polyw1_pack params r a = forLoop 64 (polyw1_pack_body88 a) r := by
    unfold polyw1_pack; rw [if_pos hp]; rfl
  rw [h1, forLoop_block 3 _ (polyw1_pack88_frame a), if_pos (by omega)]
  have e : (3 * i + c) / 3 = i := by omega
  rw [e]

theorem polyw1_pack88_out (params : ml_dsa_params) (hp : params.gamma2 = (Q - 1) / 88) (r : bytes) (a : poly) (j : Nat)
    (hj : 192 ≤ j) : polyw1_pack params r a j = r j := by
  have h1 : polyw1_pack params r a = forLoop 64 (polyw1_pack_body88 a) r := by
    unfold polyw1_pack; rw [if_pos hp]; rfl
  rw [h1, forLoop_block 3 _ (polyw1_pack88_frame a), if_neg (by omega)]

theorem polyw1_pack88_indep (params : ml_dsa_params) (hp : params.gamma2 = (Q - 1) / 88) (r r' : bytes) (a : poly) (j : Nat)
    (hj : j < 192) : polyw1_pack params r a j = polyw1_pack params r' a j := by
  obtain ⟨i, c, hi, hc, rfl⟩ : ∃ i c, i < 64 ∧ c < 3 ∧ j = 3 * i + c :=
    ⟨j / 3, j % 3, by omega, by omega, by omega⟩
  rw [polyw1_pack88_at params hp r a i c hi hc, polyw1_pack88_at params hp r' a i c hi hc]
  interval_cases c <;> simp [polyw1_pack_body88]

theorem polyw1_pack88_lt (params : ml_dsa_params) (hp : params.gamma2 = (Q - 1) / 88) (r : bytes) (a : poly) (j : Nat)
    (hj : j < 192) : polyw1_pack params r a j < 256 := by
  obtain ⟨i, c, hi, hc, rfl⟩ : ∃ i c, i < 64 ∧ c < 3 ∧ j = 3 * i + c :=
    ⟨j / 3, j % 3, by omega, by omega, by omega⟩
  rw [polyw1_pack88_at params hp r a i c hi hc]
  interval_cases c <;> simp [polyw1_pack_body88, u8_lt, mod256_lt]

set_option maxHeartbeats 4000000 in
theorem polyw1_pack88_bits (params : ml_dsa_params) (hp : params.gamma2 = (Q - 1) / 88) (r : bytes) (a : poly)
    (ha : ∀ m, m < 256 → 0 ≤ a m ∧ a m ≤ 43)
    (m j : Nat) (hm : m < 256) (hj : j < 6) :
    (polyw1_pack params r a ((6 * m + j) / 8)).testBit ((6 * m + j) % 8) = ((a (m)).toNat).testBit j := by
  obtain ⟨i, c, hi, hc, rfl⟩ : ∃ i c, i < 64 ∧ c < 4 ∧ m = 4 * i + c :=
    ⟨m / 4, m % 4, by omega, by omega, by omega⟩
  have e1 : (6 * (4 * i + c) + j) / 8 = 3 * i + (6 * c + j) / 8 := by omega
  have e2 : (6 * (4 * i + c) + j) % 8 = (6 * c + j) % 8 := by omega
  rw [e1, e2, polyw1_pack88_at params hp r a i _ hi (by omega)]
  generalize forLoop i (polyw1_pack_body88 a) r = R
  obtain ⟨t0, h0⟩ : ∃ t : Nat, a (4 * i + 0) = t :=
    ⟨(a (4 * i + 0)).toNat, by have := ha (4 * i + 0) (by omega); omega⟩
  have c0 := tb_high (w := 6) (t := t0) (by have := ha (4 * i + 0) (by omega); omega)
  obtain ⟨t1, h1⟩ : ∃ t : Nat, a (4 * i + 1) = t :=
    ⟨(a (4 * i + 1)).toNat, by have := ha (4 * i + 1) (by omega); omega⟩
  have c1 := tb_high (w := 6) (t := t1) (by have := ha (4 * i + 1) (by omega); omega)
  obtain ⟨t2, h2⟩ : ∃ t : Nat, a (4 * i + 2) = t :=
    ⟨(a (4 * i + 2)).toNat, by have := ha (4 * i + 2) (by omega); omega⟩
  have c2 := tb_high (w := 6) (t := t2) (by have := ha (4 * i + 2) (by omega); omega)
  obtain ⟨t3, h3⟩ : ∃ t : Nat, a (4 * i + 3) = t :=
    ⟨(a (4 * i + 3)).toNat, by have := ha (4 * i + 3) (by omega); omega⟩
  have c3 := tb_high (w := 6) (t := t3) (by have := ha (4 * i + 3) (by omega); omega)
  simp only [Nat.add_zero, Nat.one_mul] at h0
  interval_cases c <;> interval_cases j <;>
    simp [polyw1_pack_body88, h0, h1, h2, h3, u8_i32, u8_natCast, u32_cast_mod256, u32_i32, u32_natCast, u32_or_i32, or_i32, shr_i32_natCast, shl_i32_natCast, shl_u32, tb_mod256, tb_mod32, D, c0, c1, c2, c3, -Nat.testBit_zero]

/-! ## The `w1` codec, `gamma2 = (Q-1)/32` -/

theorem polyw1_pack32_frame (a : poly) (i : Nat) (r : bytes) (j : Nat)
    (hj : j < 1 * i ∨ 1 * i + 1 ≤ j) : polyw1_pack_body32 a i r j = r j := by
  unfold polyw1_pack_body32
  simp only [Function.update_apply]
  repeat (rw [if_neg (by omega)])

theorem polyw1_pack32_at (params : ml_dsa_params) (hp : params.gamma2 = (Q - 1) / 32) (r : bytes) (a : poly) (i : Nat)
    (hi : i < 128) :
    polyw1_pack params r a i = polyw1_pack_body32 a i (forLoop i (polyw1_pack_body32 a) r) i := by
  have h1 : polyw1_pack params r a = forLoop 128 (polyw1_pack_body32 a) r := by
    unfold polyw1_pack; rw [if_neg (by rw [hp]; decide), if_pos hp]; rfl
  rw [h1, forLoop_block 1 _ (polyw1_pack32_frame a), if_pos (by omega)]
  rw [Nat.div_one]

theorem polyw1_pack32_out (params : ml_dsa_params) (hp : params.gamma2 = (Q - 1) / 32) (r : bytes) (a : poly) (j : Nat)
    (hj : 128 ≤ j) : polyw1_pack params r a j = r j := by
  have h1 : polyw1_pack params r a = forLoop 128 (polyw1_pack_body32 a) r := by
    unfold polyw1_pack; rw [if_neg (by rw [hp]; decide), if_pos hp]; rfl
  rw [h1, forLoop_block 1 _ (polyw1_pack32_frame a), if_neg (by omega)]

theorem polyw1_pack32_indep (params : ml_dsa_params) (hp : params.gamma2 = (Q - 1) / 32) (r r' : bytes) (a : poly) (j : Nat)
    (hj : j < 128) : polyw1_pack params r a j = polyw1_pack params r' a j := by
  rw [polyw1_pack32_at params hp r a j hj, polyw1_pack32_at params hp r' a j hj]
  simp [polyw1_pack_body32]

theorem polyw1_pack32_lt (params : ml_dsa_params) (hp : params.gamma2 = (Q - 1) / 32) (r : bytes) (a : poly) (j : Nat)
    (hj : j < 128) : polyw1_pack params r a j < 256 := by
  rw [polyw1_pack32_at params hp r a j hj]
  simp [polyw1_pack_body32, u8_lt, mod256_lt]

set_option maxHeartbeats 4000000 in
theorem polyw1_pack32_bits (params : ml_dsa_params) (hp : params.gamma2 = (Q - 1) / 32) (r : bytes) (a : poly)
    (ha : ∀ m, m < 256 → 0 ≤ a m ∧ a m ≤ 15)
    (m j : Nat) (hm : m < 256) (hj : j < 4) :
    (polyw1_pack params r a ((4 * m + j) / 8)).testBit ((4 * m + j) % 8) = ((a (m)).toNat).testBit j := by
  obtain ⟨i, c, hi, hc, rfl⟩ : ∃ i c, i < 128 ∧ c < 2 ∧ m = 2 * i + c :=
    ⟨m / 2, m % 2, by omega, by omega, by omega⟩
  have e1 : (4 * (2 * i + c) + j) / 8 = i := by omega
  have e2 : (4 * (2 * i + c) + j) % 8 = (4 * c + j) % 8 := by omega
  rw [e1, e2, polyw1_pack32_at params hp r a i hi]
  generalize forLoop i (polyw1_pack_body32 a) r = R
  obtain ⟨t0, h0⟩ : ∃ t : Nat, a (2 * i + 0) = t :=
    ⟨(a (2 * i + 0)).toNat, by have := ha (2 * i + 0) (by omega); omega⟩
  have c0 := tb_high (w := 4) (t := t0) (by have := ha (2 * i + 0) (by omega); omega)
  obtain ⟨t1, h1⟩ : ∃ t : Nat, a (2 * i + 1) = t :=
    ⟨(a (2 * i + 1)).toNat, by have := ha (2 * i + 1) (by omega); omega⟩
  have c1 := tb_high (w := 4) (t := t1) (by have := ha (2 * i + 1) (by omega); omega)
  simp only [Nat.add_zero, Nat.one_mul] at h0
  interval_cases c <;> interval_cases j <;>
    simp [polyw1_pack_body32, h0, h1, u8_i32, u8_natCast, u32_cast_mod256, u32_i32, u32_natCast, u32_or_i32, or_i32, shr_i32_natCast, shl_i32_natCast, shl_u32, tb_mod256, tb_mod32, D, c0, c1, -Nat.testBit_zero]

/-! ## Round trips -/

theorem polyeta_roundtrip2 (params : ml_dsa_params) (hp : params.eta = 2) (r : poly)
    (r' : bytes) (a : poly) (ha : ∀ m, m < 256 → -2 ≤ a m ∧ a m ≤ 2) (m : Nat) (hm : m < 256) :
    polyeta_unpack params r (polyeta_pack params r' a) m = a m := by
  have hX := polyeta_unpack2_bits params hp r (polyeta_pack params r' a)
    (polyeta_pack2_lt params hp r' a) m
  have hE := eq_of_stream_bits 3 (polyeta_pack params r' a) m _ (u8 (params.eta - a m))
    (fun j => hX j hm) (fun j hj => polyeta_pack2_bits params hp r' a ha m j hm hj)
    (by have := ha m hm; unfold u8; omega)
  have hr := polyeta_unpack2_range params hp r (polyeta_pack params r' a) m hm
  have := ha m hm
  unfold u32 u8 at hE
  omega

theorem polyeta_roundtrip4 (params : ml_dsa_params) (hp : params.eta = 4) (r : poly)
    (r' : bytes) (a : poly) (ha : ∀ m, m < 256 → -4 ≤ a m ∧ a m ≤ 4) (m : Nat) (hm : m < 256) :
    polyeta_unpack params r (polyeta_pack params r' a) m = a m := by
  have hX := polyeta_unpack4_bits params hp r (polyeta_pack params r' a)
    (polyeta_pack4_lt params hp r' a) m
  have hE := eq_of_stream_bits 4 (polyeta_pack params r' a) m _ (u8 (params.eta - a m))
    (fun j => hX j hm) (fun j hj => polyeta_pack4_bits params hp r' a ha m j hm hj)
    (by have := ha m hm; unfold u8; omega)
  have hr := polyeta_unpack4_range params hp r (polyeta_pack params r' a) m hm
  have := ha m hm
  unfold u32 u8 at hE
  omega

theorem polyz_roundtrip17 (params : ml_dsa_params) (hp : params.gamma1 = 131072) (r : poly)
    (r' : bytes) (a : poly) (ha : ∀ m, m < 256 → -131071 ≤ a m ∧ a m ≤ 131072)
    (m : Nat) (hm : m < 256) :
    polyz_unpack params r (polyz_pack params r' a) m = a m := by
  have hX := polyz_unpack17_bits params hp r (polyz_pack params r' a)
    (polyz_pack17_lt params hp r' a) m
  have hE := eq_of_stream_bits 18 (polyz_pack params r' a) m _ (u32 (params.gamma1 - a m))
    (fun j => hX j hm) (fun j hj => polyz_pack17_bits params hp r' a ha m j hm hj)
    (by have := ha m hm; unfold u32; omega)
  have hr := polyz_unpack17_range params hp r (polyz_pack params r' a) m hm
  exact u32_inj_i32 _ _ _ hr (by have := ha m hm; omega) hE

theorem polyz_roundtrip19 (params : ml_dsa_params) (hp : params.gamma1 = 524288) (r : poly)
    (r' : bytes) (a : poly) (ha : ∀ m, m < 256 → -524287 ≤ a m ∧ a m ≤ 524288)
    (m : Nat) (hm : m < 256) :
    polyz_unpack params r (polyz_pack params r' a) m = a m := by
  have hX := polyz_unpack19_bits params hp r (polyz_pack params r' a)
    (polyz_pack19_lt params hp r' a) m
  have hE := eq_of_stream_bits 20 (polyz_pack params r' a) m _ (u32 (params.gamma1 - a m))
    (fun j => hX j hm) (fun j hj => polyz_pack19_bits params hp r' a ha m j hm hj)
    (by have := ha m hm; unfold u32; omega)
  have hr := polyz_unpack19_range params hp r (polyz_pack params r' a) m hm
  exact u32_inj_i32 _ _ _ hr (by have := ha m hm; omega) hE

/-- C1.  Narrow-field round trip: for `eta` in `{2, 4}` and every polynomial whose 256
coefficients all lie in `[-eta, eta]`, `polyeta_unpack` applied to the output of
`polyeta_pack` gives back every coefficient, whatever the prior contents of the two output
arrays. -/
theorem polyeta_unpack_pack (params : ml_dsa_params) (heta : params.eta = 2 ∨ params.eta = 4)
    (r : poly) (r' : bytes) (a : poly)
    (ha : ∀ m, m < 256 → -params.eta ≤ a m ∧ a m ≤ params.eta) :
    ∀ m, m < 256 → polyeta_unpack params r (polyeta_pack params r' a) m = a m := by
  intro m hm
  rcases heta with hp | hp
  · exact polyeta_roundtrip2 params hp r r' a (fun k hk => by have := ha k hk; omega) m hm
  · exact polyeta_roundtrip4 params hp r r' a (fun k hk => by have := ha k hk; omega) m hm

theorem polyeta_unpack_pack_witness :
    (∀ m, m < 256 → -(2 : Int) ≤ (fun _ => 1 : poly) m ∧ (fun _ => 1 : poly) m ≤ 2) ∧
    ∀ m, m < 256 →
      polyeta_unpack ⟨2, 39, 131072, 95232, 32⟩ (fun _ => 0)
        (polyeta_pack ⟨2, 39, 131072, 95232, 32⟩ (fun _ => 0) (fun _ => 1)) m = 1 :=
  ⟨fun _ _ => by norm_num [D],
   polyeta_unpack_pack ⟨2, 39, 131072, 95232, 32⟩ (Or.inl rfl) (fun _ => 0) (fun _ => 0)
     (fun _ => 1) (fun _ _ => by norm_num [D])⟩

/-- C2.  Wide-field round trip: for `gamma1` in `{2^17, 2^19}` and every polynomial whose
256 coefficients all lie in `[-(gamma1-1), gamma1]`, `polyz_unpack` applied to the output
of `polyz_pack` gives back every coefficient. -/
theorem polyz_unpack_pack (params : ml_dsa_params)
    (hg : params.gamma1 = 2 ^ 17 ∨ params.gamma1 = 2 ^ 19)
    (r : poly) (r' : bytes) (a : poly)
    (ha : ∀ m, m < 256 → -(params.gamma1 - 1) ≤ a m ∧ a m ≤ params.gamma1) :
    ∀ m, m < 256 → polyz_unpack params r (polyz_pack params r' a) m = a m := by
  intro m hm
  rcases hg with hp | hp
  · have hp' : params.gamma1 = 131072 := by rw [hp]; norm_num
    exact polyz_roundtrip17 params hp' r r' a (fun k hk => by have := ha k hk; omega) m hm
  · have hp' : params.gamma1 = 524288 := by rw [hp]; norm_num
    exact polyz_roundtrip19 params hp' r r' a (fun k hk => by have := ha k hk; omega) m hm

theorem polyz_unpack_pack_witness :
    (∀ m, m < 256 → -((2 : Int) ^ 19 - 1) ≤ (fun _ => -524287 : poly) m ∧
      (fun _ => -524287 : poly) m ≤ 2 ^ 19) ∧
    ∀ m, m < 256 →
      polyz_unpack ⟨4, 49, 2 ^ 19, 261888, 48⟩ (fun _ => 0)
        (polyz_pack ⟨4, 49, 2 ^ 19, 261888, 48⟩ (fun _ => 0) (fun _ => -524287)) m = -524287 :=
  ⟨fun _ _ => by norm_num [D],
   polyz_unpack_pack ⟨4, 49, 2 ^ 19, 261888, 48⟩ (Or.inr rfl) (fun _ => 0) (fun _ => 0)
     (fun _ => -524287) (fun _ _ => by norm_num [D])⟩

/-- C3.  LowBits round trip: for every polynomial whose 256 coefficients all lie in
`(-2^(D-1), 2^(D-1)]` with `D = 13`, `polyt0_unpack` applied to the output of `polyt0_pack`
gives back every coefficient. -/
theorem polyt0_unpack_pack (r : poly) (r' : bytes) (a : poly)
    (ha : ∀ m, m < 256 → -(2 : Int) ^ (D - 1) < a m ∧ a m ≤ 2 ^ (D - 1)) :
    ∀ m, m < 256 → polyt0_unpack r (polyt0_pack r' a) m = a m := by
  intro m hm
  have hD : (2 : Int) ^ (D - 1) = 4096 := by norm_num [D]
  have ha' : ∀ k, k < 256 → -4096 < a k ∧ a k ≤ 4096 := fun k hk => by
    have := ha k hk; rw [hD] at this; omega
  have hX := polyt0_unpack_bits r (polyt0_pack r' a) (polyt0_pack_lt r' a) m
  have hE := eq_of_stream_bits 13 (polyt0_pack r' a) m _ (u32 (4096 - a m))
    (fun j => hX j hm) (fun j hj => polyt0_pack_bits r' a ha' m j hm hj)
    (by have := ha' m hm; unfold u32; omega)
  have hr := polyt0_unpack_range r (polyt0_pack r' a) m hm
  exact u32_inj_i32 _ _ _ hr (by have := ha' m hm; omega) hE

theorem polyt0_unpack_pack_witness :
    (∀ m, m < 256 → -(2 : Int) ^ (D - 1) < (fun _ => 4096 : poly) m ∧
      (fun _ => 4096 : poly) m ≤ 2 ^ (D - 1)) ∧
    ∀ m, m < 256 → polyt0_unpack (fun _ => 0) (polyt0_pack (fun _ => 0) (fun _ => 4096)) m = 4096 :=
  ⟨fun _ _ => by norm_num [D],
   polyt0_unpack_pack (fun _ => 0) (fun _ => 0) (fun _ => 4096) (fun _ _ => by norm_num [D])⟩

/-- C4.  HighBits round trip: for every polynomial whose 256 coefficients all lie in
`[0, 1023]`, `polyt1_unpack` applied to the output of `polyt1_pack` gives back every
coefficient. -/
theorem polyt1_unpack_pack (r : poly) (r' : bytes) (a : poly)
    (ha : ∀ m, m < 256 → 0 ≤ a m ∧ a m ≤ 1023) :
    ∀ m, m < 256 → polyt1_unpack r (polyt1_pack r' a) m = a m := by
  intro m hm
  have hX := polyt1_unpack_bits r (polyt1_pack r' a) (polyt1_pack_lt r' a) m
  have hE := eq_of_stream_bits 10 (polyt1_pack r' a) m _ (a m).toNat (fun j => hX j hm)
    (fun j hj => polyt1_pack_bits r' a ha m j hm hj) (by have := ha m hm; omega)
  have hr := polyt1_unpack_range r (polyt1_pack r' a) m hm
  have := ha m hm
  unfold u32 at hE
  omega

theorem polyt1_unpack_pack_witness :
    (∀ m, m < 256 → (0 : Int) ≤ (fun _ => 1023 : poly) m ∧ (fun _ => 1023 : poly) m ≤ 1023) ∧
    ∀ m, m < 256 → polyt1_unpack (fun _ => 0) (polyt1_pack (fun _ => 0) (fun _ => 1023)) m = 1023 :=
  ⟨fun _ _ => by norm_num [D],
   polyt1_unpack_pack (fun _ => 0) (fun _ => 0) (fun _ => 1023) (fun _ _ => by norm_num [D])⟩


/-! ## Packed sizes and byte layout -/

/-- C5.  Packed sizes: for every input polynomial each packer assigns exactly the bytes
`r[0 .. P-1]` and no byte at an index `≥ P`, with `P = 96` (`eta = 2`), `128` (`eta = 4`),
`320` (`t1`), `416` (`t0`), `576` (`gamma1 = 2^17`), `640` (`gamma1 = 2^19`),
`192` (`gamma2 = (Q-1)/88`) and `128` (`gamma2 = (Q-1)/32`). -/
theorem packed_sizes (params : ml_dsa_params) (a : poly) :
    assigns_exactly 96 (fun r => polyeta_pack { params with eta := 2 } r a) ∧
    assigns_exactly 128 (fun r => polyeta_pack { params with eta := 4 } r a) ∧
    assigns_exactly 320 (fun r => polyt1_pack r a) ∧
    assigns_exactly 416 (fun r => polyt0_pack r a) ∧
    assigns_exactly 576 (fun r => polyz_pack { params with gamma1 := 2 ^ 17 } r a) ∧
    assigns_exactly 640 (fun r => polyz_pack { params with gamma1 := 2 ^ 19 } r a) ∧
    assigns_exactly 192 (fun r => polyw1_pack { params with gamma2 := (Q - 1) / 88 } r a) ∧
    assigns_exactly 128 (fun r => polyw1_pack { params with gamma2 := (Q - 1) / 32 } r a) := by
  refine ⟨⟨?_, ?_⟩, ⟨?_, ?_⟩, ⟨?_, ?_⟩, ⟨?_, ?_⟩, ⟨?_, ?_⟩, ⟨?_, ?_⟩, ⟨?_, ?_⟩, ⟨?_, ?_⟩⟩
  · exact fun r j hj => polyeta_pack2_out _ rfl r a j hj
  · exact fun r r' j hj => polyeta_pack2_indep _ rfl r r' a j hj
  · exact fun r j hj => polyeta_pack4_out _ rfl r a j hj
  · exact fun r r' j hj => polyeta_pack4_indep _ rfl r r' a j hj
  · exact fun r j hj => polyt1_pack_out r a j hj
  · exact fun r r' j hj => polyt1_pack_indep r r' a j hj
  · exact fun r j hj => polyt0_pack_out r a j hj
  · exact fun r r' j hj => polyt0_pack_indep r r' a j hj
  · exact fun r j hj => polyz_pack17_out _ (by norm_num) r a j hj
  · exact fun r r' j hj => polyz_pack17_indep _ (by norm_num) r r' a j hj
  · exact fun r j hj => polyz_pack19_out _ (by norm_num) r a j hj
  · exact fun r r' j hj => polyz_pack19_indep _ (by norm_num) r r' a j hj
  · exact fun r j hj => polyw1_pack88_out _ rfl r a j hj
  · exact fun r r' j hj => polyw1_pack88_indep _ rfl r r' a j hj
  · exact fun r j hj => polyw1_pack32_out _ rfl r a j hj
  · exact fun r r' j hj => polyw1_pack32_indep _ rfl r r' a j hj

/-- C6.  Byte layout of the `z` field: for `gamma1` in `{2^17, 2^19}` with width `w = 18`
resp. `20`, every polynomial with coefficients in `[-(gamma1-1), gamma1]` and every bit
index `k < 256*w`, bit `k mod 8` of the byte `r[k div 8]` written by `polyz_pack` is bit
`k mod w` of the value `gamma1 - a[k div w]`. -/
theorem polyz_pack_bitstream (params : ml_dsa_params) (w : Nat)
    (hg : (params.gamma1 = 2 ^ 17 ∧ w = 18) ∨ (params.gamma1 = 2 ^ 19 ∧ w = 20))
    (r : bytes) (a : poly)
    (ha : ∀ m, m < 256 → -(params.gamma1 - 1) ≤ a m ∧ a m ≤ params.gamma1)
    (k : Nat) (hk : k < 256 * w) :
    (polyz_pack params r a (k / 8)).testBit (k % 8)
      = (params.gamma1 - a (k / w)).toNat.testBit (k % w) := by
  rcases hg with ⟨hp, rfl⟩ | ⟨hp, rfl⟩
  · have hp' : params.gamma1 = 131072 := by rw [hp]; norm_num
    have h := polyz_pack17_bits params hp' r a (fun m hm => by have := ha m hm; omega)
      (k / 18) (k % 18) (by omega) (by omega)
    have e : u32 (params.gamma1 - a (k / 18)) = (params.gamma1 - a (k / 18)).toNat := by
      have := ha (k / 18) (by omega); unfold u32; omega
    rw [Nat.div_add_mod, e] at h
    exact h
  · have hp' : params.gamma1 = 524288 := by rw [hp]; norm_num
    have h := polyz_pack19_bits params hp' r a (fun m hm => by have := ha m hm; omega)
      (k / 20) (k % 20) (by omega) (by omega)
    have e : u32 (params.gamma1 - a (k / 20)) = (params.gamma1 - a (k / 20)).toNat := by
      have := ha (k / 20) (by omega); unfold u32; omega
    rw [Nat.div_add_mod, e] at h
    exact h

theorem polyz_pack_bitstream_witness :
    (∀ m, m < 256 → -((2 : Int) ^ 17 - 1) ≤ (fun _ => 131072 : poly) m ∧
      (fun _ => 131072 : poly) m ≤ 2 ^ 17) ∧
    (polyz_pack ⟨2, 39, 2 ^ 17, 95232, 32⟩ (fun _ => 0) (fun _ => 131072) (35 / 8)).testBit
        (35 % 8)
      = ((2 : Int) ^ 17 - (fun _ => 131072 : poly) (35 / 18)).toNat.testBit (35 % 18) :=
  ⟨fun _ _ => by norm_num,
   polyz_pack_bitstream ⟨2, 39, 2 ^ 17, 95232, 32⟩ 18 (Or.inl ⟨rfl, rfl⟩) (fun _ => 0)
     (fun _ => 131072) (fun _ _ => by norm_num) 35 (by norm_num)⟩

/-- C7.  Byte layout of the `t0` field: for every polynomial with coefficients in
`(-2^(D-1), 2^(D-1)]` (`D = 13`) and every bit index `k < 256*D`, bit `k mod 8` of the byte
`r[k div 8]` written by `polyt0_pack` is bit `k mod D` of the value
`2^(D-1) - a[k div D]`. -/
theorem polyt0_pack_bitstream (r : bytes) (a : poly)
    (ha : ∀ m, m < 256 → -(2 : Int) ^ (D - 1) < a m ∧ a m ≤ 2 ^ (D - 1))
    (k : Nat) (hk : k < 256 * D) :
    (polyt0_pack r a (k / 8)).testBit (k % 8)
      = ((2 : Int) ^ (D - 1) - a (k / D)).toNat.testBit (k % D) := by
  have hD : (2 : Int) ^ (D - 1) = 4096 := by norm_num [D]
  have hD' : D = 13 := rfl
  rw [hD'] at hk ⊢
  have ha' : ∀ m, m < 256 → -4096 < a m ∧ a m ≤ 4096 := fun m hm => by
    have := ha m hm; rw [hD] at this; omega
  have h := polyt0_pack_bits r a ha' (k / 13) (k % 13) (by omega) (by omega)
  have e : u32 (4096 - a (k / 13)) = ((2 : Int) ^ (13 - 1) - a (k / 13)).toNat := by
    have := ha' (k / 13) (by omega); unfold u32; norm_num; omega
  rw [Nat.div_add_mod, e] at h
  exact h

theorem polyt0_pack_bitstream_witness :
    (∀ m, m < 256 → -(2 : Int) ^ (D - 1) < (fun _ => -4095 : poly) m ∧
      (fun _ => -4095 : poly) m ≤ 2 ^ (D - 1)) ∧
    (polyt0_pack (fun _ => 0) (fun _ => -4095) (100 / 8)).testBit (100 % 8)
      = ((2 : Int) ^ (D - 1) - (fun _ => -4095 : poly) (100 / D)).toNat.testBit (100 % D) :=
  ⟨fun _ _ => by norm_num [D],
   polyt0_pack_bitstream (fun _ => 0) (fun _ => -4095) (fun _ _ => by norm_num [D]) 100
     (by norm_num [D])⟩

theorem eq_of_low_bits (w : Nat) (x y : Int) (hx : 0 ≤ x) (hy : 0 ≤ y)
    (hxw : x.toNat < 2 ^ w) (hyw : y.toNat < 2 ^ w)
    (h : ∀ j, j < w → x.toNat.testBit j = y.toNat.testBit j) : x = y := by
  have e : x.toNat = y.toNat := by
    apply Nat.eq_of_testBit_eq
    intro j
    by_cases hj : j < w
    · exact h j hj
    · rw [tb_high hxw j (by omega), tb_high hyw j (by omega)]
  omega

/-- C8.  Byte layout of the commitment field: for `gamma2 = (Q-1)/88` (width `w = 6`,
coefficients in `[0, 43]`) and `gamma2 = (Q-1)/32` (`w = 4`, coefficients in `[0, 15]`),
for every legal polynomial and every bit index `k < 256*w`, bit `k mod 8` of the byte
`r[k div 8]` written by `polyw1_pack` is bit `k mod w` of `a[k div w]`, with no centering;
and two legal polynomials with the same `32*w` packed bytes have the same 256
coefficients. -/
theorem polyw1_pack_bitstream (params : ml_dsa_params) (w : Nat) (B : Int)
    (hg : (params.gamma2 = (Q - 1) / 88 ∧ w = 6 ∧ B = 43) ∨
          (params.gamma2 = (Q - 1) / 32 ∧ w = 4 ∧ B = 15)) :
    (∀ (r : bytes) (a : poly), (∀ m, m < 256 → 0 ≤ a m ∧ a m ≤ B) →
      ∀ k, k < 256 * w →
        (polyw1_pack params r a (k / 8)).testBit (k % 8) = (a (k / w)).toNat.testBit (k % w)) ∧
    (∀ (r r' : bytes) (a a' : poly), (∀ m, m < 256 → 0 ≤ a m ∧ a m ≤ B) →
      (∀ m, m < 256 → 0 ≤ a' m ∧ a' m ≤ B) →
      (∀ n, n < 32 * w → polyw1_pack params r a n = polyw1_pack params r' a' n) →
      ∀ m, m < 256 → a m = a' m) := by
  rcases hg with ⟨hp, rfl, rfl⟩ | ⟨hp, rfl, rfl⟩
  · constructor
    · intro r a ha k hk
      have h := polyw1_pack88_bits params hp r a ha (k / 6) (k % 6) (by omega) (by omega)
      rw [Nat.div_add_mod] at h
      exact h
    · intro r r' a a' ha ha' heq m hm
      have h1 := ha m hm
      have h2 := ha' m hm
      refine eq_of_low_bits 6 _ _ h1.1 h2.1 (by omega) (by omega) (fun j hj => ?_)
      rw [← polyw1_pack88_bits params hp r a ha m j hm hj,
        ← polyw1_pack88_bits params hp r' a' ha' m j hm hj, heq _ (by omega)]
  · constructor
    · intro r a ha k hk
      have h := polyw1_pack32_bits params hp r a ha (k / 4) (k % 4) (by omega) (by omega)
      rw [Nat.div_add_mod] at h
      exact h
    · intro r r' a a' ha ha' heq m hm
      have h1 := ha m hm
      have h2 := ha' m hm
      refine eq_of_low_bits 4 _ _ h1.1 h2.1 (by omega) (by omega) (fun j hj => ?_)
      rw [← polyw1_pack32_bits params hp r a ha m j hm hj,
        ← polyw1_pack32_bits params hp r' a' ha' m j hm hj, heq _ (by omega)]

theorem polyw1_pack_bitstream_witness :
    (∀ m, m < 256 → (0 : Int) ≤ (fun _ => 43 : poly) m ∧ (fun _ => 43 : poly) m ≤ 43) ∧
    (polyw1_pack ⟨2, 39, 131072, (Q - 1) / 88, 32⟩ (fun _ => 0) (fun _ => 43) (100 / 8)).testBit
        (100 % 8)
      = ((fun _ => 43 : poly) (100 / 6)).toNat.testBit (100 % 6) :=
  ⟨fun _ _ => by norm_num,
   (polyw1_pack_bitstream ⟨2, 39, 131072, (Q - 1) / 88, 32⟩ 6 43 (Or.inl ⟨rfl, rfl, rfl⟩)).1
     (fun _ => 0) (fun _ => 43) (fun _ _ => by norm_num) 100 (by norm_num)⟩

/-! ## Norm check -/

theorem chknorm_abs (x : Int) (h1 : -6283009 ≤ x) (h2 : x ≤ 6283007) :
    i32 (x - and_i32 (shr_i32 x 31) (i32 (2 * x))) = |x| := by
  have h2x : i32 (2 * x) = 2 * x := i32_small _ (by omega) (by omega)
  have hs : shr_i32 x 31 = x / 2147483648 := by
    unfold shr_i32; rw [Int.shiftRight_eq_div_pow]; norm_num
  rw [h2x, hs]
  by_cases hx : 0 ≤ x
  · have e : x / 2147483648 = 0 := by omega
    have e0 : and_i32 0 (2 * x) = 0 := by
      unfold and_i32
      have : u32 0 = 0 := by decide
      rw [this, Nat.zero_and]; decide
    rw [e, e0, abs_of_nonneg hx, sub_zero]
    exact i32_small x (by omega) (by omega)
  · have e : x / 2147483648 = -1 := by omega
    have e1 : and_i32 (-1) (2 * x) = 2 * x := by
      unfold and_i32
      have hm : u32 (-1) = 2 ^ 32 - 1 := by decide
      rw [hm, Nat.and_comm, Nat.and_pow_two_sub_one_of_lt_two_pow (u32_lt _)]
      unfold u32 i32; omega
    rw [e, e1, abs_of_neg (by omega)]
    have : x - 2 * x = -x := by ring
    rw [this]
    exact i32_small (-x) (by omega) (by omega)

theorem poly_chknorm_loop_spec (a : poly) (B : Int) :
    ∀ n i, i + n ≤ 256 → (∀ k, k < 256 → -6283009 ≤ a k ∧ a k ≤ 6283007) →
      (poly_chknorm_loop a B i n = 1 ∧ ∃ k, i ≤ k ∧ k < i + n ∧ |a k| ≥ B) ∨
      (poly_chknorm_loop a B i n = 0 ∧ ∀ k, i ≤ k → k < i + n → |a k| < B) := by
  intro n
  induction n with
  | zero =>
    intro i _ _
    right
    exact ⟨rfl, fun k h1 h2 => by omega⟩
  | succ n ih =>
    intro i hi ha
    have habs := chknorm_abs (a i) (ha i (by omega)).1 (ha i (by omega)).2
    unfold poly_chknorm_loop
    simp only [habs]
    by_cases hB : |a i| ≥ B
    · left
      rw [if_pos hB]
      exact ⟨rfl, i, le_refl _, by omega, hB⟩
    · rw [if_neg hB]
      rcases ih (i + 1) (by omega) ha with ⟨h1, k, hk1, hk2, hk3⟩ | ⟨h0, hall⟩
      · left
        exact ⟨h1, k, by omega, by omega, hk3⟩
      · right
        refine ⟨h0, fun k hk1 hk2 => ?_⟩
        by_cases hki : k = i
        · subst hki; omega
        · exact hall k (by omega) (by omega)

/-- C9.  Norm check: for every bound `B` and every polynomial whose coefficients are
`reduce32` outputs (each in `[-6283009, 6283007]`), `poly_chknorm` returns `1` exactly when
`B > (Q-1)/8` or some coefficient has absolute value `≥ B`, and returns `0` exactly when
`B ≤ (Q-1)/8` and every coefficient has absolute value `< B`. -/
theorem poly_chknorm_spec (a : poly) (B : Int)
    (ha : ∀ k, k < 256 → -6283009 ≤ a k ∧ a k ≤ 6283007) :
    (poly_chknorm a B = 1 ↔ (B > (Q - 1) / 8 ∨ ∃ k, k < 256 ∧ |a k| ≥ B)) ∧
    (poly_chknorm a B = 0 ↔ (B ≤ (Q - 1) / 8 ∧ ∀ k, k < 256 → |a k| < B)) := by
  unfold poly_chknorm
  by_cases hB : B > (Q - 1) / 8
  · rw [if_pos hB]
    constructor
    · exact ⟨fun _ => Or.inl hB, fun _ => rfl⟩
    · constructor
      · intro h; exact absurd h (by decide)
      · intro h; omega
  · rw [if_neg hB]
    rcases poly_chknorm_loop_spec a B N 0 (by simp [N]) ha with ⟨h1, k, _, hk2, hk3⟩ | ⟨h0, hall⟩
    · rw [h1]
      constructor
      · exact ⟨fun _ => Or.inr ⟨k, by simpa [N] using hk2, hk3⟩, fun _ => rfl⟩
      · constructor
        · intro h; exact absurd h (by decide)
        · intro h
          have := h.2 k (by simpa [N] using hk2)
          omega
    · rw [h0]
      constructor
      · constructor
        · intro h; exact absurd h (by decide)
        · rintro (h | ⟨k, hk, hk'⟩)
          · exact absurd h hB
          · have := hall k (Nat.zero_le _) (by simpa [N] using hk)
            omega
      · exact ⟨fun _ => ⟨by omega, fun k hk => hall k (Nat.zero_le _) (by simpa [N] using hk)⟩,
          fun _ => rfl⟩

theorem poly_chknorm_spec_witness :
    (∀ k, k < 256 → (-6283009 : Int) ≤ (fun _ => -6283009 : poly) k ∧
      (fun _ => -6283009 : poly) k ≤ 6283007) ∧
    ((poly_chknorm (fun _ => -6283009) 1047552 = 1 ↔
        ((1047552 : Int) > (Q - 1) / 8 ∨
          ∃ k, k < 256 ∧ |(fun _ => -6283009 : poly) k| ≥ 1047552)) ∧
     (poly_chknorm (fun _ => -6283009) 1047552 = 0 ↔
        ((1047552 : Int) ≤ (Q - 1) / 8 ∧
          ∀ k, k < 256 → |(fun _ => -6283009 : poly) k| < 1047552))) :=
  ⟨fun _ _ => by norm_num,
   poly_chknorm_spec (fun _ => -6283009) 1047552 (fun _ _ => by norm_num)⟩

/-! ## Challenge sampler -/

/-- Number of nonzero coefficients among the first `n`. -/
theorem nz_succ (c : poly) (n : Nat) :
    ((Finset.range (n + 1)).filter (fun j => c j ≠ 0)).card
      = ((Finset.range n).filter (fun j => c j ≠ 0)).card + (if c n ≠ 0 then 1 else 0) := by
  rw [Finset.range_succ, Finset.filter_insert]
  by_cases h : c n ≠ 0
  · rw [if_pos h, if_pos h, Finset.card_insert_of_not_mem (by simp)]
  · rw [if_neg h, if_neg h]; rfl

theorem nz_update_ge (c : poly) (b : Nat) (v : Int) (n : Nat) (h : n ≤ b) :
    ((Finset.range n).filter (fun j => Function.update c b v j ≠ 0)).card
      = ((Finset.range n).filter (fun j => c j ≠ 0)).card := by
  congr 1
  apply Finset.filter_congr
  intro j hj
  have : j ≠ b := by have := Finset.mem_range.mp hj; omega
  rw [Function.update_noteq this]

theorem nz_update_lt (c : poly) (b : Nat) (v : Int) :
    ∀ n, b < n →
      ((Finset.range n).filter (fun j => Function.update c b v j ≠ 0)).card
          + (if c b ≠ 0 then 1 else 0)
        = ((Finset.range n).filter (fun j => c j ≠ 0)).card + (if v ≠ 0 then 1 else 0) := by
  intro n
  induction n with
  | zero => intro h; omega
  | succ n ih =>
    intro h
    rw [nz_succ, nz_succ c n]
    by_cases hb : b = n
    · subst hb
      rw [nz_update_ge c b v b (le_refl _), Function.update_same]
      omega
    · have := ih (by omega)
      rw [Function.update_noteq (Ne.symm hb)]
      omega

theorem poly_challenge_refill_spec (E : shake_engine) (s : challenge_state) :
    (poly_challenge_refill E s).c = s.c ∧ (poly_challenge_refill E s).signs = s.signs := by
  unfold poly_challenge_refill
  split <;> exact ⟨rfl, rfl⟩

theorem poly_challenge_draw_spec (E : shake_engine) (i : Nat) :
    ∀ fuel s b s', poly_challenge_draw E i fuel s = some (b, s') →
      b ≤ i ∧ s'.c = s.c ∧ s'.signs = s.signs := by
  intro fuel
  induction fuel with
  | zero => intro s b s' h; simp [poly_challenge_draw] at h
  | succ fuel ih =>
    intro s b s' h
    unfold poly_challenge_draw at h
    simp only at h
    have hr := poly_challenge_refill_spec E s
    generalize poly_challenge_refill E s = s1 at h hr
    by_cases hb : s1.buf s1.pos > i
    · rw [if_pos hb] at h
      have := ih _ _ _ h
      exact ⟨this.1, this.2.1.trans hr.1, this.2.2.trans hr.2⟩
    · rw [if_neg hb] at h
      simp only [Option.some.injEq, Prod.mk.injEq] at h
      obtain ⟨h1, h2⟩ := h
      subst h1 h2
      exact ⟨by omega, hr.1, hr.2⟩

/-- The invariant of the selection loop before the iteration at index `i`. -/
theorem poly_challenge_loop_spec (E : shake_engine) (fuel i0 : Nat) :
    ∀ n i s s', i + n = 256 → i0 ≤ i →
      (∀ j, j < 256 → s.c j = 0 ∨ s.c j = 1 ∨ s.c j = -1) →
      (∀ j, i ≤ j → j < 256 → s.c j = 0) →
      ((Finset.range i).filter (fun j => s.c j ≠ 0)).card = i - i0 →
      poly_challenge_loop E fuel n i s = some s' →
      (∀ j, j < 256 → s'.c j = 0 ∨ s'.c j = 1 ∨ s'.c j = -1) ∧
      ((Finset.range 256).filter (fun j => s'.c j ≠ 0)).card = 256 - i0 := by
  intro n
  induction n with
  | zero =>
    intro i s s' hi _ hv _ hc h
    simp only [poly_challenge_loop, Option.some.injEq] at h
    subst h
    have : i = 256 := by omega
    subst this
    exact ⟨hv, hc⟩
  | succ n ih =>
    intro i s s' hi hi0 hv hz hc h
    unfold poly_challenge_loop at h
    split at h
    · exact absurd h (by simp)
    · rename_i b s1 hd
      obtain ⟨hb, hc1, _⟩ := poly_challenge_draw_spec E i fuel s b s1 hd
      have hsign : i32 (u64 (1 - 2 * ((s1.signs &&& 1 : Nat) : Int))) = 1 ∨
          i32 (u64 (1 - 2 * ((s1.signs &&& 1 : Nat) : Int))) = -1 := by
        rw [Nat.and_one_is_mod]
        rcases Nat.mod_two_eq_zero_or_one s1.signs with e | e
        · left; rw [e]; unfold i32 u64; norm_num
        · right; rw [e]; unfold i32 u64; norm_num
      generalize i32 (u64 (1 - 2 * ((s1.signs &&& 1 : Nat) : Int))) = v at hsign h
      have hv0 : v ≠ 0 := by omega
      rw [hc1] at h
      simp only at h
      refine ih (i + 1) _ s' (by omega) (by omega) ?_ ?_ ?_ h
      · intro j hj
        dsimp only
        by_cases hjb : j = b
        · subst hjb; rw [Function.update_same]; omega
        · rw [Function.update_noteq hjb]
          by_cases hji : j = i
          · subst hji; rw [Function.update_same]; exact hv b (by omega)
          · rw [Function.update_noteq hji]; exact hv j hj
      · intro j hj1 hj2
        dsimp only
        rw [Function.update_noteq (show j ≠ b by omega), Function.update_noteq (show j ≠ i by omega)]
        exact hz j (by omega) hj2
      · dsimp only
        have h1 := nz_update_lt (Function.update s.c i (s.c b)) b v (i + 1) (by omega)
        have h2 := nz_succ (Function.update s.c i (s.c b)) i
        rw [nz_update_ge s.c i (s.c b) i (le_refl _), Function.update_same] at h2
        have h3 : Function.update s.c i (s.c b) b = s.c b := by
          by_cases hbi : b = i
          · subst hbi; rw [Function.update_same]
          · rw [Function.update_noteq hbi]
        rw [h3, h2, if_pos hv0] at h1
        have h4 := Nat.add_right_cancel (h1.trans (Nat.add_right_comm _ _ _))
        rw [h4, hc]
        clear h h1 h2 h3 h4 hd hv hz hc ih hsign
        omega

theorem forLoop_zero_fill (c : poly) : ∀ n j, j < n →
    forLoop n (fun i (c : poly) => Function.update c i 0) c j = 0 := by
  intro n
  induction n with
  | zero => intro j hj; omega
  | succ n ih =>
    intro j hj
    show Function.update (forLoop n (fun i (c : poly) => Function.update c i 0) c) n 0 j = 0
    by_cases h : j = n
    · subst h; rw [Function.update_same]
    · rw [Function.update_noteq h]; exact ih j (by omega)

/-- C10.  Challenge shape: for every byte stream on which the selection loops finish and
every `tau ≤ 256`, the polynomial produced by `poly_challenge` has exactly `tau` nonzero
coefficients among its 256, each equal to `+1` or `-1`, the others being `0`, whatever the
prior contents of `c`. -/
theorem poly_challenge_shape (E : shake_engine) (params : ml_dsa_params) (c : poly)
    (seed buf0 : bytes) (fuel : Nat) (out : challenge_state) (htau : params.tau ≤ 256)
    (h : poly_challenge E params c seed buf0 fuel = some out) :
    (∀ j, j < 256 → out.c j = 0 ∨ out.c j = 1 ∨ out.c j = -1) ∧
    ((Finset.range 256).filter (fun j => out.c j ≠ 0)).card = params.tau := by
  unfold poly_challenge at h
  simp only at h
  have hi0 : u32 ((N : Int) - (params.tau : Int)) = 256 - params.tau := by
    unfold u32 N; omega
  rw [hi0] at h
  split at h
  · exact absurd h (by simp)
  · rename_i s hl
    simp only [Option.some.injEq] at h
    subst h
    have hz := forLoop_zero_fill c N
    have := poly_challenge_loop_spec E fuel (256 - params.tau) (N - (256 - params.tau))
      (256 - params.tau) _ s (by unfold N; omega) (le_refl _)
      (fun j hj => Or.inl (hz j (by unfold N; omega)))
      (fun j _ hj => hz j (by unfold N; omega))
      (by
        rw [Nat.sub_self, Finset.card_eq_zero, Finset.filter_eq_empty_iff]
        intro j hj
        have := Finset.mem_range.mp hj
        simp [hz j (by unfold N; omega)])
      hl
    refine ⟨this.1, ?_⟩
    rw [this.2]; omega

theorem poly_challenge_shape_witness :
    (2 : Nat) ≤ 256 ∧
    ∃ out, poly_challenge ⟨168, 168, 136, 136, fun _ _ n => 3 * n⟩ ⟨2, 2, 131072, 95232, 32⟩
        (fun _ => 7) (fun _ => 0) (fun _ => 0) 1 = some out ∧
      (∀ j, j < 256 → out.c j = 0 ∨ out.c j = 1 ∨ out.c j = -1) ∧
      ((Finset.range 256).filter (fun j => out.c j ≠ 0)).card = 2 := by
  have hs : (poly_challenge ⟨168, 168, 136, 136, fun _ _ n => 3 * n⟩ ⟨2, 2, 131072, 95232, 32⟩
        (fun _ => 7) (fun _ => 0) (fun _ => 0) 1).isSome = true := by decide
  obtain ⟨out, hout⟩ := Option.isSome_iff_exists.mp hs
  exact ⟨by decide, out, hout,
    poly_challenge_shape _ ⟨2, 2, 131072, 95232, 32⟩ _ _ _ _ out (by decide) hout⟩

/-! ## Ring operations and rounding -/

theorem forLoop_store (f : Nat → Int) (c : poly) :
    ∀ n j, forLoop n (fun i (c : poly) => Function.update c i (f i)) c j
      = if j < n then f j else c j := by
  intro n
  induction n with
  | zero => intro j; simp [forLoop]
  | succ n ih =>
    intro j
    show Function.update (forLoop n (fun i (c : poly) => Function.update c i (f i)) c) n (f n) j = _
    by_cases h : j = n
    · subst h; rw [Function.update_same, if_pos (Nat.lt_succ_self _)]
    · rw [Function.update_noteq h, ih]
      by_cases h2 : j < n
      · rw [if_pos h2, if_pos (by omega)]
      · rw [if_neg h2, if_neg (by omega)]

theorem poly_shiftl_at (a : poly) :
    ∀ n j, forLoop n (fun i (a : poly) => Function.update a i (shl_i32 (a i) D)) a j
      = if j < n then shl_i32 (a j) D else a j := by
  intro n
  induction n with
  | zero => intro j; simp [forLoop]
  | succ n ih =>
    intro j
    show Function.update (forLoop n (fun i (a : poly) => Function.update a i (shl_i32 (a i) D)) a) n
      (shl_i32 (forLoop n (fun i (a : poly) => Function.update a i (shl_i32 (a i) D)) a n) D) j = _
    by_cases h : j = n
    · subst h
      rw [Function.update_same, ih, if_neg (Nat.lt_irrefl _), if_pos (Nat.lt_succ_self _)]
    · rw [Function.update_noteq h, ih]
      by_cases h2 : j < n
      · rw [if_pos h2, if_pos (by omega)]
      · rw [if_neg h2, if_neg (by omega)]

/-- C19.  `poly_shiftl` multiplies exactly: when every coefficient has absolute value below
`2^(31-D)` (`D = 13`), each coefficient after `poly_shiftl` is the integer `a[i] * 2^D`,
without 32-bit overflow, and its absolute value is below `2^31`. -/
theorem poly_shiftl_exact (a : poly) (ha : ∀ i, i < 256 → |a i| < 2 ^ (31 - D)) :
    ∀ i, i < 256 → poly_shiftl a i = a i * 2 ^ D ∧ |poly_shiftl a i| < 2 ^ 31 := by
  intro i hi
  have h := ha i hi
  have hD : (2 : Int) ^ (31 - D) = 262144 := by norm_num [D]
  have hD' : (2 : Int) ^ D = 8192 := by norm_num [D]
  rw [hD, abs_lt] at h
  have e : poly_shiftl a i = a i * 8192 := by
    unfold poly_shiftl
    rw [poly_shiftl_at a N i, if_pos (by unfold N; omega)]
    unfold shl_i32
    rw [hD']
    exact i32_small _ (by omega) (by omega)
  rw [e, hD', abs_lt]
  norm_num
  omega

theorem poly_shiftl_exact_witness :
    (∀ i, i < 256 → |(fun _ => -262143 : poly) i| < 2 ^ (31 - D)) ∧
    ∀ i, i < 256 → poly_shiftl (fun _ => -262143) i = (fun _ => -262143 : poly) i * 2 ^ D ∧
      |poly_shiftl (fun _ => -262143) i| < 2 ^ 31 :=
  ⟨fun _ _ => by norm_num [D],
   poly_shiftl_exact (fun _ => -262143) (fun _ _ => by norm_num [D])⟩

/-- C20.  `poly_add` and `poly_sub` are coefficient-wise and unreduced: when the
coefficient-wise sums (resp. differences) of two polynomials of `int32_t` coefficients fit in
`int32_t`, `poly_add` gives `a[i] + b[i]` and `poly_sub` gives `a[i] - b[i]` as exact
integers for every `i < 256`; and when the sums fit, subtracting `b` from the sum gives `a`
back. -/
theorem poly_add_sub_exact (c c' a b : poly)
    (ha : ∀ i, i < 256 → -2147483648 ≤ a i ∧ a i < 2147483648) :
    ((∀ i, i < 256 → -2147483648 ≤ a i + b i ∧ a i + b i < 2147483648) →
      ∀ i, i < 256 → poly_add c a b i = a i + b i) ∧
    ((∀ i, i < 256 → -2147483648 ≤ a i - b i ∧ a i - b i < 2147483648) →
      ∀ i, i < 256 → poly_sub c a b i = a i - b i) ∧
    ((∀ i, i < 256 → -2147483648 ≤ a i + b i ∧ a i + b i < 2147483648) →
      ∀ i, i < 256 → poly_sub c' (poly_add c a b) b i = a i) := by
  have hadd : ∀ i, i < 256 → poly_add c a b i = i32 (a i + b i) := fun i hi => by
    unfold poly_add; rw [forLoop_store, if_pos (by unfold N; omega)]
  have hsub : ∀ (c x y : poly) i, i < 256 → poly_sub c x y i = i32 (x i - y i) :=
    fun c x y i hi => by
      unfold poly_sub
      rw [forLoop_store (fun i => i32 (x i - y i)), if_pos (by unfold N; omega)]
  refine ⟨fun h i hi => ?_, fun h i hi => ?_, fun h i hi => ?_⟩
  · rw [hadd i hi]; exact i32_small _ (h i hi).1 (h i hi).2
  · rw [hsub c a b i hi]; exact i32_small _ (h i hi).1 (h i hi).2
  · rw [hsub c' _ b i hi, hadd i hi, i32_small _ (h i hi).1 (h i hi).2]
    have : a i + b i - b i = a i := by ring
    rw [this]
    exact i32_small _ (ha i hi).1 (ha i hi).2

theorem poly_add_sub_exact_witness :
    (∀ i, i < 256 → (-2147483648 : Int) ≤ (fun _ => 2147483647 : poly) i ∧
      (fun _ => 2147483647 : poly) i < 2147483648) ∧
    ∀ i, i < 256 →
      poly_sub (fun _ => 0) (poly_add (fun _ => 0) (fun _ => 2147483647) (fun _ => -5))
        (fun _ => -5) i = 2147483647 :=
  ⟨fun _ _ => by norm_num,
   (poly_add_sub_exact (fun _ => 0) (fun _ => 0) (fun _ => 2147483647) (fun _ => -5)
     (fun _ _ => by norm_num)).2.2 (fun _ _ => by norm_num)⟩

theorem forLoop_store2 (f g : Nat → Int) (s : poly × poly) :
    ∀ n, forLoop n (fun i (s : poly × poly) =>
        (Function.update s.1 i (f i), Function.update s.2 i (g i))) s
      = (forLoop n (fun i (c : poly) => Function.update c i (f i)) s.1,
         forLoop n (fun i (c : poly) => Function.update c i (g i)) s.2) := by
  intro n
  induction n with
  | zero => rfl
  | succ n ih =>
    show ((Function.update (forLoop n _ s).1 n (f n), Function.update (forLoop n _ s).2 n (g n))
      : poly × poly) = _
    rw [ih]
    rfl

theorem power2round_spec (x : Int) (h0 : 0 ≤ x) (hQ : x < 8380417) :
    x = (power2round x).1 * 8192 + (power2round x).2 ∧
    -4096 < (power2round x).2 ∧ (power2round x).2 ≤ 4096 ∧
    0 ≤ (power2round x).1 ∧ (power2round x).1 ≤ 1023 := by
  have hD : (2 : Int) ^ D = 8192 := by norm_num [D]
  unfold power2round centered_mod
  simp only [hD]
  split_ifs with h <;> omega

/-- C17.  Power2round law: for every polynomial with coefficients `c` in `[0, Q)`,
`poly_power2round` yields per coefficient `(c1, c0)` with `c = c1*2^D + c0`, hence
congruent modulo `Q`, and `-2^(D-1) < c0 ≤ 2^(D-1)`, `D = 13`. -/
theorem poly_power2round_law (a1 a0 a : poly) (ha : ∀ i, i < 256 → 0 ≤ a i ∧ a i < Q) :
    ∀ i, i < 256 →
      a i = (poly_power2round a1 a0 a).1 i * 2 ^ D + (poly_power2round a1 a0 a).2 i ∧
      ((poly_power2round a1 a0 a).1 i * 2 ^ D + (poly_power2round a1 a0 a).2 i) % Q = a i % Q ∧
      -(2 : Int) ^ (D - 1) < (poly_power2round a1 a0 a).2 i ∧
      (poly_power2round a1 a0 a).2 i ≤ 2 ^ (D - 1) := by
  intro i hi
  have hD : (2 : Int) ^ D = 8192 := by norm_num [D]
  have hD' : (2 : Int) ^ (D - 1) = 4096 := by norm_num [D]
  have h := ha i hi
  unfold Q at h
  have hs := power2round_spec (a i) h.1 h.2
  have e1 : (poly_power2round a1 a0 a).1 i = (power2round (a i)).1 := by
    unfold poly_power2round
    rw [forLoop_store2 (fun i => i32 (power2round (a i)).1) (fun i => i32 (power2round (a i)).2)]
    simp only
    rw [forLoop_store, if_pos (by unfold N; omega)]
    exact i32_small _ (by omega) (by omega)
  have e2 : (poly_power2round a1 a0 a).2 i = (power2round (a i)).2 := by
    unfold poly_power2round
    rw [forLoop_store2 (fun i => i32 (power2round (a i)).1) (fun i => i32 (power2round (a i)).2)]
    simp only
    rw [forLoop_store, if_pos (by unfold N; omega)]
    exact i32_small _ (by omega) (by omega)
  rw [e1, e2, hD, hD']
  refine ⟨hs.1, ?_, hs.2.1, hs.2.2.1⟩
  rw [← hs.1]

theorem poly_power2round_law_witness :
    (∀ i, i < 256 → (0 : Int) ≤ (fun _ => 8380416 : poly) i ∧ (fun _ => 8380416 : poly) i < Q) ∧
    ∀ i, i < 256 →
      (fun _ => 8380416 : poly) i
        = (poly_power2round (fun _ => 0) (fun _ => 0) (fun _ => 8380416)).1 i * 2 ^ D
          + (poly_power2round (fun _ => 0) (fun _ => 0) (fun _ => 8380416)).2 i ∧
      ((poly_power2round (fun _ => 0) (fun _ => 0) (fun _ => 8380416)).1 i * 2 ^ D
          + (poly_power2round (fun _ => 0) (fun _ => 0) (fun _ => 8380416)).2 i) % Q
        = (fun _ => 8380416 : poly) i % Q ∧
      -(2 : Int) ^ (D - 1) < (poly_power2round (fun _ => 0) (fun _ => 0) (fun _ => 8380416)).2 i ∧
      (poly_power2round (fun _ => 0) (fun _ => 0) (fun _ => 8380416)).2 i ≤ 2 ^ (D - 1) :=
  ⟨fun _ _ => by norm_num [Q],
   poly_power2round_law (fun _ => 0) (fun _ => 0) (fun _ => 8380416)
     (fun _ _ => by norm_num [Q])⟩

theorem decompose_spec88 (params : ml_dsa_params) (hp : params.gamma2 = 95232) (x : Int)
    (h0 : 0 ≤ x) (hQ : x < 8380417) :
    ((x % 8380417 - centered_mod (x % 8380417) 190464) / 190464 = 44 ↔ 8285184 < x) ∧
    (8285184 < x → (decompose params x).1 = 0 ∧ (decompose params x).2 = x - 8380417) ∧
    (x ≤ 8285184 → x = (decompose params x).1 * 190464 + (decompose params x).2 ∧
      -95232 < (decompose params x).2 ∧ (decompose params x).2 ≤ 95232 ∧
      0 ≤ (decompose params x).1 ∧ (decompose params x).1 ≤ 43) := by
  have hx : x % 8380417 = x := Int.emod_eq_of_lt h0 hQ
  have e1 : (2 : Int) * 95232 = 190464 := by norm_num
  have e2 : ((8380417 : Int) - 1) / 190464 = 44 := by norm_num
  unfold decompose centered_mod
  simp only [hp, Q, hx, e1, e2]
  split_ifs <;> dsimp only <;> omega

theorem decompose_spec32 (params : ml_dsa_params) (hp : params.gamma2 = 261888) (x : Int)
    (h0 : 0 ≤ x) (hQ : x < 8380417) :
    ((x % 8380417 - centered_mod (x % 8380417) 523776) / 523776 = 16 ↔ 8118528 < x) ∧
    (8118528 < x → (decompose params x).1 = 0 ∧ (decompose params x).2 = x - 8380417) ∧
    (x ≤ 8118528 → x = (decompose params x).1 * 523776 + (decompose params x).2 ∧
      -261888 < (decompose params x).2 ∧ (decompose params x).2 ≤ 261888 ∧
      0 ≤ (decompose params x).1 ∧ (decompose params x).1 ≤ 15) := by
  have hx : x % 8380417 = x := Int.emod_eq_of_lt h0 hQ
  have e1 : (2 : Int) * 261888 = 523776 := by norm_num
  have e2 : ((8380417 : Int) - 1) / 523776 = 16 := by norm_num
  unfold decompose centered_mod
  simp only [hp, Q, hx, e1, e2]
  split_ifs <;> dsimp only <;> omega

theorem poly_decompose_at (params : ml_dsa_params) (a1 a0 a : poly) (i : Nat) (hi : i < 256) :
    (poly_decompose params a1 a0 a).1 i = i32 (decompose params (a i)).1 ∧
    (poly_decompose params a1 a0 a).2 i = i32 (decompose params (a i)).2 := by
  unfold poly_decompose
  rw [forLoop_store2 (fun i => i32 (decompose params (a i)).1)
    (fun i => i32 (decompose params (a i)).2)]
  simp only
  have hN : i < N := by unfold N; omega
  rw [forLoop_store, forLoop_store, if_pos hN, if_pos hN]
  exact ⟨rfl, rfl⟩

/-- C16.  Decompose law with boundary fold: for `gamma2` in `{(Q-1)/88, (Q-1)/32}`,
`ALPHA = 2*gamma2` and every polynomial with coefficients `c` in `[0, Q)`, `poly_decompose`
yields per coefficient `(c1, c0)` with `c mod Q = c1*ALPHA + c0` and
`-ALPHA/2 < c0 ≤ ALPHA/2`, except when the naive high part equals `(Q-1)/ALPHA` (that is,
when `c > Q - 1 - ALPHA/2`), where `c1 = 0` and `c0 = (c mod Q) - Q` with
`-ALPHA/2 ≤ c0 < 0`; in every case `c1*ALPHA + c0` is congruent to `c` modulo `Q`. -/
theorem poly_decompose_law (params : ml_dsa_params)
    (hg : params.gamma2 = (Q - 1) / 88 ∨ params.gamma2 = (Q - 1) / 32)
    (a1 a0 a : poly) (ha : ∀ i, i < 256 → 0 ≤ a i ∧ a i < Q) :
    ∀ i, i < 256 →
      ((a i % Q - centered_mod (a i % Q) (2 * params.gamma2)) / (2 * params.gamma2)
          ≠ (Q - 1) / (2 * params.gamma2) →
        a i % Q = (poly_decompose params a1 a0 a).1 i * (2 * params.gamma2)
            + (poly_decompose params a1 a0 a).2 i ∧
        -((2 * params.gamma2) / 2) < (poly_decompose params a1 a0 a).2 i ∧
        (poly_decompose params a1 a0 a).2 i ≤ (2 * params.gamma2) / 2) ∧
      ((a i % Q - centered_mod (a i % Q) (2 * params.gamma2)) / (2 * params.gamma2)
          = (Q - 1) / (2 * params.gamma2) →
        (poly_decompose params a1 a0 a).1 i = 0 ∧
        (poly_decompose params a1 a0 a).2 i = a i % Q - Q ∧
        -((2 * params.gamma2) / 2) ≤ (poly_decompose params a1 a0 a).2 i ∧
        (poly_decompose params a1 a0 a).2 i < 0) ∧
      ((a i % Q - centered_mod (a i % Q) (2 * params.gamma2)) / (2 * params.gamma2)
          = (Q - 1) / (2 * params.gamma2) ↔ Q - 1 - (2 * params.gamma2) / 2 < a i) ∧
      ((poly_decompose params a1 a0 a).1 i * (2 * params.gamma2)
          + (poly_decompose params a1 a0 a).2 i) % Q = a i % Q := by
  intro i hi
  have h := ha i hi
  unfold Q at h
  have hx : a i % 8380417 = a i := Int.emod_eq_of_lt h.1 h.2
  obtain ⟨e1, e2⟩ := poly_decompose_at params a1 a0 a i hi
  rcases hg with hp | hp
  · have hp' : params.gamma2 = 95232 := by rw [hp]; norm_num [Q]
    have c1 : (2 : Int) * 95232 = 190464 := by norm_num
    have c2 : ((8380417 : Int) - 1) / 190464 = 44 := by norm_num
    have c3 : (190464 : Int) / 2 = 95232 := by norm_num
    obtain ⟨s1, s2, s3⟩ := decompose_spec88 params hp' (a i) h.1 h.2
    simp only [hp', Q, c1, c2, c3]
    generalize (a i % 8380417 - centered_mod (a i % 8380417) 190464) / 190464 = nv at s1 ⊢
    rw [hx]
    by_cases hc : 8285184 < a i
    · have t := s2 hc
      rw [e1, e2, t.1, t.2, i32_small _ (by omega) (by omega),
        i32_small _ (by omega) (by omega)]
      refine ⟨fun hn => absurd (s1.2 hc) hn, fun _ => ⟨rfl, rfl, by omega, by omega⟩,
        ⟨fun _ => by omega, fun _ => s1.2 hc⟩, ?_⟩
      omega
    · have t := s3 (by omega)
      rw [e1, e2, i32_small _ (by omega) (by omega), i32_small _ (by omega) (by omega)]
      refine ⟨fun _ => ⟨t.1, t.2.1, t.2.2.1⟩, fun hn => absurd (s1.1 hn) hc,
        ⟨fun hn => absurd (s1.1 hn) hc, fun hn => absurd (by omega) hc⟩, ?_⟩
      rw [← t.1]
      exact hx
  · have hp' : params.gamma2 = 261888 := by rw [hp]; norm_num [Q]
    have c1 : (2 : Int) * 261888 = 523776 := by norm_num
    have c2 : ((8380417 : Int) - 1) / 523776 = 16 := by norm_num
    have c3 : (523776 : Int) / 2 = 261888 := by norm_num
    obtain ⟨s1, s2, s3⟩ := decompose_spec32 params hp' (a i) h.1 h.2
    simp only [hp', Q, c1, c2, c3]
    generalize (a i % 8380417 - centered_mod (a i % 8380417) 523776) / 523776 = nv at s1 ⊢
    rw [hx]
    by_cases hc : 8118528 < a i
    · have t := s2 hc
      rw [e1, e2, t.1, t.2, i32_small _ (by omega) (by omega),
        i32_small _ (by omega) (by omega)]
      refine ⟨fun hn => absurd (s1.2 hc) hn, fun _ => ⟨rfl, rfl, by omega, by omega⟩,
        ⟨fun _ => by omega, fun _ => s1.2 hc⟩, ?_⟩
      omega
    · have t := s3 (by omega)
      rw [e1, e2, i32_small _ (by omega) (by omega), i32_small _ (by omega) (by omega)]
      refine ⟨fun _ => ⟨t.1, t.2.1, t.2.2.1⟩, fun hn => absurd (s1.1 hn) hc,
        ⟨fun hn => absurd (s1.1 hn) hc, fun hn => absurd (by omega) hc⟩, ?_⟩
      rw [← t.1]
      exact hx

theorem poly_decompose_law_witness :
    (∀ i, i < 256 → (0 : Int) ≤ (fun _ => 8380416 : poly) i ∧ (fun _ => 8380416 : poly) i < Q) ∧
    ∀ i, i < 256 →
      ((poly_decompose ⟨2, 39, 131072, (Q - 1) / 88, 32⟩ (fun _ => 7) (fun _ => 7)
          (fun _ => 8380416)).1 i * (2 * ((Q - 1) / 88))
        + (poly_decompose ⟨2, 39, 131072, (Q - 1) / 88, 32⟩ (fun _ => 7) (fun _ => 7)
          (fun _ => 8380416)).2 i) % Q = (fun _ => 8380416 : poly) i % Q :=
  ⟨fun _ _ => by norm_num [Q],
   fun i hi => (poly_decompose_law ⟨2, 39, 131072, (Q - 1) / 88, 32⟩ (Or.inl rfl) (fun _ => 7)
     (fun _ => 7) (fun _ => 8380416) (fun _ _ => by norm_num [Q]) i hi).2.2.2⟩

theorem forLoop_succ {σ : Type} (n : Nat) (body : Nat → σ → σ) (s : σ) :
    forLoop (n + 1) body s = body n (forLoop n body s) := rfl

theorem poly_make_hint_loop (make_hint : ml_dsa_params → Int → Int → Nat)
    (params : ml_dsa_params) (h a0 a1 : poly)
    (hmh : ∀ x y, make_hint params x y = 0 ∨ make_hint params x y = 1) :
    ∀ n, n ≤ 256 →
      (∀ j, (forLoop n (fun i (st : poly × Nat) =>
          (Function.update st.1 i (i32 (make_hint params (a0 i) (a1 i) : Nat)),
            u32 ((st.2 : Int) +
              Function.update st.1 i (i32 (make_hint params (a0 i) (a1 i) : Nat)) i)))
          (h, 0)).1 j
        = if j < n then ((make_hint params (a0 j) (a1 j) : Nat) : Int) else h j) ∧
      (forLoop n (fun i (st : poly × Nat) =>
          (Function.update st.1 i (i32 (make_hint params (a0 i) (a1 i) : Nat)),
            u32 ((st.2 : Int) +
              Function.update st.1 i (i32 (make_hint params (a0 i) (a1 i) : Nat)) i)))
          (h, 0)).2
        = ∑ j in Finset.range n, make_hint params (a0 j) (a1 j) ∧
      (∑ j in Finset.range n, make_hint params (a0 j) (a1 j)) ≤ n := by
  intro n
  induction n with
  | zero => intro _; exact ⟨fun j => by simp [forLoop], rfl, by simp⟩
  | succ n ih =>
    intro hn
    obtain ⟨ih1, ih2, ih3⟩ := ih (by omega)
    have hv : i32 ((make_hint params (a0 n) (a1 n) : Nat) : Int)
        = ((make_hint params (a0 n) (a1 n) : Nat) : Int) :=
      i32_small _ (by omega) (by have := hmh (a0 n) (a1 n); omega)
    rw [Finset.sum_range_succ]
    refine ⟨fun j => ?_, ?_, by have := hmh (a0 n) (a1 n); omega⟩
    · rw [forLoop_succ]
      dsimp only
      by_cases hj : j = n
      · subst hj; rw [Function.update_same, hv, if_pos (Nat.lt_succ_self _)]
      · rw [Function.update_noteq hj, ih1 j]
        by_cases h2 : j < n
        · rw [if_pos h2, if_pos (by omega)]
        · rw [if_neg h2, if_neg (by omega)]
    · rw [forLoop_succ]
      dsimp only
      rw [Function.update_same, hv, ih2]
      have := hmh (a0 n) (a1 n)
      unfold u32
      omega

/-- C18.  `poly_make_hint` returns the number of `1` coefficients of the hint polynomial it
writes: given that `make_hint` returns only `0` or `1`, the return value is the number of
indices `i < 256` with `h[i] = 1`, it is the sum of the coefficients of `h`, and it is at
most `256`. -/
theorem poly_make_hint_count (make_hint : ml_dsa_params → Int → Int → Nat)
    (params : ml_dsa_params) (h a0 a1 : poly)
    (hmh : ∀ x y, make_hint params x y = 0 ∨ make_hint params x y = 1) :
    (poly_make_hint make_hint params h a0 a1).2
      = ((Finset.range 256).filter
          (fun i => (poly_make_hint make_hint params h a0 a1).1 i = 1)).card ∧
    ((poly_make_hint make_hint params h a0 a1).2 : Int)
      = ∑ i in Finset.range 256, (poly_make_hint make_hint params h a0 a1).1 i ∧
    (poly_make_hint make_hint params h a0 a1).2 ≤ 256 := by
  obtain ⟨h1, h2, h3⟩ := poly_make_hint_loop make_hint params h a0 a1 hmh 256 (le_refl _)
  have e1 : ∀ i, i ∈ Finset.range 256 → (poly_make_hint make_hint params h a0 a1).1 i
      = ((make_hint params (a0 i) (a1 i) : Nat) : Int) := fun i hi => by
    have := h1 i
    rw [if_pos (Finset.mem_range.mp hi)] at this
    exact this
  have e2 : (poly_make_hint make_hint params h a0 a1).2
      = ∑ j in Finset.range 256, make_hint params (a0 j) (a1 j) := h2
  refine ⟨?_, ?_, by rw [e2]; exact h3⟩
  · rw [e2, Finset.card_filter]
    apply Finset.sum_congr rfl
    intro i hi
    rw [e1 i hi]
    rcases hmh (a0 i) (a1 i) with e | e <;> rw [e] <;> simp
  · rw [e2, Nat.cast_sum]
    apply Finset.sum_congr rfl
    intro i hi
    rw [e1 i hi]

theorem poly_make_hint_count_witness :
    (∀ x y : Int, (fun (_ : ml_dsa_params) (x y : Int) => if x < y then 1 else 0 : 
        ml_dsa_params → Int → Int → Nat) ⟨2, 39, 131072, 95232, 32⟩ x y = 0 ∨
      (fun (_ : ml_dsa_params) (x y : Int) => if x < y then 1 else 0 :
        ml_dsa_params → Int → Int → Nat) ⟨2, 39, 131072, 95232, 32⟩ x y = 1) ∧
    (poly_make_hint (fun _ x y => if x < y then 1 else 0) ⟨2, 39, 131072, 95232, 32⟩
        (fun _ => 7) (fun i => i) (fun _ => 100)).2 ≤ 256 :=
  ⟨fun x y => by by_cases h : x < y <;> simp [h],
   (poly_make_hint_count (fun _ x y => if x < y then 1 else 0) ⟨2, 39, 131072, 95232, 32⟩
     (fun _ => 7) (fun i => i) (fun _ => 100)
     (fun x y => by by_cases h : x < y <;> simp [h])).2.2⟩

/-! ## Rejection samplers: ranges -/

theorem rej_uniform_loop_succ (base len : Nat) (buf : bytes) (buflen fuel : Nat) (a : poly)
    (ctr pos : Nat) :
    rej_uniform_loop base len buf buflen (fuel + 1) a ctr pos
      = if ctr < len ∧ pos + 3 ≤ buflen then
          if ((((buf pos ||| shl_u32 (buf (pos + 1)) 8) ||| shl_u32 (buf (pos + 2)) 16)
              &&& 0x7FFFFF : Nat) : Int) < Q then
            rej_uniform_loop base len buf buflen fuel
              (Function.update a (base + ctr)
                (i32 ((((buf pos ||| shl_u32 (buf (pos + 1)) 8) ||| shl_u32 (buf (pos + 2)) 16)
                  &&& 0x7FFFFF : Nat) : Int))) (ctr + 1) (pos + 3)
          else rej_uniform_loop base len buf buflen fuel a ctr (pos + 3)
        else (a, ctr) := rfl

theorem rej_uniform_loop_spec (base len : Nat) (buf : bytes) (buflen : Nat) :
    ∀ fuel a ctr pos, ctr ≤ len →
      ctr ≤ (rej_uniform_loop base len buf buflen fuel a ctr pos).2 ∧
      (rej_uniform_loop base len buf buflen fuel a ctr pos).2 ≤ len ∧
      (∀ j, (j < base + ctr ∨ base + (rej_uniform_loop base len buf buflen fuel a ctr pos).2 ≤ j) →
        (rej_uniform_loop base len buf buflen fuel a ctr pos).1 j = a j) ∧
      (∀ j, base + ctr ≤ j →
        j < base + (rej_uniform_loop base len buf buflen fuel a ctr pos).2 →
        0 ≤ (rej_uniform_loop base len buf buflen fuel a ctr pos).1 j ∧
        (rej_uniform_loop base len buf buflen fuel a ctr pos).1 j < Q) := by
  intro fuel
  induction fuel with
  | zero =>
    intro a ctr pos h
    exact ⟨le_refl _, h, fun _ _ => rfl, fun j h1 h2 => absurd h2 (Nat.not_lt.mpr h1)⟩
  | succ fuel ih =>
    intro a ctr pos h
    rw [rej_uniform_loop_succ]
    generalize ((buf pos ||| shl_u32 (buf (pos + 1)) 8) ||| shl_u32 (buf (pos + 2)) 16)
      &&& 0x7FFFFF = t
    by_cases hc : ctr < len ∧ pos + 3 ≤ buflen
    · rw [if_pos hc]
      by_cases ht : (t : Int) < Q
      · rw [if_pos ht]
        obtain ⟨h1, h2, h3, h4⟩ := ih (Function.update a (base + ctr) (i32 t)) (ctr + 1) (pos + 3)
          (by omega)
        refine ⟨by omega, h2, fun j hj => ?_, fun j hj1 hj2 => ?_⟩
        · rw [h3 j (by omega), Function.update_noteq (by omega)]
        · by_cases hj : j = base + ctr
          · rw [h3 j (by omega), hj, Function.update_same]
            unfold Q at ht
            rw [i32_small _ (by omega) (by omega)]
            unfold Q
            omega
          · exact h4 j (by omega) hj2
      · rw [if_neg ht]
        exact ih a ctr (pos + 3) h
    · rw [if_neg hc]
      exact ⟨le_refl _, h, fun _ _ => rfl, fun j h1 h2 => absurd h2 (Nat.not_lt.mpr h1)⟩

theorem rej_uniform_spec (a : poly) (base len : Nat) (buf : bytes) (buflen : Nat) :
    (rej_uniform a base len buf buflen).2 ≤ len ∧
    (∀ j, (j < base ∨ base + (rej_uniform a base len buf buflen).2 ≤ j) →
      (rej_uniform a base len buf buflen).1 j = a j) ∧
    (∀ j, base ≤ j → j < base + (rej_uniform a base len buf buflen).2 →
      0 ≤ (rej_uniform a base len buf buflen).1 j ∧ (rej_uniform a base len buf buflen).1 j < Q) := by
  unfold rej_uniform
  obtain ⟨_, h2, h3, h4⟩ := rej_uniform_loop_spec base len buf buflen buflen a 0 0 (Nat.zero_le _)
  exact ⟨h2, fun j hj => h3 j (by omega), fun j h1 hj => h4 j (by omega) hj⟩

theorem poly_uniform_loop_spec (E : shake_engine) :
    ∀ fuel s s', s.ctr ≤ N → (∀ j, j < s.ctr → 0 ≤ s.a j ∧ s.a j < Q) →
      poly_uniform_loop E fuel s = some s' →
      s'.ctr = N ∧ ∀ j, j < N → 0 ≤ s'.a j ∧ s'.a j < Q := by
  intro fuel
  induction fuel with
  | zero =>
    intro s s' h1 h2 h
    unfold poly_uniform_loop at h
    by_cases hc : s.ctr < N
    · rw [if_pos hc] at h; exact absurd h (by simp)
    · rw [if_neg hc] at h
      simp only [Option.some.injEq] at h
      subst h
      have : s.ctr = N := by omega
      exact ⟨this, fun j hj => h2 j (by omega)⟩
  | succ fuel ih =>
    intro s s' h1 h2 h
    unfold poly_uniform_loop at h
    by_cases hc : s.ctr < N
    · rw [if_pos hc] at h
      dsimp only at h
      generalize (SHAKE_Final E _ _ s.state _).1 = buf at h
      generalize (SHAKE_Final E _ _ s.state _).2 = st at h
      obtain ⟨r1, r2, r3⟩ := rej_uniform_spec s.a s.ctr (N - s.ctr) buf
        (E.SHAKE128_RATE + s.buflen % 3)
      refine ih _ s' (by dsimp only; omega) (fun j hj => ?_) h
      dsimp only at hj ⊢
      by_cases hj' : j < s.ctr
      · rw [r2 j (Or.inl hj')]; exact h2 j hj'
      · exact r3 j (by omega) hj
    · rw [if_neg hc] at h
      simp only [Option.some.injEq] at h
      subst h
      have : s.ctr = N := by omega
      exact ⟨this, fun j hj => h2 j (by omega)⟩

/-- C12.  Uniform sampler range: for every seed and nonce and every byte stream on which
`poly_uniform` returns, all 256 coefficients it has written lie in `[0, Q)`. -/
theorem poly_uniform_range (E : shake_engine) (C : dilithium_consts) (a : poly) (seed : bytes)
    (nonce : Nat) (buf0 : bytes) (fuel : Nat) (out : uniform_state)
    (h : poly_uniform E C a seed nonce buf0 fuel = some out) :
    ∀ i, i < 256 → 0 ≤ out.a i ∧ out.a i < Q := by
  unfold poly_uniform at h
  dsimp only at h
  split at h
  · exact absurd h (by simp)
  · rename_i s hl
    simp only [Option.some.injEq] at h
    subst h
    obtain ⟨r1, r2, r3⟩ := rej_uniform_spec a 0 N
      (SHAKE_Final E buf0 0
        (SHA3_Update (SHA3_Update (SHAKE_Init E.SHAKE128_BLOCKSIZE) seed C.SEEDBYTES)
          (nonce_bytes nonce) 2) (POLY_UNIFORM_NBLOCKS E * E.SHAKE128_BLOCKSIZE)).1
      (POLY_UNIFORM_NBLOCKS E * E.SHAKE128_RATE)
    have := poly_uniform_loop_spec E fuel _ s r1
      (fun j hj => r3 j (Nat.zero_le _) (by dsimp only at hj; omega)) hl
    intro i hi
    exact this.2 i (by unfold N; omega)

set_option maxRecDepth 1000000 in
theorem poly_uniform_range_witness :
    ∃ out, poly_uniform ⟨168, 168, 136, 136, fun _ _ n => 5 * n⟩ ⟨32, 64, 2, 640⟩ (fun _ => -7)
        (fun _ => 0) 3 (fun _ => 0) 1 = some out ∧
      ∀ i, i < 256 → 0 ≤ out.a i ∧ out.a i < Q := by
  have hs : (poly_uniform ⟨168, 168, 136, 136, fun _ _ n => 5 * n⟩ ⟨32, 64, 2, 640⟩
      (fun _ => -7) (fun _ => 0) 3 (fun _ => 0) 1).isSome = true := by decide
  obtain ⟨out, hout⟩ := Option.isSome_iff_exists.mp hs
  exact ⟨out, hout, poly_uniform_range _ _ _ _ _ _ _ out hout⟩

theorem extends_with_refl (base len : Nat) (lo hi : Int) (s : poly × Nat) (h : s.2 ≤ len) :
    extends_with base len lo hi s s :=
  ⟨le_refl _, h, fun _ _ => rfl, fun _ h1 h2 => absurd h2 (Nat.not_lt.mpr h1)⟩

theorem extends_with_trans (base len : Nat) (lo hi : Int) (s s' s'' : poly × Nat)
    (h1 : extends_with base len lo hi s s') (h2 : extends_with base len lo hi s' s'') :
    extends_with base len lo hi s s'' := by
  obtain ⟨a1, a2, a3, a4⟩ := h1
  obtain ⟨b1, b2, b3, b4⟩ := h2
  refine ⟨by omega, b2, fun j hj => ?_, fun j hj1 hj2 => ?_⟩
  · rw [b3 j (by omega), a3 j (by omega)]
  · by_cases hj : j < base + s'.2
    · rw [b3 j (Or.inl hj)]; exact a4 j hj1 hj
    · exact b4 j (by omega) hj2

theorem extends_with_store (base len : Nat) (lo hi : Int) (a : poly) (ctr : Nat) (v : Int)
    (h : ctr < len) (hv : lo ≤ v ∧ v ≤ hi) :
    extends_with base len lo hi (a, ctr) (Function.update a (base + ctr) v, ctr + 1) := by
  refine ⟨Nat.le_succ _, h, fun j hj => ?_, fun j hj1 hj2 => ?_⟩
  · show Function.update a (base + ctr) v j = a j
    have h1 : (a, ctr).2 = ctr := rfl
    have h2 : (Function.update a (base + ctr) v, ctr + 1).2 = ctr + 1 := rfl
    rw [h1, h2] at hj
    rw [Function.update_noteq (by omega)]
  · show lo ≤ Function.update a (base + ctr) v j ∧ Function.update a (base + ctr) v j ≤ hi
    have h1 : (a, ctr).2 = ctr := rfl
    have h2 : (Function.update a (base + ctr) v, ctr + 1).2 = ctr + 1 := rfl
    rw [h1] at hj1
    rw [h2] at hj2
    have : j = base + ctr := by omega
    rw [this, Function.update_same]
    exact hv

theorem rej_eta_val2 (t : Nat) (h : t < 15) :
    -2 ≤ i32 (u32 (2 - (u32 ((t : Int) - ((((205 * t) % 4294967296) >>> 10) * 5 : Nat)) : Int))) ∧
    i32 (u32 (2 - (u32 ((t : Int) - ((((205 * t) % 4294967296) >>> 10) * 5 : Nat)) : Int))) ≤ 2 := by
  rw [Nat.shiftRight_eq_div_pow]
  unfold i32 u32
  interval_cases t <;> norm_num

theorem rej_eta_val4 (t : Nat) (h : t < 9) :
    -4 ≤ i32 (u32 (4 - (t : Int))) ∧ i32 (u32 (4 - (t : Int))) ≤ 4 := by
  unfold i32 u32
  omega

theorem rej_eta_loop_succ (params : ml_dsa_params) (base len : Nat) (buf : bytes)
    (buflen fuel : Nat) (a : poly) (ctr pos : Nat) :
    rej_eta_loop params base len buf buflen (fuel + 1) a ctr pos
      = if ctr < len ∧ pos < buflen then
          let t0 := buf pos &&& 0x0F
          let t1 := buf pos >>> 4
          let pos := pos + 1
          if params.eta = 2 then
            let s : poly × Nat :=
              if t0 < 15 then
                let t0 := u32 ((t0 : Int) - ((((205 * t0) % 4294967296) >>> 10) * 5 : Nat))
                (Function.update a (base + ctr) (i32 (u32 (2 - (t0 : Int)))), ctr + 1)
              else (a, ctr)
            let s : poly × Nat :=
              if t1 < 15 ∧ s.2 < len then
                let t1 := u32 ((t1 : Int) - ((((205 * t1) % 4294967296) >>> 10) * 5 : Nat))
                (Function.update s.1 (base + s.2) (i32 (u32 (2 - (t1 : Int)))), s.2 + 1)
              else s
            rej_eta_loop params base len buf buflen fuel s.1 s.2 pos
          else if params.eta = 4 then
            let s : poly × Nat :=
              if t0 < 9 then
                (Function.update a (base + ctr) (i32 (u32 (4 - (t0 : Int)))), ctr + 1)
              else (a, ctr)
            let s : poly × Nat :=
              if t1 < 9 ∧ s.2 < len then
                (Function.update s.1 (base + s.2) (i32 (u32 (4 - (t1 : Int)))), s.2 + 1)
              else s
            rej_eta_loop params base len buf buflen fuel s.1 s.2 pos
          else rej_eta_loop params base len buf buflen fuel a ctr pos
        else (a, ctr) := rfl

theorem rej_eta_loop_spec (params : ml_dsa_params) (base len : Nat) (buf : bytes)
    (buflen : Nat) :
    ∀ fuel a ctr pos, ctr ≤ len →
      extends_with base len (-params.eta) params.eta (a, ctr)
        (rej_eta_loop params base len buf buflen fuel a ctr pos) := by
  intro fuel
  induction fuel with
  | zero => intro a ctr pos h; exact extends_with_refl _ _ _ _ _ h
  | succ fuel ih =>
    intro a ctr pos h
    rw [rej_eta_loop_succ]
    by_cases hc : ctr < len ∧ pos < buflen
    · rw [if_pos hc]
      simp only []
      generalize buf pos &&& 15 = t0
      generalize buf pos >>> 4 = t1
      by_cases h2 : params.eta = 2
      · rw [if_pos h2, h2]
        have e1 : extends_with base len (-2) 2 (a, ctr)
            (if t0 < 15 then
              (Function.update a (base + ctr)
                (i32 (u32 (2 - (u32 ((t0 : Int) - ((((205 * t0) % 4294967296) >>> 10) * 5 : Nat))
                  : Int)))), ctr + 1)
            else (a, ctr)) := by
          by_cases ht : t0 < 15
          · rw [if_pos ht]; exact extends_with_store _ _ _ _ _ _ _ hc.1 (rej_eta_val2 t0 ht)
          · rw [if_neg ht]; exact extends_with_refl _ _ _ _ _ h
        generalize (if t0 < 15 then
              ((Function.update a (base + ctr)
                (i32 (u32 (2 - (u32 ((t0 : Int) - ((((205 * t0) % 4294967296) >>> 10) * 5 : Nat))
                  : Int)))), ctr + 1) : poly × Nat)
            else (a, ctr)) = s at e1 ⊢
        have e2 : extends_with base len (-2) 2 s
            (if t1 < 15 ∧ s.2 < len then
              (Function.update s.1 (base + s.2)
                (i32 (u32 (2 - (u32 ((t1 : Int) - ((((205 * t1) % 4294967296) >>> 10) * 5 : Nat))
                  : Int)))), s.2 + 1)
            else s) := by
          by_cases ht : t1 < 15 ∧ s.2 < len
          · rw [if_pos ht]
            exact extends_with_store _ _ _ _ s.1 s.2 _ ht.2 (rej_eta_val2 t1 ht.1)
          · rw [if_neg ht]; exact extends_with_refl _ _ _ _ _ e1.2.1
        generalize (if t1 < 15 ∧ s.2 < len then
              ((Function.update s.1 (base + s.2)
                (i32 (u32 (2 - (u32 ((t1 : Int) - ((((205 * t1) % 4294967296) >>> 10) * 5 : Nat))
                  : Int)))), s.2 + 1) : poly × Nat)
            else s) = s' at e2 ⊢
        have e3 := ih s'.1 s'.2 (pos + 1) e2.2.1
        rw [h2] at e3
        exact extends_with_trans _ _ _ _ _ _ _ e1 (extends_with_trans _ _ _ _ _ _ _ e2 e3)
      · rw [if_neg h2]
        by_cases h4 : params.eta = 4
        · rw [if_pos h4, h4]
          have e1 : extends_with base len (-4) 4 (a, ctr)
              (if t0 < 9 then
                (Function.update a (base + ctr) (i32 (u32 (4 - (t0 : Int)))), ctr + 1)
              else (a, ctr)) := by
            by_cases ht : t0 < 9
            · rw [if_pos ht]; exact extends_with_store _ _ _ _ _ _ _ hc.1 (rej_eta_val4 t0 ht)
            · rw [if_neg ht]; exact extends_with_refl _ _ _ _ _ h
          generalize (if t0 < 9 then
                ((Function.update a (base + ctr) (i32 (u32 (4 - (t0 : Int)))), ctr + 1) : poly × Nat)
              else (a, ctr)) = s at e1 ⊢
          have e2 : extends_with base len (-4) 4 s
              (if t1 < 9 ∧ s.2 < len then
                (Function.update s.1 (base + s.2) (i32 (u32 (4 - (t1 : Int)))), s.2 + 1)
              else s) := by
            by_cases ht : t1 < 9 ∧ s.2 < len
            · rw [if_pos ht]
              exact extends_with_store _ _ _ _ s.1 s.2 _ ht.2 (rej_eta_val4 t1 ht.1)
            · rw [if_neg ht]; exact extends_with_refl _ _ _ _ _ e1.2.1
          generalize (if t1 < 9 ∧ s.2 < len then
                ((Function.update s.1 (base + s.2) (i32 (u32 (4 - (t1 : Int)))), s.2 + 1)
                  : poly × Nat)
              else s) = s' at e2 ⊢
          have e3 := ih s'.1 s'.2 (pos + 1) e2.2.1
          rw [h4] at e3
          exact extends_with_trans _ _ _ _ _ _ _ e1 (extends_with_trans _ _ _ _ _ _ _ e2 e3)
        · rw [if_neg h4]
          exact ih a ctr (pos + 1) h
    · rw [if_neg hc]
      exact extends_with_refl _ _ _ _ _ h

theorem rej_eta_spec (params : ml_dsa_params) (a : poly) (base len : Nat) (buf : bytes)
    (buflen : Nat) :
    extends_with base len (-params.eta) params.eta (a, 0) (rej_eta params a base len buf buflen) :=
  rej_eta_loop_spec params base len buf buflen buflen a 0 0 (Nat.zero_le _)

theorem poly_uniform_eta_loop_spec (E : shake_engine) (params : ml_dsa_params) :
    ∀ fuel s s', s.ctr ≤ N → (∀ j, j < s.ctr → -params.eta ≤ s.a j ∧ s.a j ≤ params.eta) →
      poly_uniform_eta_loop E params fuel s = some s' →
      s'.ctr = N ∧ ∀ j, j < N → -params.eta ≤ s'.a j ∧ s'.a j ≤ params.eta := by
  intro fuel
  induction fuel with
  | zero =>
    intro s s' h1 h2 h
    unfold poly_uniform_eta_loop at h
    by_cases hc : s.ctr < N
    · rw [if_pos hc] at h; exact absurd h (by simp)
    · rw [if_neg hc] at h
      simp only [Option.some.injEq] at h
      subst h
      have : s.ctr = N := by omega
      exact ⟨this, fun j hj => h2 j (by omega)⟩
  | succ fuel ih =>
    intro s s' h1 h2 h
    unfold poly_uniform_eta_loop at h
    by_cases hc : s.ctr < N
    · rw [if_pos hc] at h
      dsimp only at h
      generalize (SHAKE_Final E _ _ s.state _).1 = buf at h
      generalize (SHAKE_Final E _ _ s.state _).2 = st at h
      obtain ⟨_, r1, r2, r3⟩ := rej_eta_spec params s.a s.ctr (N - s.ctr) buf E.SHAKE256_RATE
      generalize rej_eta params s.a s.ctr (N - s.ctr) buf E.SHAKE256_RATE = r at h r1 r2 r3
      refine ih _ s' (by dsimp only; omega) (fun j hj => ?_) h
      dsimp only at hj ⊢
      by_cases hj' : j < s.ctr
      · rw [r2 j (Or.inl (by dsimp only; omega))]; exact h2 j hj'
      · exact r3 j (by dsimp only; omega) hj
    · rw [if_neg hc] at h
      simp only [Option.some.injEq] at h
      subst h
      have : s.ctr = N := by omega
      exact ⟨this, fun j hj => h2 j (by omega)⟩

/-- C13.  Bounded sampler range: for `eta` in `{2, 4}`, every seed and nonce and every byte
stream on which `poly_uniform_eta` returns, all 256 coefficients it has written lie in
`[-eta, eta]`. -/
theorem poly_uniform_eta_range (E : shake_engine) (C : dilithium_consts)
    (params : ml_dsa_params) (_heta : params.eta = 2 ∨ params.eta = 4) (a : poly)
    (seed : bytes) (nonce : Nat) (buf0 : bytes) (fuel : Nat) (out : uniform_state)
    (h : poly_uniform_eta E C params a seed nonce buf0 fuel = some out) :
    ∀ i, i < 256 → -params.eta ≤ out.a i ∧ out.a i ≤ params.eta := by
  unfold poly_uniform_eta at h
  dsimp only at h
  split at h
  · exact absurd h (by simp)
  · rename_i s hl
    simp only [Option.some.injEq] at h
    subst h
    obtain ⟨_, r1, r2, r3⟩ := rej_eta_spec params a 0 N
      (SHAKE_Final E buf0 0
        (SHA3_Update (SHA3_Update (SHAKE_Init E.SHAKE256_BLOCKSIZE) seed C.CRHBYTES)
          (nonce_bytes nonce) 2)
        (C.DILITHIUM_POLY_UNIFORM_ETA_NBLOCKS_MAX * E.SHAKE256_BLOCKSIZE)).1
      (C.DILITHIUM_POLY_UNIFORM_ETA_NBLOCKS_MAX * E.SHAKE256_RATE)
    have := poly_uniform_eta_loop_spec E params fuel _ s r1
      (fun j hj => r3 j (Nat.zero_le _) (by dsimp only at hj ⊢; omega)) hl
    intro i hi
    exact this.2 i (by unfold N; omega)

set_option maxRecDepth 1000000 in
theorem poly_uniform_eta_range_witness :
    ((4 : Int) = 2 ∨ (4 : Int) = 4) ∧
    ∃ out, poly_uniform_eta ⟨168, 168, 136, 136, fun _ _ n => 7 * n⟩ ⟨32, 64, 2, 640⟩
        ⟨4, 49, 524288, 261888, 48⟩ (fun _ => -7) (fun _ => 0) 3 (fun _ => 0) 2 = some out ∧
      ∀ i, i < 256 → -(4 : Int) ≤ out.a i ∧ out.a i ≤ 4 := by
  have hs : (poly_uniform_eta ⟨168, 168, 136, 136, fun _ _ n => 7 * n⟩ ⟨32, 64, 2, 640⟩
      ⟨4, 49, 524288, 261888, 48⟩ (fun _ => -7) (fun _ => 0) 3 (fun _ => 0) 2).isSome = true := by
    decide
  obtain ⟨out, hout⟩ := Option.isSome_iff_exists.mp hs
  exact ⟨Or.inr rfl, out, hout,
    poly_uniform_eta_range _ _ ⟨4, 49, 524288, 261888, 48⟩ (Or.inr rfl) _ _ _ _ _ out hout⟩

/-! ## Gamma sampler -/

theorem polyz_unpack17_congr (params : ml_dsa_params) (hp : params.gamma1 = 131072) (r : poly)
    (b b' : bytes) (hb : ∀ n, n < 576 → b n = b' n) (m : Nat) (hm : m < 256) :
    polyz_unpack params r b m = polyz_unpack params r b' m := by
  obtain ⟨i, c, hi, hc, rfl⟩ : ∃ i c, i < 64 ∧ c < 4 ∧ m = 4 * i + c :=
    ⟨m / 4, m % 4, by omega, by omega, by omega⟩
  rw [polyz_unpack17_at params hp r b i c hi hc, polyz_unpack17_at params hp r b' i c hi hc]
  have h0 := hb (9 * i + 0) (by omega)
  have h1 := hb (9 * i + 1) (by omega)
  have h2 := hb (9 * i + 2) (by omega)
  have h3 := hb (9 * i + 3) (by omega)
  have h4 := hb (9 * i + 4) (by omega)
  have h5 := hb (9 * i + 5) (by omega)
  have h6 := hb (9 * i + 6) (by omega)
  have h7 := hb (9 * i + 7) (by omega)
  have h8 := hb (9 * i + 8) (by omega)
  simp only [Nat.add_zero] at h0
  interval_cases c <;> simp [polyz_unpack_body17, h0, h1, h2, h3, h4, h5, h6, h7, h8]

theorem polyz_unpack19_congr (params : ml_dsa_params) (hp : params.gamma1 = 524288) (r : poly)
    (b b' : bytes) (hb : ∀ n, n < 640 → b n = b' n) (m : Nat) (hm : m < 256) :
    polyz_unpack params r b m = polyz_unpack params r b' m := by
  obtain ⟨i, c, hi, hc, rfl⟩ : ∃ i c, i < 128 ∧ c < 2 ∧ m = 2 * i + c :=
    ⟨m / 2, m % 2, by omega, by omega, by omega⟩
  rw [polyz_unpack19_at params hp r b i c hi hc, polyz_unpack19_at params hp r b' i c hi hc]
  have h0 := hb (5 * i + 0) (by omega)
  have h1 := hb (5 * i + 1) (by omega)
  have h2 := hb (5 * i + 2) (by omega)
  have h3 := hb (5 * i + 3) (by omega)
  have h4 := hb (5 * i + 4) (by omega)
  simp only [Nat.add_zero] at h0
  interval_cases c <;> simp [polyz_unpack_body19, h0, h1, h2, h3, h4]

theorem polyz_unpack17_in_range (params : ml_dsa_params) (hp : params.gamma1 = 131072)
    (r : poly) (b : bytes) (hb : ∀ n, n < 576 → b n < 256) (m : Nat) (hm : m < 256) :
    -(params.gamma1 - 1) ≤ polyz_unpack params r b m ∧ polyz_unpack params r b m ≤ params.gamma1 := by
  have hX := polyz_unpack17_bits params hp r b hb m
  have hlt : u32 (params.gamma1 - polyz_unpack params r b m) < 2 ^ 18 := by
    apply Nat.lt_pow_two_of_testBit
    intro j hj
    rw [hX j hm]
    simp [show ¬ j < 18 by omega]
  have hr := polyz_unpack17_range params hp r b m hm
  unfold u32 at hlt
  omega

theorem polyz_unpack19_in_range (params : ml_dsa_params) (hp : params.gamma1 = 524288)
    (r : poly) (b : bytes) (hb : ∀ n, n < 640 → b n < 256) (m : Nat) (hm : m < 256) :
    -(params.gamma1 - 1) ≤ polyz_unpack params r b m ∧ polyz_unpack params r b m ≤ params.gamma1 := by
  have hX := polyz_unpack19_bits params hp r b hb m
  have hlt : u32 (params.gamma1 - polyz_unpack params r b m) < 2 ^ 20 := by
    apply Nat.lt_pow_two_of_testBit
    intro j hj
    rw [hX j hm]
    simp [show ¬ j < 20 by omega]
  have hr := polyz_unpack19_range params hp r b m hm
  unfold u32 at hlt
  omega

theorem poly_uniform_gamma1_buf (E : shake_engine) (C : dilithium_consts) (seed : bytes)
    (nonce : Nat) (buf0 : bytes) (n : Nat)
    (hn : n < POLY_UNIFORM_GAMMA1_NBLOCKS E C * E.SHAKE256_BLOCKSIZE) :
    (SHAKE_Final E buf0 0
      (SHA3_Update (SHA3_Update (SHAKE_Init E.SHAKE256_BLOCKSIZE) seed C.CRHBYTES)
        (nonce_bytes nonce) 2) (POLY_UNIFORM_GAMMA1_NBLOCKS E C * E.SHAKE256_BLOCKSIZE)).1 n
      = xof_stream E E.SHAKE256_BLOCKSIZE seed C.CRHBYTES nonce n := by
  unfold SHAKE_Final xof_stream
  simp only [SHA3_Update, SHAKE_Init]
  rw [if_pos ⟨Nat.zero_le _, by omega⟩]
  simp

/-- C14.  Gamma sampler: for `gamma1` in `{2^17, 2^19}` and every seed and nonce,
`poly_uniform_gamma1`, which has no rejection loop, outputs `polyz_unpack` applied to the
first `576` (`gamma1 = 2^17`) resp. `640` (`gamma1 = 2^19`) bytes of the stream
`SHAKE256(seed || nonce)`, and every output coefficient lies in `[-(gamma1-1), gamma1]`;
the one squeeze is assumed to cover the `640` bytes of the largest packed polynomial. -/
theorem poly_uniform_gamma1_spec (E : shake_engine) (C : dilithium_consts)
    (params : ml_dsa_params) (P : Nat)
    (hg : (params.gamma1 = 2 ^ 17 ∧ P = 576) ∨ (params.gamma1 = 2 ^ 19 ∧ P = 640))
    (hbuf : 640 ≤ POLY_UNIFORM_GAMMA1_NBLOCKS E C * E.SHAKE256_BLOCKSIZE)
    (a : poly) (seed : bytes) (nonce : Nat) (buf0 : bytes) :
    (∀ b : bytes, (∀ n, n < P → b n = xof_stream E E.SHAKE256_BLOCKSIZE seed C.CRHBYTES nonce n) →
      ∀ i, i < 256 →
        (poly_uniform_gamma1 E C params a seed nonce buf0).a i = polyz_unpack params a b i) ∧
    (∀ i, i < 256 →
      -(params.gamma1 - 1) ≤ (poly_uniform_gamma1 E C params a seed nonce buf0).a i ∧
      (poly_uniform_gamma1 E C params a seed nonce buf0).a i ≤ params.gamma1) := by
  have hbytes : ∀ n, n < 640 →
      (SHAKE_Final E buf0 0
        (SHA3_Update (SHA3_Update (SHAKE_Init E.SHAKE256_BLOCKSIZE) seed C.CRHBYTES)
          (nonce_bytes nonce) 2) (POLY_UNIFORM_GAMMA1_NBLOCKS E C * E.SHAKE256_BLOCKSIZE)).1 n
        = xof_stream E E.SHAKE256_BLOCKSIZE seed C.CRHBYTES nonce n :=
    fun n hn => poly_uniform_gamma1_buf E C seed nonce buf0 n (by omega)
  have hlt : ∀ n, n < 640 →
      (SHAKE_Final E buf0 0
        (SHA3_Update (SHA3_Update (SHAKE_Init E.SHAKE256_BLOCKSIZE) seed C.CRHBYTES)
          (nonce_bytes nonce) 2) (POLY_UNIFORM_GAMMA1_NBLOCKS E C * E.SHAKE256_BLOCKSIZE)).1 n
        < 256 := fun n hn => by
    rw [hbytes n hn]; unfold xof_stream; exact Nat.mod_lt _ (by decide)
  rcases hg with ⟨hp, rfl⟩ | ⟨hp, rfl⟩
  · have hp' : params.gamma1 = 131072 := by rw [hp]; norm_num
    constructor
    · intro b hb i hi
      exact polyz_unpack17_congr params hp' a _ b
        (fun n hn => by rw [hbytes n (by omega), hb n hn]) i hi
    · intro i hi
      exact polyz_unpack17_in_range params hp' a _ (fun n hn => hlt n (by omega)) i hi
  · have hp' : params.gamma1 = 524288 := by rw [hp]; norm_num
    constructor
    · intro b hb i hi
      exact polyz_unpack19_congr params hp' a _ b
        (fun n hn => by rw [hbytes n (by omega), hb n hn]) i hi
    · intro i hi
      exact polyz_unpack19_in_range params hp' a _ (fun n hn => hlt n (by omega)) i hi

theorem poly_uniform_gamma1_spec_witness :
    (640 ≤ POLY_UNIFORM_GAMMA1_NBLOCKS ⟨168, 168, 136, 136, fun _ _ n => 7 * n⟩ ⟨32, 64, 2, 640⟩
        * 136) ∧
    ∀ i, i < 256 →
      -((2 : Int) ^ 19 - 1) ≤ (poly_uniform_gamma1 ⟨168, 168, 136, 136, fun _ _ n => 7 * n⟩
        ⟨32, 64, 2, 640⟩ ⟨4, 49, 2 ^ 19, 261888, 48⟩ (fun _ => 0) (fun _ => 0) 5 (fun _ => 0)).a i ∧
      (poly_uniform_gamma1 ⟨168, 168, 136, 136, fun _ _ n => 7 * n⟩
        ⟨32, 64, 2, 640⟩ ⟨4, 49, 2 ^ 19, 261888, 48⟩ (fun _ => 0) (fun _ => 0) 5 (fun _ => 0)).a i
        ≤ 2 ^ 19 :=
  ⟨by decide,
   (poly_uniform_gamma1_spec ⟨168, 168, 136, 136, fun _ _ n => 7 * n⟩ ⟨32, 64, 2, 640⟩
     ⟨4, 49, 2 ^ 19, 261888, 48⟩ 640 (Or.inr ⟨rfl, rfl⟩) (by decide) (fun _ => 0) (fun _ => 0) 5
     (fun _ => 0)).2⟩

/-! ## Uniform sampler against its reference filter -/

set_option maxRecDepth 1000000 in
/-- C11 (failing input).  On the byte stream that is `0xFF` below offset `1008`, `1` on
`1008 .. 1679` and `2` from `1680` on, with `SHAKE128_RATE = SHAKE128_BLOCKSIZE = 168`,
`poly_uniform` returns after six refills with `a[0] = 131586`, the candidate read at offset
`1680`, whereas the first accepted candidate of the stream is `65793`, read at offset
`1008`: the second refill squeezes `840` bytes and uses `168`, so `672` bytes are skipped. -/
theorem poly_uniform_skips_stream_bytes :
    (poly_uniform ⟨168, 168, 136, 136, fun _ _ n => if n < 1008 then 255 else if n < 1680 then 1 else 2⟩
        ⟨32, 64, 2, 640⟩ (fun _ => 0) (fun _ => 0) 0 (fun _ => 0) 6).map (fun s => s.a 0)
      = some 131586 ∧
    (uniform_accepted
        (xof_stream ⟨168, 168, 136, 136, fun _ _ n => if n < 1008 then 255 else if n < 1680 then 1 else 2⟩
          168 (fun _ => 0) 32 0) 337).head? = some 65793 := by
  constructor <;> decide

/-! ## Termination of the rejection loops -/

theorem rej_uniform_loop_step (base len : Nat) (buf : bytes) (buflen fuel : Nat) (a : poly)
    (ctr pos : Nat) :
    rej_uniform_loop base len buf buflen (fuel + 1) a ctr pos
      = if ctr < len ∧ pos + 3 ≤ buflen then
          if (rej_uniform_cand buf pos : Int) < Q then
            rej_uniform_loop base len buf buflen fuel
              (Function.update a (base + ctr) (i32 (rej_uniform_cand buf pos))) (ctr + 1) (pos + 3)
          else rej_uniform_loop base len buf buflen fuel a ctr (pos + 3)
        else (a, ctr) := rfl

theorem rej_uniform_loop_reject (base len : Nat) (buf : bytes) (buflen : Nat)
    (hbuf : ∀ p, p + 3 ≤ buflen → ¬ (rej_uniform_cand buf p : Int) < Q) :
    ∀ fuel a ctr pos, rej_uniform_loop base len buf buflen fuel a ctr pos = (a, ctr) := by
  intro fuel
  induction fuel with
  | zero => intro a ctr pos; rfl
  | succ fuel ih =>
    intro a ctr pos
    rw [rej_uniform_loop_step]
    by_cases hc : ctr < len ∧ pos + 3 ≤ buflen
    · rw [if_pos hc, if_neg (hbuf pos hc.2)]
      exact ih a ctr (pos + 3)
    · rw [if_neg hc]

theorem rej_uniform_loop_progress (base len : Nat) (buf : bytes) (buflen : Nat) :
    ∀ fuel a ctr pos p, ctr < len → pos ≤ p → (p - pos) % 3 = 0 → p + 3 ≤ buflen →
      (rej_uniform_cand buf p : Int) < Q → p < pos + 3 * fuel →
      ctr < (rej_uniform_loop base len buf buflen fuel a ctr pos).2 := by
  intro fuel
  induction fuel with
  | zero => intro a ctr pos p _ h1 _ _ _ h2; omega
  | succ fuel ih =>
    intro a ctr pos p hc h1 h3 h4 hq hf
    rw [rej_uniform_loop_step, if_pos ⟨hc, by omega⟩]
    by_cases ht : (rej_uniform_cand buf pos : Int) < Q
    · rw [if_pos ht]
      have := (rej_uniform_loop_spec base len buf buflen fuel
        (Function.update a (base + ctr) (i32 (rej_uniform_cand buf pos))) (ctr + 1) (pos + 3)
        (by omega)).1
      omega
    · rw [if_neg ht]
      have hne : p ≠ pos := fun e => ht (e ▸ hq)
      exact ih a ctr (pos + 3) p hc (by omega) (by omega) h4 hq (by omega)

theorem poly_uniform_nblocks (E : shake_engine) (hR : E.SHAKE128_RATE = 168) :
    POLY_UNIFORM_NBLOCKS E = 5 := by
  unfold POLY_UNIFORM_NBLOCKS; rw [hR]

theorem rej_uniform_cand_ff (E : shake_engine) (hs : ∀ bs x n, E.stream bs x n % 256 = 255)
    (b : bytes) (st : KECCAK1600_CTX) (p : Nat) (hp : p + 3 ≤ 840) :
    ¬ (rej_uniform_cand (SHAKE_Final E b 0 st (5 * 168)).1 p : Int) < Q := by
  have e : ∀ j, j < 840 → (SHAKE_Final E b 0 st (5 * 168)).1 j = 255 := fun j hj => by
    unfold SHAKE_Final
    simp only
    rw [if_pos ⟨Nat.zero_le _, by omega⟩]
    exact hs _ _ _
  unfold rej_uniform_cand
  rw [e p (by omega), e (p + 1) (by omega), e (p + 2) (by omega)]
  have : ((255 ||| shl_u32 255 8) ||| shl_u32 255 16) &&& 0x7FFFFF = 8388607 := by decide
  rw [this]
  unfold Q
  omega

theorem poly_uniform_loop_never (E : shake_engine) (hR : E.SHAKE128_RATE = 168)
    (hB : E.SHAKE128_BLOCKSIZE = 168) (hs : ∀ bs x n, E.stream bs x n % 256 = 255) :
    ∀ fuel s, s.ctr = 0 → s.buflen % 3 = 0 → poly_uniform_loop E fuel s = none := by
  intro fuel
  induction fuel with
  | zero =>
    intro s h1 _
    unfold poly_uniform_loop
    rw [if_pos (by rw [h1]; unfold N; omega)]
  | succ fuel ih =>
    intro s h1 h2
    unfold poly_uniform_loop
    rw [if_pos (by rw [h1]; unfold N; omega)]
    simp only [h2, poly_uniform_nblocks E hR, hR, hB]
    have hf : forLoop 0 (fun i (buf : bytes) => Function.update buf i (buf (s.buflen - 0 + i))) s.buf
        = s.buf := rfl
    rw [hf]
    have hr : rej_uniform s.a s.ctr (N - s.ctr) (SHAKE_Final E s.buf 0 s.state (5 * 168)).1 (168 + 0)
        = (s.a, 0) := by
      unfold rej_uniform
      exact rej_uniform_loop_reject _ _ _ _
        (fun p hp => rej_uniform_cand_ff E hs s.buf s.state p (by omega)) _ _ _ _
    rw [hr]
    exact ih _ (by simp only; omega) (by simp only)

theorem poly_uniform_never (E : shake_engine) (hR : E.SHAKE128_RATE = 168)
    (hB : E.SHAKE128_BLOCKSIZE = 168) (hs : ∀ bs x n, E.stream bs x n % 256 = 255)
    (C : dilithium_consts) (a : poly) (seed : bytes) (nonce : Nat) (buf0 : bytes) (fuel : Nat) :
    poly_uniform E C a seed nonce buf0 fuel = none := by
  unfold poly_uniform
  simp only [poly_uniform_nblocks E hR, hR, hB]
  have hr : ∀ st, rej_uniform a 0 N (SHAKE_Final E buf0 0 st (5 * 168)).1 (5 * 168) = (a, 0) := by
    intro st
    unfold rej_uniform
    exact rej_uniform_loop_reject _ _ _ _
      (fun p hp => rej_uniform_cand_ff E hs buf0 st p (by omega)) _ _ _ _
  rw [hr, poly_uniform_loop_never E hR hB hs fuel _ rfl (by simp only)]

theorem rej_uniform_cand_congr (buf buf' : bytes) (p q : Nat)
    (h : ∀ j, j < 3 → buf (p + j) = buf' (q + j)) :
    rej_uniform_cand buf p = rej_uniform_cand buf' q := by
  unfold rej_uniform_cand
  rw [h 1 (by omega), h 2 (by omega)]
  have := h 0 (by omega)
  simp only [Nat.add_zero] at this
  rw [this]

theorem rej_uniform_progress (a : poly) (base len : Nat) (buf : bytes) (buflen j : Nat)
    (hlen : 0 < len) (hj : 3 * j + 3 ≤ buflen) (hq : (rej_uniform_cand buf (3 * j) : Int) < Q) :
    0 < (rej_uniform a base len buf buflen).2 := by
  unfold rej_uniform
  exact rej_uniform_loop_progress base len buf buflen buflen a 0 0 (3 * j) hlen (Nat.zero_le _)
    (by omega) hj hq (by omega)

theorem poly_uniform_loop_total (E : shake_engine) (hR : E.SHAKE128_RATE = 168)
    (hB : E.SHAKE128_BLOCKSIZE = 168) (bs : Nat) (X : List Nat)
    (H : ∀ k, 1 ≤ k → ∃ j, j < 56 ∧
      (rej_uniform_cand (fun n => E.stream bs X n % 256) (840 * k + 3 * j) : Int) < Q) :
    ∀ fuel s k, 1 ≤ k → s.state = ⟨bs, X, 840 * k⟩ → s.buflen % 3 = 0 → s.ctr ≤ N →
      N - s.ctr ≤ fuel → (poly_uniform_loop E fuel s).isSome = true := by
  intro fuel
  induction fuel with
  | zero =>
    intro s k _ _ _ h1 h2
    unfold poly_uniform_loop
    rw [if_neg (by omega)]
    rfl
  | succ fuel ih =>
    intro s k hk hst h3 h1 h2
    unfold poly_uniform_loop
    by_cases hc : s.ctr < N
    · rw [if_pos hc]
      simp only [h3, poly_uniform_nblocks E hR, hR, hB]
      have hf : forLoop 0 (fun i (buf : bytes) => Function.update buf i (buf (s.buflen - 0 + i)))
          s.buf = s.buf := rfl
      rw [hf]
      obtain ⟨j, hj, hq⟩ := H k hk
      have hcand : rej_uniform_cand (SHAKE_Final E s.buf 0 s.state (5 * 168)).1 (3 * j)
          = rej_uniform_cand (fun n => E.stream bs X n % 256) (840 * k + 3 * j) := by
        apply rej_uniform_cand_congr
        intro i hi
        unfold SHAKE_Final
        simp only [hst]
        rw [if_pos ⟨Nat.zero_le _, by omega⟩]
        simp only [Nat.sub_zero, Nat.add_assoc]
      have hp := rej_uniform_progress s.a s.ctr (N - s.ctr)
        (SHAKE_Final E s.buf 0 s.state (5 * 168)).1 (168 + 0) j (by omega) (by omega)
        (by rw [hcand]; exact hq)
      have hl := (rej_uniform_spec s.a s.ctr (N - s.ctr)
        (SHAKE_Final E s.buf 0 s.state (5 * 168)).1 (168 + 0)).1
      refine ih _ (k + 1) (by omega) ?_ (by simp only) (by simp only; omega) (by simp only; omega)
      unfold SHAKE_Final
      simp only [hst]
      congr 1
    · rw [if_neg hc]
      rfl

theorem poly_uniform_total (E : shake_engine) (hR : E.SHAKE128_RATE = 168)
    (hB : E.SHAKE128_BLOCKSIZE = 168) (C : dilithium_consts) (a : poly) (seed : bytes)
    (nonce : Nat) (buf0 : bytes)
    (H : ∀ k, 1 ≤ k → ∃ j, j < 56 ∧
      (rej_uniform_cand (xof_stream E E.SHAKE128_BLOCKSIZE seed C.SEEDBYTES nonce)
        (840 * k + 3 * j) : Int) < Q)
    (fuel : Nat) (hfuel : 256 ≤ fuel) :
    (poly_uniform E C a seed nonce buf0 fuel).isSome = true := by
  have hl := (rej_uniform_spec a 0 N
    (SHAKE_Final E buf0 0
      (SHA3_Update (SHA3_Update (SHAKE_Init E.SHAKE128_BLOCKSIZE) seed C.SEEDBYTES)
        (nonce_bytes nonce) 2) (POLY_UNIFORM_NBLOCKS E * E.SHAKE128_BLOCKSIZE)).1
    (POLY_UNIFORM_NBLOCKS E * E.SHAKE128_RATE)).1
  have := poly_uniform_loop_total E hR hB E.SHAKE128_BLOCKSIZE
    (SHA3_Update (SHA3_Update (SHAKE_Init E.SHAKE128_BLOCKSIZE) seed C.SEEDBYTES)
      (nonce_bytes nonce) 2).absorbed H fuel
    ⟨(rej_uniform a 0 N
        (SHAKE_Final E buf0 0
          (SHA3_Update (SHA3_Update (SHAKE_Init E.SHAKE128_BLOCKSIZE) seed C.SEEDBYTES)
            (nonce_bytes nonce) 2) (POLY_UNIFORM_NBLOCKS E * E.SHAKE128_BLOCKSIZE)).1
        (POLY_UNIFORM_NBLOCKS E * E.SHAKE128_RATE)).1,
      (rej_uniform a 0 N
        (SHAKE_Final E buf0 0
          (SHA3_Update (SHA3_Update (SHAKE_Init E.SHAKE128_BLOCKSIZE) seed C.SEEDBYTES)
            (nonce_bytes nonce) 2) (POLY_UNIFORM_NBLOCKS E * E.SHAKE128_BLOCKSIZE)).1
        (POLY_UNIFORM_NBLOCKS E * E.SHAKE128_RATE)).2,
      (SHAKE_Final E buf0 0
          (SHA3_Update (SHA3_Update (SHAKE_Init E.SHAKE128_BLOCKSIZE) seed C.SEEDBYTES)
            (nonce_bytes nonce) 2) (POLY_UNIFORM_NBLOCKS E * E.SHAKE128_BLOCKSIZE)).1,
      POLY_UNIFORM_NBLOCKS E * E.SHAKE128_RATE,
      (SHAKE_Final E buf0 0
          (SHA3_Update (SHA3_Update (SHAKE_Init E.SHAKE128_BLOCKSIZE) seed C.SEEDBYTES)
            (nonce_bytes nonce) 2) (POLY_UNIFORM_NBLOCKS E * E.SHAKE128_BLOCKSIZE)).2⟩ 1
    (le_refl _)
    (by simp only [SHAKE_Final, SHA3_Update, SHAKE_Init, poly_uniform_nblocks E hR, hB,
          Nat.zero_add, Nat.mul_one])
    (by simp only [poly_uniform_nblocks E hR, hR])
    hl (by simp only; unfold N; omega)
  unfold poly_uniform
  simp only
  generalize poly_uniform_loop E fuel _ = r at this ⊢
  cases r with
  | none => exact absurd this (by simp)
  | some s => rfl

theorem rej_eta_loop_step (params : ml_dsa_params) (base len : Nat) (buf : bytes)
    (buflen fuel : Nat) (a : poly) (ctr pos : Nat) :
    rej_eta_loop params base len buf buflen (fuel + 1) a ctr pos
      = if ctr < len ∧ pos < buflen then
          rej_eta_loop params base len buf buflen fuel
            (rej_eta_step params base len (buf pos) a ctr).1
            (rej_eta_step params base len (buf pos) a ctr).2 (pos + 1)
        else (a, ctr) := by
  rw [rej_eta_loop_succ]
  unfold rej_eta_step
  by_cases hc : ctr < len ∧ pos < buflen
  · rw [if_pos hc, if_pos hc]
    by_cases h2 : params.eta = 2
    · simp only [if_pos h2]
    · by_cases h4 : params.eta = 4
      · simp only [if_neg h2, if_pos h4]
      · simp only [if_neg h2, if_neg h4]
  · rw [if_neg hc, if_neg hc]

theorem rej_eta_step_mono (params : ml_dsa_params) (base len b : Nat) (a : poly) (ctr : Nat)
    (h : ctr < len) :
    ctr ≤ (rej_eta_step params base len b a ctr).2 ∧
    (rej_eta_step params base len b a ctr).2 ≤ len := by
  unfold rej_eta_step
  simp only
  split_ifs <;> simp_all <;> omega

theorem rej_eta_step_progress (params : ml_dsa_params) (base len b : Nat) (a : poly)
    (ctr : Nat) (h : ctr < len) (hb : eta_accepts params b) :
    ctr < (rej_eta_step params base len b a ctr).2 := by
  unfold eta_accepts at hb
  unfold rej_eta_step
  simp only
  rcases hb with ⟨he, hb⟩ | ⟨he, hb⟩
  · rw [if_pos he]
    split_ifs <;> simp_all
    omega
  · have h2 : ¬ params.eta = 2 := by rw [he]; decide
    rw [if_neg h2, if_pos he]
    split_ifs <;> simp_all
    omega

theorem rej_eta_step_reject (params : ml_dsa_params) (base len : Nat) (a : poly) (ctr : Nat) :
    rej_eta_step params base len 255 a ctr = (a, ctr) := by
  unfold rej_eta_step
  have e0 : 255 &&& 0x0F = 15 := by decide
  have e1 : 255 >>> 4 = 15 := by decide
  simp only [e0, e1]
  split_ifs <;> simp_all

theorem rej_eta_loop_mono (params : ml_dsa_params) (base len : Nat) (buf : bytes)
    (buflen : Nat) :
    ∀ fuel a ctr pos, ctr ≤ len →
      ctr ≤ (rej_eta_loop params base len buf buflen fuel a ctr pos).2 ∧
      (rej_eta_loop params base len buf buflen fuel a ctr pos).2 ≤ len := by
  intro fuel a ctr pos h
  have := rej_eta_loop_spec params base len buf buflen fuel a ctr pos h
  exact ⟨this.1, this.2.1⟩

theorem rej_eta_loop_progress (params : ml_dsa_params) (base len : Nat) (buf : bytes)
    (buflen : Nat) :
    ∀ fuel a ctr pos p, ctr < len → pos ≤ p → p < buflen → eta_accepts params (buf p) →
      p < pos + fuel → ctr < (rej_eta_loop params base len buf buflen fuel a ctr pos).2 := by
  intro fuel
  induction fuel with
  | zero => intro a ctr pos p _ h1 _ _ h2; omega
  | succ fuel ih =>
    intro a ctr pos p hc h1 hp hb hf
    rw [rej_eta_loop_step, if_pos ⟨hc, by omega⟩]
    obtain ⟨m1, m2⟩ := rej_eta_step_mono params base len (buf pos) a ctr hc
    have m3 := (rej_eta_loop_mono params base len buf buflen fuel
      (rej_eta_step params base len (buf pos) a ctr).1
      (rej_eta_step params base len (buf pos) a ctr).2 (pos + 1) m2).1
    by_cases hpp : p = pos
    · have := rej_eta_step_progress params base len (buf pos) a ctr hc (hpp ▸ hb)
      omega
    · by_cases hs : ctr < (rej_eta_step params base len (buf pos) a ctr).2
      · omega
      · have e : (rej_eta_step params base len (buf pos) a ctr).2 = ctr := by omega
        have := ih (rej_eta_step params base len (buf pos) a ctr).1
          (rej_eta_step params base len (buf pos) a ctr).2 (pos + 1) p (by omega) (by omega) hp hb
          (by omega)
        omega

theorem rej_eta_loop_reject (params : ml_dsa_params) (base len : Nat) (buf : bytes)
    (buflen : Nat) (hbuf : ∀ p, p < buflen → buf p = 255) :
    ∀ fuel a ctr pos, rej_eta_loop params base len buf buflen fuel a ctr pos = (a, ctr) := by
  intro fuel
  induction fuel with
  | zero => intro a ctr pos; rfl
  | succ fuel ih =>
    intro a ctr pos
    rw [rej_eta_loop_step]
    by_cases hc : ctr < len ∧ pos < buflen
    · rw [if_pos hc, hbuf pos hc.2, rej_eta_step_reject]
      exact ih a ctr (pos + 1)
    · rw [if_neg hc]

theorem poly_uniform_eta_loop_never (E : shake_engine) (params : ml_dsa_params)
    (hR : E.SHAKE256_RATE ≤ E.SHAKE256_BLOCKSIZE)
    (hs : ∀ bs x n, E.stream bs x n % 256 = 255) :
    ∀ fuel s, s.ctr = 0 → poly_uniform_eta_loop E params fuel s = none := by
  intro fuel
  induction fuel with
  | zero =>
    intro s h1
    unfold poly_uniform_eta_loop
    rw [if_pos (by rw [h1]; unfold N; omega)]
  | succ fuel ih =>
    intro s h1
    unfold poly_uniform_eta_loop
    rw [if_pos (by rw [h1]; unfold N; omega)]
    simp only
    have hr : rej_eta params s.a s.ctr (N - s.ctr)
        (SHAKE_Final E s.buf 0 s.state E.SHAKE256_BLOCKSIZE).1 E.SHAKE256_RATE = (s.a, 0) := by
      unfold rej_eta
      refine rej_eta_loop_reject _ _ _ _ _ (fun p hp => ?_) _ _ _ _
      unfold SHAKE_Final
      simp only
      rw [if_pos ⟨Nat.zero_le _, by omega⟩]
      exact hs _ _ _
    rw [hr]
    exact ih _ (by simp only; omega)

theorem poly_uniform_eta_never (E : shake_engine) (params : ml_dsa_params)
    (hR : E.SHAKE256_RATE ≤ E.SHAKE256_BLOCKSIZE)
    (hs : ∀ bs x n, E.stream bs x n % 256 = 255)
    (C : dilithium_consts) (a : poly) (seed : bytes) (nonce : Nat) (buf0 : bytes) (fuel : Nat) :
    poly_uniform_eta E C params a seed nonce buf0 fuel = none := by
  unfold poly_uniform_eta
  simp only
  have hr : ∀ st, rej_eta params a 0 N
      (SHAKE_Final E buf0 0 st (C.DILITHIUM_POLY_UNIFORM_ETA_NBLOCKS_MAX * E.SHAKE256_BLOCKSIZE)).1
      (C.DILITHIUM_POLY_UNIFORM_ETA_NBLOCKS_MAX * E.SHAKE256_RATE) = (a, 0) := by
    intro st
    unfold rej_eta
    refine rej_eta_loop_reject _ _ _ _ _ (fun p hp => ?_) _ _ _ _
    unfold SHAKE_Final
    simp only
    have := Nat.mul_le_mul_left C.DILITHIUM_POLY_UNIFORM_ETA_NBLOCKS_MAX hR
    rw [if_pos ⟨Nat.zero_le _, by omega⟩]
    exact hs _ _ _
  rw [hr, poly_uniform_eta_loop_never E params hR hs fuel _ rfl]

theorem poly_uniform_eta_loop_total (E : shake_engine) (params : ml_dsa_params)
    (hR : E.SHAKE256_RATE = 136) (hB : E.SHAKE256_BLOCKSIZE = 136) (bs : Nat) (X : List Nat)
    (L : Nat)
    (H : ∀ k, ∃ j, j < 136 ∧ eta_accepts params (E.stream bs X (136 * (L + k) + j) % 256)) :
    ∀ fuel s k, s.state = ⟨bs, X, 136 * (L + k)⟩ → s.ctr ≤ N →
      N - s.ctr ≤ fuel → (poly_uniform_eta_loop E params fuel s).isSome = true := by
  intro fuel
  induction fuel with
  | zero =>
    intro s k _ h1 h2
    unfold poly_uniform_eta_loop
    rw [if_neg (by omega)]
    rfl
  | succ fuel ih =>
    intro s k hst h1 h2
    unfold poly_uniform_eta_loop
    by_cases hc : s.ctr < N
    · rw [if_pos hc]
      simp only [hR, hB]
      obtain ⟨j, hj, hq⟩ := H k
      have hbyte : (SHAKE_Final E s.buf 0 s.state 136).1 j
          = E.stream bs X (136 * (L + k) + j) % 256 := by
        unfold SHAKE_Final
        simp only [hst]
        rw [if_pos ⟨Nat.zero_le _, by omega⟩]
        simp only [Nat.sub_zero]
      have hp : 0 < (rej_eta params s.a s.ctr (N - s.ctr)
          (SHAKE_Final E s.buf 0 s.state 136).1 136).2 := by
        unfold rej_eta
        exact rej_eta_loop_progress params s.ctr (N - s.ctr) _ 136 136 s.a 0 0 j (by omega)
          (Nat.zero_le _) hj (by rw [hbyte]; exact hq) (by omega)
      have hl : (rej_eta params s.a s.ctr (N - s.ctr)
          (SHAKE_Final E s.buf 0 s.state 136).1 136).2 ≤ N - s.ctr := by
        unfold rej_eta
        exact (rej_eta_loop_mono params s.ctr (N - s.ctr) _ 136 136 s.a 0 0 (Nat.zero_le _)).2
      refine ih _ (k + 1) ?_ (by simp only; omega) (by simp only; omega)
      unfold SHAKE_Final
      simp only [hst]
      congr 1
    · rw [if_neg hc]
      rfl

theorem poly_uniform_eta_total (E : shake_engine) (hR : E.SHAKE256_RATE = 136)
    (hB : E.SHAKE256_BLOCKSIZE = 136) (C : dilithium_consts) (params : ml_dsa_params)
    (a : poly) (seed : bytes) (nonce : Nat) (buf0 : bytes)
    (H : ∀ k, ∃ j, j < 136 ∧ eta_accepts params
      (xof_stream E E.SHAKE256_BLOCKSIZE seed C.CRHBYTES nonce
        (136 * (C.DILITHIUM_POLY_UNIFORM_ETA_NBLOCKS_MAX + k) + j)))
    (fuel : Nat) (hfuel : 256 ≤ fuel) :
    (poly_uniform_eta E C params a seed nonce buf0 fuel).isSome = true := by
  have hl := (rej_eta_loop_mono params 0 N
    (SHAKE_Final E buf0 0
      (SHA3_Update (SHA3_Update (SHAKE_Init E.SHAKE256_BLOCKSIZE) seed C.CRHBYTES)
        (nonce_bytes nonce) 2)
      (C.DILITHIUM_POLY_UNIFORM_ETA_NBLOCKS_MAX * E.SHAKE256_BLOCKSIZE)).1
    (C.DILITHIUM_POLY_UNIFORM_ETA_NBLOCKS_MAX * E.SHAKE256_RATE)
    (C.DILITHIUM_POLY_UNIFORM_ETA_NBLOCKS_MAX * E.SHAKE256_RATE) a 0 0 (Nat.zero_le _)).2
  have := poly_uniform_eta_loop_total E params hR hB E.SHAKE256_BLOCKSIZE
    (SHA3_Update (SHA3_Update (SHAKE_Init E.SHAKE256_BLOCKSIZE) seed C.CRHBYTES)
      (nonce_bytes nonce) 2).absorbed C.DILITHIUM_POLY_UNIFORM_ETA_NBLOCKS_MAX H fuel
    ⟨(rej_eta params a 0 N
        (SHAKE_Final E buf0 0
          (SHA3_Update (SHA3_Update (SHAKE_Init E.SHAKE256_BLOCKSIZE) seed C.CRHBYTES)
            (nonce_bytes nonce) 2)
          (C.DILITHIUM_POLY_UNIFORM_ETA_NBLOCKS_MAX * E.SHAKE256_BLOCKSIZE)).1
        (C.DILITHIUM_POLY_UNIFORM_ETA_NBLOCKS_MAX * E.SHAKE256_RATE)).1,
      (rej_eta params a 0 N
        (SHAKE_Final E buf0 0
          (SHA3_Update (SHA3_Update (SHAKE_Init E.SHAKE256_BLOCKSIZE) seed C.CRHBYTES)
            (nonce_bytes nonce) 2)
          (C.DILITHIUM_POLY_UNIFORM_ETA_NBLOCKS_MAX * E.SHAKE256_BLOCKSIZE)).1
        (C.DILITHIUM_POLY_UNIFORM_ETA_NBLOCKS_MAX * E.SHAKE256_RATE)).2,
      (SHAKE_Final E buf0 0
          (SHA3_Update (SHA3_Update (SHAKE_Init E.SHAKE256_BLOCKSIZE) seed C.CRHBYTES)
            (nonce_bytes nonce) 2)
          (C.DILITHIUM_POLY_UNIFORM_ETA_NBLOCKS_MAX * E.SHAKE256_BLOCKSIZE)).1,
      C.DILITHIUM_POLY_UNIFORM_ETA_NBLOCKS_MAX * E.SHAKE256_RATE,
      (SHAKE_Final E buf0 0
          (SHA3_Update (SHA3_Update (SHAKE_Init E.SHAKE256_BLOCKSIZE) seed C.CRHBYTES)
            (nonce_bytes nonce) 2)
          (C.DILITHIUM_POLY_UNIFORM_ETA_NBLOCKS_MAX * E.SHAKE256_BLOCKSIZE)).2⟩ 0
    (by simp only [SHAKE_Final, SHA3_Update, SHAKE_Init, hB, Nat.zero_add, Nat.add_zero,
          Nat.mul_comm])
    hl (by simp only; unfold N; omega)
  unfold poly_uniform_eta
  simp only
  generalize poly_uniform_eta_loop E params fuel _ = r at this ⊢
  cases r with
  | none => exact absurd this (by simp)
  | some s => rfl

theorem poly_challenge_draw_succ (E : shake_engine) (i fuel : Nat) (s : challenge_state) :
    poly_challenge_draw E i (fuel + 1) s
      = if (poly_challenge_refill E s).buf (poly_challenge_refill E s).pos > i then
          poly_challenge_draw E i fuel
            ⟨(poly_challenge_refill E s).c, (poly_challenge_refill E s).signs,
              (poly_challenge_refill E s).buf, ((poly_challenge_refill E s).pos + 1) % 4294967296,
              (poly_challenge_refill E s).state⟩
        else some ((poly_challenge_refill E s).buf (poly_challenge_refill E s).pos,
          ⟨(poly_challenge_refill E s).c, (poly_challenge_refill E s).signs,
            (poly_challenge_refill E s).buf, ((poly_challenge_refill E s).pos + 1) % 4294967296,
            (poly_challenge_refill E s).state⟩) := rfl

theorem poly_challenge_refill_idem (E : shake_engine) (hR : 0 < E.SHAKE256_RATE)
    (s : challenge_state) :
    poly_challenge_refill E (poly_challenge_refill E s) = poly_challenge_refill E s := by
  unfold poly_challenge_refill
  by_cases h : s.pos ≥ E.SHAKE256_RATE
  · rw [if_pos h]
    rw [if_neg (by simp only; omega)]
  · rw [if_neg h, if_neg h]

theorem poly_challenge_draw_refill (E : shake_engine) (hR : 0 < E.SHAKE256_RATE) (i fuel : Nat)
    (s : challenge_state) :
    poly_challenge_draw E i fuel (poly_challenge_refill E s) = poly_challenge_draw E i fuel s := by
  cases fuel with
  | zero => rfl
  | succ fuel =>
    rw [poly_challenge_draw_succ, poly_challenge_draw_succ, poly_challenge_refill_idem E hR]

theorem poly_challenge_draw_never (E : shake_engine) (hR : 0 < E.SHAKE256_RATE)
    (hRB : E.SHAKE256_RATE ≤ E.SHAKE256_BLOCKSIZE)
    (hs : ∀ bs x n, E.stream bs x n % 256 = 255) (i : Nat) (hi : i < 255) :
    ∀ fuel s, (∀ j, j < E.SHAKE256_RATE → s.buf j = 255) →
      poly_challenge_draw E i fuel s = none := by
  intro fuel
  induction fuel with
  | zero => intro s _; rfl
  | succ fuel ih =>
    intro s hbuf
    rw [poly_challenge_draw_succ]
    have hr : (∀ j, j < E.SHAKE256_RATE → (poly_challenge_refill E s).buf j = 255) ∧
        (poly_challenge_refill E s).pos < E.SHAKE256_RATE := by
      unfold poly_challenge_refill
      by_cases h : s.pos ≥ E.SHAKE256_RATE
      · rw [if_pos h]
        refine ⟨fun j hj => ?_, by simp only; omega⟩
        unfold SHAKE_Final
        simp only
        rw [if_pos ⟨Nat.zero_le _, by omega⟩]
        exact hs _ _ _
      · rw [if_neg h]
        exact ⟨hbuf, by omega⟩
    generalize poly_challenge_refill E s = s1 at hr ⊢
    rw [if_pos (by rw [hr.1 _ hr.2]; omega)]
    exact ih _ hr.1

theorem poly_challenge_never (E : shake_engine) (hR : 0 < E.SHAKE256_RATE)
    (hRB : E.SHAKE256_RATE ≤ E.SHAKE256_BLOCKSIZE)
    (hs : ∀ bs x n, E.stream bs x n % 256 = 255) (params : ml_dsa_params)
    (h2 : 2 ≤ params.tau) (htau : params.tau ≤ 256) (c : poly) (seed buf0 : bytes)
    (fuel : Nat) : poly_challenge E params c seed buf0 fuel = none := by
  unfold poly_challenge
  simp only
  have hi0 : u32 ((N : Int) - (params.tau : Int)) = 256 - params.tau := by
    unfold u32 N; omega
  rw [hi0]
  obtain ⟨n, hn⟩ : ∃ n, N - (256 - params.tau) = n + 1 := ⟨params.tau - 1, by unfold N; omega⟩
  rw [hn]
  unfold poly_challenge_loop
  rw [poly_challenge_draw_never E hR hRB hs (256 - params.tau) (by omega) fuel]
  intro j hj
  simp only
  unfold SHAKE_Final
  simp only
  rw [if_pos ⟨Nat.zero_le _, by omega⟩]
  exact hs _ _ _

/-- C15 (counterexample).  On the byte stream whose every byte is `0xFF`, with the rates
and block sizes `168` and `136`, none of `poly_uniform`, `poly_uniform_eta` (here with
`eta = 2`) and `poly_challenge` (here with `tau = 39`) returns, whatever the number of
squeezes allowed: every 3-byte candidate is `0x7FFFFF ≥ Q`, every nibble is `15`, and every
byte is `255 > i` at the first index `i = 217`. -/
theorem samplers_not_total :
    (¬ ∃ fuel, (poly_uniform ⟨168, 168, 136, 136, fun _ _ _ => 255⟩ ⟨32, 64, 2, 640⟩
      (fun _ => 0) (fun _ => 0) 0 (fun _ => 0) fuel).isSome = true) ∧
    (¬ ∃ fuel, (poly_uniform_eta ⟨168, 168, 136, 136, fun _ _ _ => 255⟩ ⟨32, 64, 2, 640⟩
      ⟨2, 39, 131072, 95232, 32⟩ (fun _ => 0) (fun _ => 0) 0 (fun _ => 0) fuel).isSome = true) ∧
    (¬ ∃ fuel, (poly_challenge ⟨168, 168, 136, 136, fun _ _ _ => 255⟩
      ⟨2, 39, 131072, 95232, 32⟩ (fun _ => 0) (fun _ => 0) (fun _ => 0) fuel).isSome = true) := by
  refine ⟨?_, ?_, ?_⟩
  · rintro ⟨fuel, h⟩
    rw [poly_uniform_never ⟨168, 168, 136, 136, fun _ _ _ => 255⟩ rfl rfl (fun _ _ _ => rfl)] at h
    exact absurd h (by simp)
  · rintro ⟨fuel, h⟩
    rw [poly_uniform_eta_never ⟨168, 168, 136, 136, fun _ _ _ => 255⟩ _ (le_refl _)
      (fun _ _ _ => rfl)] at h
    exact absurd h (by simp)
  · rintro ⟨fuel, h⟩
    rw [poly_challenge_never ⟨168, 168, 136, 136, fun _ _ _ => 255⟩ (by decide) (le_refl _)
      (fun _ _ _ => rfl) ⟨2, 39, 131072, 95232, 32⟩ (by decide) (by decide)] at h
    exact absurd h (by simp)

theorem poly_challenge_draw_ahead (E : shake_engine) (hR : E.SHAKE256_RATE = 136) (bs : Nat)
    (X : List Nat) (i : Nat) :
    ∀ fuel s k p, challenge_inv E bs X s k → s.pos ≤ p → p < 136 → s.buf p ≤ i →
      p < s.pos + fuel →
      ∃ b s' k', poly_challenge_draw E i fuel s = some (b, s') ∧ challenge_inv E bs X s' k' := by
  intro fuel
  induction fuel with
  | zero => intro s k p _ h1 _ _ h2; omega
  | succ fuel ih =>
    intro s k p hinv h1 hp hb hf
    rw [poly_challenge_draw_succ]
    have hr : poly_challenge_refill E s = s := by
      unfold poly_challenge_refill
      rw [if_neg (by omega)]
    rw [hr]
    have hm : (s.pos + 1) % 4294967296 = s.pos + 1 := Nat.mod_eq_of_lt (by omega)
    rw [hm]
    by_cases hc : s.buf s.pos > i
    · rw [if_pos hc]
      have hne : p ≠ s.pos := fun e => by rw [e] at hb; omega
      exact ih ⟨s.c, s.signs, s.buf, s.pos + 1, s.state⟩ k p
        ⟨hinv.1, hinv.2.1, by simp only; omega⟩ (by simp only; omega) hp hb
        (by simp only; omega)
    · rw [if_neg hc]
      exact ⟨_, _, k, rfl, hinv.1, hinv.2.1, by simp only; omega⟩

theorem poly_challenge_draw_total (E : shake_engine) (hR : E.SHAKE256_RATE = 136)
    (hB : E.SHAKE256_BLOCKSIZE = 136) (bs : Nat) (X : List Nat) (m : Nat)
    (H : ∀ k, 1 ≤ k → ∃ j, j < 136 ∧ E.stream bs X (136 * k + j) % 256 ≤ m)
    (i : Nat) (hi : m ≤ i) :
    ∀ n fuel s k, challenge_inv E bs X s k → 136 - s.pos = n → n + 137 ≤ fuel →
      ∃ b s' k', poly_challenge_draw E i fuel s = some (b, s') ∧ challenge_inv E bs X s' k' := by
  intro n
  induction n with
  | zero =>
    intro fuel s k hinv hn hf
    rw [← poly_challenge_draw_refill E (by omega)]
    obtain ⟨j, hj, hq⟩ := H (k + 1) (by omega)
    have hr : poly_challenge_refill E s
        = ⟨s.c, s.signs, (SHAKE_Final E s.buf 0 s.state 136).1, 0,
            (SHAKE_Final E s.buf 0 s.state 136).2⟩ := by
      unfold poly_challenge_refill
      rw [if_pos (by have := hinv.2.2; omega), hB]
    rw [hr]
    have hinv1 : challenge_inv E bs X ⟨s.c, s.signs, (SHAKE_Final E s.buf 0 s.state 136).1, 0,
        (SHAKE_Final E s.buf 0 s.state 136).2⟩ (k + 1) := by
      refine ⟨?_, fun j hj => ?_, Nat.zero_le _⟩
      · unfold SHAKE_Final
        simp only [hinv.1]
        rw [show 136 * (k + 1 + 1) = 136 * (k + 1) + 136 by omega]
      · unfold SHAKE_Final
        simp only [hinv.1]
        rw [if_pos ⟨Nat.zero_le _, by omega⟩]
        simp only [Nat.sub_zero]
    refine poly_challenge_draw_ahead E hR bs X i fuel _ (k + 1) j hinv1 (Nat.zero_le _) hj ?_
      (by simp only; omega)
    rw [hinv1.2.1 j hj]
    omega
  | succ n ih =>
    intro fuel s k hinv hn hf
    obtain ⟨f, rfl⟩ : ∃ f, fuel = f + 1 := ⟨fuel - 1, by omega⟩
    rw [poly_challenge_draw_succ]
    have hr : poly_challenge_refill E s = s := by
      unfold poly_challenge_refill
      rw [if_neg (by omega)]
    rw [hr]
    have hm : (s.pos + 1) % 4294967296 = s.pos + 1 := Nat.mod_eq_of_lt (by omega)
    rw [hm]
    by_cases hc : s.buf s.pos > i
    · rw [if_pos hc]
      exact ih f ⟨s.c, s.signs, s.buf, s.pos + 1, s.state⟩ k
        ⟨hinv.1, hinv.2.1, by simp only; omega⟩ (by simp only; omega) (by omega)
    · rw [if_neg hc]
      exact ⟨_, _, k, rfl, hinv.1, hinv.2.1, by simp only; omega⟩

theorem poly_challenge_loop_total (E : shake_engine) (hR : E.SHAKE256_RATE = 136)
    (hB : E.SHAKE256_BLOCKSIZE = 136) (bs : Nat) (X : List Nat) (m : Nat)
    (H : ∀ k, 1 ≤ k → ∃ j, j < 136 ∧ E.stream bs X (136 * k + j) % 256 ≤ m)
    (fuel : Nat) (hfuel : 273 ≤ fuel) :
    ∀ n i s k, challenge_inv E bs X s k → m ≤ i →
      (poly_challenge_loop E fuel n i s).isSome = true := by
  intro n
  induction n with
  | zero => intro i s k _ _; rfl
  | succ n ih =>
    intro i s k hinv hi
    obtain ⟨b, s', k', hd, hinv'⟩ := poly_challenge_draw_total E hR hB bs X m H i hi
      (136 - s.pos) fuel s k hinv rfl (by omega)
    unfold poly_challenge_loop
    rw [hd]
    simp only
    exact ih (i + 1) _ k' ⟨hinv'.1, hinv'.2.1, hinv'.2.2⟩ (by omega)

theorem poly_challenge_total (E : shake_engine) (hR : E.SHAKE256_RATE = 136)
    (hB : E.SHAKE256_BLOCKSIZE = 136) (params : ml_dsa_params) (htau : params.tau ≤ 256)
    (c : poly) (seed buf0 : bytes)
    (H : ∀ k, 1 ≤ k → ∃ j, j < 136 ∧
      E.stream E.SHAKE256_BLOCKSIZE
        (SHA3_Update (SHAKE_Init E.SHAKE256_BLOCKSIZE) seed params.c_tilde_bytes).absorbed
        (136 * k + j) % 256 ≤ 256 - params.tau)
    (fuel : Nat) (hfuel : 273 ≤ fuel) :
    (poly_challenge E params c seed buf0 fuel).isSome = true := by
  unfold poly_challenge
  simp only
  have hi0 : u32 ((N : Int) - (params.tau : Int)) = 256 - params.tau := by
    unfold u32 N; omega
  rw [hi0]
  have := poly_challenge_loop_total E hR hB _ _ _ H fuel hfuel (N - (256 - params.tau))
    (256 - params.tau)
    ⟨forLoop N (fun i c => Function.update c i 0) c,
      forLoop 8 (fun i signs =>
        signs ||| ((SHAKE_Final E buf0 0
          (SHA3_Update (SHAKE_Init E.SHAKE256_BLOCKSIZE) seed params.c_tilde_bytes)
          E.SHAKE256_BLOCKSIZE).1 i <<< (8*i)) % 18446744073709551616) 0,
      (SHAKE_Final E buf0 0
        (SHA3_Update (SHAKE_Init E.SHAKE256_BLOCKSIZE) seed params.c_tilde_bytes)
        E.SHAKE256_BLOCKSIZE).1, 8,
      (SHAKE_Final E buf0 0
        (SHA3_Update (SHAKE_Init E.SHAKE256_BLOCKSIZE) seed params.c_tilde_bytes)
        E.SHAKE256_BLOCKSIZE).2⟩ 0
    (by
      refine ⟨?_, fun j hj => ?_, by simp only; omega⟩
      · simp only [SHAKE_Final, SHA3_Update, SHAKE_Init, hB, Nat.zero_add]
      · simp only [SHAKE_Final, SHA3_Update, SHAKE_Init, hB, Nat.zero_add, Nat.mul_zero,
          Nat.sub_zero]
        rw [if_pos ⟨Nat.zero_le _, hj⟩])
    (le_refl _)
  generalize poly_challenge_loop E fuel _ _ _ = r at this ⊢
  cases r with
  | none => exact absurd this (by simp)
  | some s => rfl

/-- C15 (amended).  Termination of the samplers under progress of the stream, with the rates
and block sizes `168` (SHAKE128) and `136` (SHAKE256) and `tau ≤ 256`.  `poly_uniform_gamma1`
has no loop: its output is the unpacking of one squeeze.  `poly_uniform` returns within 256
refills when each refill `k ≥ 1`, which reads the stream bytes `840 k .. 840 k + 167`, holds
a 3-byte candidate below `Q`; `poly_uniform_eta` returns within 256 refills when each block
of 136 bytes after the initial ones holds a byte with an accepted nibble; `poly_challenge`
returns with at most 273 draws per index, hence at most one squeeze per index, when each
block of 136 bytes after the first holds a byte `≤ 256 - tau`. -/
theorem samplers_total_on_progress (E : shake_engine) (C : dilithium_consts)
    (params : ml_dsa_params) (a c : poly) (seed : bytes) (nonce : Nat) (buf0 : bytes)
    (h128 : E.SHAKE128_RATE = 168 ∧ E.SHAKE128_BLOCKSIZE = 168)
    (h256 : E.SHAKE256_RATE = 136 ∧ E.SHAKE256_BLOCKSIZE = 136)
    (htau : params.tau ≤ 256) :
    (poly_uniform_gamma1 E C params a seed nonce buf0).a
      = polyz_unpack params a
          (SHAKE_Final E buf0 0
            (SHA3_Update (SHA3_Update (SHAKE_Init E.SHAKE256_BLOCKSIZE) seed C.CRHBYTES)
              (nonce_bytes nonce) 2)
            (POLY_UNIFORM_GAMMA1_NBLOCKS E C * E.SHAKE256_BLOCKSIZE)).1 ∧
    ((∀ k, 1 ≤ k → ∃ j, j < 56 ∧
        (rej_uniform_cand (xof_stream E E.SHAKE128_BLOCKSIZE seed C.SEEDBYTES nonce)
          (840 * k + 3 * j) : Int) < Q) →
      ∀ fuel, 256 ≤ fuel → (poly_uniform E C a seed nonce buf0 fuel).isSome = true) ∧
    ((∀ k, ∃ j, j < 136 ∧ eta_accepts params
        (xof_stream E E.SHAKE256_BLOCKSIZE seed C.CRHBYTES nonce
          (136 * (C.DILITHIUM_POLY_UNIFORM_ETA_NBLOCKS_MAX + k) + j))) →
      ∀ fuel, 256 ≤ fuel → (poly_uniform_eta E C params a seed nonce buf0 fuel).isSome = true) ∧
    ((∀ k, 1 ≤ k → ∃ j, j < 136 ∧
        E.stream E.SHAKE256_BLOCKSIZE
          (SHA3_Update (SHAKE_Init E.SHAKE256_BLOCKSIZE) seed params.c_tilde_bytes).absorbed
          (136 * k + j) % 256 ≤ 256 - params.tau) →
      ∀ fuel, 273 ≤ fuel → (poly_challenge E params c seed buf0 fuel).isSome = true) :=
  ⟨rfl,
   fun H fuel hf => poly_uniform_total E h128.1 h128.2 C a seed nonce buf0 H fuel hf,
   fun H fuel hf => poly_uniform_eta_total E h256.1 h256.2 C params a seed nonce buf0 H fuel hf,
   fun H fuel hf => poly_challenge_total E h256.1 h256.2 params htau c seed buf0 H fuel hf⟩

theorem samplers_total_on_progress_witness :
    (poly_uniform ⟨168, 168, 136, 136, fun _ _ n => if n % 8 < 4 then 255 else 3⟩
      ⟨32, 64, 2, 640⟩ (fun _ => 0) (fun _ => 0) 0 (fun _ => 0) 256).isSome = true ∧
    (poly_uniform_eta ⟨168, 168, 136, 136, fun _ _ n => if n % 8 < 4 then 255 else 3⟩
      ⟨32, 64, 2, 640⟩ ⟨2, 39, 131072, 95232, 32⟩ (fun _ => 0) (fun _ => 0) 0 (fun _ => 0)
      256).isSome = true ∧
    (poly_challenge ⟨168, 168, 136, 136, fun _ _ n => if n % 8 < 4 then 255 else 3⟩
      ⟨2, 39, 131072, 95232, 32⟩ (fun _ => 7) (fun _ => 0) (fun _ => 0) 273).isSome = true := by
  have t := samplers_total_on_progress
    ⟨168, 168, 136, 136, fun _ _ n => if n % 8 < 4 then 255 else 3⟩ ⟨32, 64, 2, 640⟩
    ⟨2, 39, 131072, 95232, 32⟩ (fun _ => 0) (fun _ => 7) (fun _ => 0) 0 (fun _ => 0)
    ⟨rfl, rfl⟩ ⟨rfl, rfl⟩ (by decide)
  refine ⟨t.2.1 (fun k _ => ⟨4, by decide, ?_⟩) 256 (le_refl _),
    t.2.2.1 (fun k => ⟨4, by decide, Or.inl ⟨rfl, Or.inl ?_⟩⟩) 256 (le_refl _),
    t.2.2.2 (fun k _ => ⟨4, by decide, ?_⟩) 273 (le_refl _)⟩
  · unfold rej_uniform_cand xof_stream
    simp only
    rw [if_neg (by omega), if_neg (by omega), if_neg (by omega)]
    decide
  · unfold xof_stream
    simp only
    rw [if_neg (by omega)]
    decide
  · simp only
    rw [if_neg (by omega)]
    decide

/-! ## Destruction of intermediate values -/

/-- C21.  Zeroization post-condition: each sampler has one return path, and on it the
transient buffer `buf` is zero over its whole declared size, the stream context is the
cleansed context, and in `poly_challenge` the sign word is zero; for every input and every
byte stream on which the sampler returns. -/
theorem samplers_zeroize (E : shake_engine) (C : dilithium_consts) (params : ml_dsa_params)
    (a : poly) (seed : bytes) (nonce : Nat) (buf0 : bytes) (fuel : Nat) :
    (∀ out, poly_uniform E C a seed nonce buf0 fuel = some out →
      (∀ j, j < POLY_UNIFORM_NBLOCKS E * E.SHAKE128_RATE + 2 → out.buf j = 0) ∧
      out.state = ⟨0, [], 0⟩) ∧
    (∀ out, poly_uniform_eta E C params a seed nonce buf0 fuel = some out →
      (∀ j, j < C.DILITHIUM_POLY_UNIFORM_ETA_NBLOCKS_MAX * E.SHAKE256_RATE → out.buf j = 0) ∧
      out.state = ⟨0, [], 0⟩) ∧
    ((∀ j, j < POLY_UNIFORM_GAMMA1_NBLOCKS E C * E.SHAKE256_RATE →
        (poly_uniform_gamma1 E C params a seed nonce buf0).buf j = 0) ∧
      (poly_uniform_gamma1 E C params a seed nonce buf0).state = ⟨0, [], 0⟩) ∧
    (∀ out, poly_challenge E params a seed buf0 fuel = some out →
      out.signs = 0 ∧ (∀ j, j < E.SHAKE256_RATE → out.buf j = 0) ∧
      out.state = ⟨0, [], 0⟩) := by
  refine ⟨fun out h => ?_, fun out h => ?_, ⟨fun j hj => ?_, rfl⟩, fun out h => ?_⟩
  · unfold poly_uniform at h
    simp only at h
    split at h
    · exact absurd h (by simp)
    · simp only [Option.some.injEq] at h
      subst h
      refine ⟨fun j hj => ?_, rfl⟩
      simp only [OPENSSL_cleanse]
      rw [if_pos hj]
  · unfold poly_uniform_eta at h
    simp only at h
    split at h
    · exact absurd h (by simp)
    · simp only [Option.some.injEq] at h
      subst h
      refine ⟨fun j hj => ?_, rfl⟩
      simp only [OPENSSL_cleanse]
      rw [if_pos hj]
  · unfold poly_uniform_gamma1
    simp only [OPENSSL_cleanse]
    rw [if_pos hj]
  · unfold poly_challenge at h
    simp only at h
    split at h
    · exact absurd h (by simp)
    · simp only [Option.some.injEq] at h
      subst h
      refine ⟨rfl, fun j hj => ?_, rfl⟩
      simp only [OPENSSL_cleanse]
      rw [if_pos hj]

set_option maxRecDepth 1000000 in
theorem samplers_zeroize_witness :
    (∃ out, poly_uniform ⟨168, 168, 136, 136, fun _ _ n => 5 * n⟩ ⟨32, 64, 2, 640⟩ (fun _ => -7)
        (fun _ => 9) 3 (fun _ => 9) 300 = some out ∧
      (∀ j, j < 842 → out.buf j = 0) ∧ out.state = ⟨0, [], 0⟩) ∧
    (∃ out, poly_uniform_eta ⟨168, 168, 136, 136, fun _ _ n => 5 * n⟩ ⟨32, 64, 2, 640⟩
        ⟨4, 49, 524288, 261888, 48⟩ (fun _ => -7) (fun _ => 9) 3 (fun _ => 9) 300 = some out ∧
      (∀ j, j < 272 → out.buf j = 0) ∧ out.state = ⟨0, [], 0⟩) ∧
    (∃ out, poly_challenge ⟨168, 168, 136, 136, fun _ _ n => 5 * n⟩ ⟨4, 49, 524288, 261888, 48⟩
        (fun _ => -7) (fun _ => 9) (fun _ => 9) 300 = some out ∧
      out.signs = 0 ∧ (∀ j, j < 136 → out.buf j = 0) ∧ out.state = ⟨0, [], 0⟩) := by
  have t := samplers_zeroize ⟨168, 168, 136, 136, fun _ _ n => 5 * n⟩ ⟨32, 64, 2, 640⟩
    ⟨4, 49, 524288, 261888, 48⟩ (fun _ => -7) (fun _ => 9) 3 (fun _ => 9) 300
  have h1 : (poly_uniform ⟨168, 168, 136, 136, fun _ _ n => 5 * n⟩ ⟨32, 64, 2, 640⟩
      (fun _ => -7) (fun _ => 9) 3 (fun _ => 9) 300).isSome = true := by decide
  have h2 : (poly_uniform_eta ⟨168, 168, 136, 136, fun _ _ n => 5 * n⟩ ⟨32, 64, 2, 640⟩
      ⟨4, 49, 524288, 261888, 48⟩ (fun _ => -7) (fun _ => 9) 3 (fun _ => 9) 300).isSome = true := by
    decide
  have h3 : (poly_challenge ⟨168, 168, 136, 136, fun _ _ n => 5 * n⟩ ⟨4, 49, 524288, 261888, 48⟩
      (fun _ => -7) (fun _ => 9) (fun _ => 9) 300).isSome = true := by decide
  obtain ⟨o1, e1⟩ := Option.isSome_iff_exists.mp h1
  obtain ⟨o2, e2⟩ := Option.isSome_iff_exists.mp h2
  obtain ⟨o3, e3⟩ := Option.isSome_iff_exists.mp h3
  exact ⟨⟨o1, e1, t.1 o1 e1⟩, ⟨o2, e2, t.2.1 o2 e2⟩, ⟨o3, e3, t.2.2.2 o3 e3⟩⟩

/-! ## The rejection loops against their reference filters -/

theorem writes_from_full (base len : Nat) (vals : List Int) (s : poly × Nat) (h : s.2 = len) :
    writes_from base len vals s s :=
  ⟨by rw [h]; exact (Nat.min_eq_left (Nat.le_add_right _ _)).symm,
   fun j h1 h2 => absurd h2 (Nat.not_lt.mpr h1), fun _ _ => rfl⟩

theorem writes_from_nil (base len : Nat) (s : poly × Nat) (h : s.2 ≤ len) :
    writes_from base len [] s s :=
  ⟨by simp only [List.length_nil, Nat.add_zero]; exact (Nat.min_eq_right h).symm,
   fun j h1 h2 => absurd h2 (Nat.not_lt.mpr h1), fun _ _ => rfl⟩

theorem writes_from_store (base len : Nat) (a : poly) (ctr : Nat) (v : Int) (h : ctr < len) :
    writes_from base len [v] (a, ctr) (Function.update a (base + ctr) v, ctr + 1) := by
  refine ⟨?_, fun j h1 h2 => ?_, fun j hj => ?_⟩
  · show ctr + 1 = min len (ctr + 1)
    exact (Nat.min_eq_right h).symm
  · have h1' : ctr ≤ j := h1
    have h2' : j < ctr + 1 := h2
    have e : j = ctr := by omega
    subst e
    show Function.update a (base + j) v (base + j) = [v].getD (j - j) 0
    rw [Function.update_same, Nat.sub_self]
    rfl
  · have hj' : j < base + ctr ∨ base + (ctr + 1) ≤ j := hj
    show Function.update a (base + ctr) v j = a j
    rw [Function.update_noteq (by omega)]

theorem writes_from_trans (base len : Nat) (l1 l2 : List Int) (s s1 s2 : poly × Nat)
    (hs : s.2 ≤ len) (h1 : writes_from base len l1 s s1) (h2 : writes_from base len l2 s1 s2) :
    writes_from base len (l1 ++ l2) s s2 := by
  obtain ⟨a1, b1, c1⟩ := h1
  obtain ⟨a2, b2, c2⟩ := h2
  have hle1 : s.2 ≤ s1.2 := by rw [a1]; omega
  have hle2 : s1.2 ≤ s2.2 := by rw [a2]; omega
  have hlen1 : s1.2 ≤ s.2 + l1.length := by rw [a1]; omega
  refine ⟨?_, fun j hj1 hj2 => ?_, fun j hj => ?_⟩
  · rw [a2, a1, List.length_append]
    omega
  · by_cases hj : j < s1.2
    · rw [c2 (base + j) (Or.inl (by omega)), b1 j hj1 hj]
      have hlt : j - s.2 < l1.length := by omega
      rw [List.getD_eq_getElem?_getD, List.getD_eq_getElem?_getD,
        List.getElem?_append_left hlt]
    · have hfull : s1.2 = s.2 + l1.length := by
        rw [a1] at hj ⊢
        rw [a2, a1] at hj2
        omega
      rw [b2 j (by omega) hj2]
      rw [List.getD_eq_getElem?_getD, List.getD_eq_getElem?_getD,
        List.getElem?_append_right (by omega)]
      have e : j - s.2 - l1.length = j - s1.2 := by omega
      rw [e]
  · rw [c2 j (by omega), c1 j (by omega)]

theorem rej_uniform_cand_eq (buf : bytes) (k : Nat) :
    rej_uniform_cand buf (3 * k) = uniform_cand buf k := by
  unfold rej_uniform_cand uniform_cand shl_u32
  apply Nat.eq_of_testBit_eq
  intro j
  have e : (0x7FFFFF : Nat) = 2 ^ 23 - 1 := by norm_num
  rw [e, tb_and_mask, tb_and_mask]
  by_cases hj : j < 23
  · have hj' : j < 32 := by omega
    simp only [hj, decide_True, Bool.true_and, Nat.testBit_or]
    have e32 : (4294967296 : Nat) = 2 ^ 32 := by norm_num
    rw [e32, Nat.testBit_mod_two_pow, Nat.testBit_mod_two_pow]
    simp only [hj', decide_True, Bool.true_and]
  · simp only [hj, decide_False, Bool.false_and]

theorem uniform_accepted_range (buf : bytes) (K : Nat) :
    uniform_accepted buf K
      = List.filter (fun c : Nat => decide ((c : Int) < Q))
          (List.map (uniform_cand buf) (List.range' 0 K)) := by
  unfold uniform_accepted
  rw [List.range_eq_range']

theorem rej_uniform_loop_filter (base len : Nat) (buf : bytes) (buflen : Nat) :
    ∀ fuel a ctr k, ctr ≤ len → buflen / 3 - k ≤ fuel →
      writes_from base len
        (List.map (fun c : Nat => (c : Int))
          (List.filter (fun c : Nat => decide ((c : Int) < Q))
            (List.map (uniform_cand buf) (List.range' k (buflen / 3 - k)))))
        (a, ctr) (rej_uniform_loop base len buf buflen fuel a ctr (3 * k)) := by
  intro fuel
  induction fuel with
  | zero =>
    intro a ctr k h hf
    have e : buflen / 3 - k = 0 := by omega
    rw [e]
    exact writes_from_nil base len (a, ctr) h
  | succ fuel ih =>
    intro a ctr k h hf
    rw [rej_uniform_loop_step]
    by_cases hc : ctr < len ∧ 3 * k + 3 ≤ buflen
    · rw [if_pos hc]
      obtain ⟨m, hm⟩ : ∃ m, buflen / 3 - k = m + 1 := ⟨buflen / 3 - k - 1, by omega⟩
      have hm' : buflen / 3 - (k + 1) = m := by omega
      rw [hm, List.range'_succ, List.map_cons, rej_uniform_cand_eq]
      have e3 : 3 * k + 3 = 3 * (k + 1) := by ring
      rw [e3]
      by_cases ht : (uniform_cand buf k : Int) < Q
      · rw [if_pos ht, List.filter_cons_of_pos (by simpa using ht), List.map_cons]
        have hv : i32 (uniform_cand buf k : Int) = (uniform_cand buf k : Int) :=
          i32_small _ (by omega) (by unfold Q at ht; omega)
        rw [hv]
        have h1 := writes_from_store base len a ctr (uniform_cand buf k : Int) hc.1
        have h2 := ih (Function.update a (base + ctr) (uniform_cand buf k : Int)) (ctr + 1)
          (k + 1) hc.1 (by omega)
        rw [hm'] at h2
        exact writes_from_trans base len [_] _ _ _ _ h h1 h2
      · rw [if_neg ht, List.filter_cons_of_neg (by simpa using ht)]
        have h2 := ih a ctr (k + 1) h (by omega)
        rw [hm'] at h2
        exact h2
    · rw [if_neg hc]
      by_cases hl : ctr < len
      · have e : buflen / 3 - k = 0 := by omega
        rw [e]
        exact writes_from_nil base len (a, ctr) h
      · exact writes_from_full base len _ (a, ctr) (by show ctr = len; omega)

/-- C22.  `rej_uniform` equals the reference filter: with the candidates
`cand_k = (buf[3k] | buf[3k+1] << 8 | buf[3k+2] << 16) & 0x7FFFFF` for `k < buflen / 3` and
`acc` the list of those below `Q`, in order, `rej_uniform` returns
`ctr = min len |acc| ≤ len`, writes `a[j] = acc[j]` for `j < ctr` and leaves every other
coefficient unchanged (`base` is the offset of the pointer `a` in the array). -/
theorem rej_uniform_filter (a : poly) (base len : Nat) (buf : bytes) (buflen : Nat) :
    (rej_uniform a base len buf buflen).2
      = min len (uniform_accepted buf (buflen / 3)).length ∧
    (rej_uniform a base len buf buflen).2 ≤ len ∧
    (∀ j, j < (rej_uniform a base len buf buflen).2 →
      (rej_uniform a base len buf buflen).1 (base + j)
        = ((uniform_accepted buf (buflen / 3)).getD j 0 : Nat)) ∧
    (∀ j, (j < base ∨ base + (rej_uniform a base len buf buflen).2 ≤ j) →
      (rej_uniform a base len buf buflen).1 j = a j) := by
  have h := rej_uniform_loop_filter base len buf buflen buflen a 0 0 (Nat.zero_le _) (by omega)
  rw [Nat.sub_zero, ← uniform_accepted_range] at h
  obtain ⟨h1, h2, h3⟩ := h
  have e1 : (rej_uniform a base len buf buflen).2
      = min len (uniform_accepted buf (buflen / 3)).length := by
    have := h1
    simp only [List.length_map, Nat.zero_add] at this
    exact this
  refine ⟨e1, by rw [e1]; exact Nat.min_le_left _ _, fun j hj => ?_, fun j hj => ?_⟩
  · have := h2 j (Nat.zero_le _) hj
    rw [Nat.sub_zero] at this
    show (rej_uniform_loop base len buf buflen buflen a 0 (3 * 0)).1 (base + j) = _
    rw [this, List.getD_eq_getElem?_getD, List.getD_eq_getElem?_getD, List.getElem?_map]
    cases (uniform_accepted buf (buflen / 3))[j]? <;> rfl
  · exact h3 j (by rcases hj with hj | hj; exact Or.inl (by omega); exact Or.inr hj)

theorem rej_uniform_filter_witness :
    (rej_uniform (fun _ => 9) 1 2 (fun n => if n < 3 then 255 else n) 9).2
      = min 2 (uniform_accepted (fun n => if n < 3 then 255 else n) (9 / 3)).length ∧
    uniform_accepted (fun n => if n < 3 then 255 else n) (9 / 3) = [328707, 526086] :=
  ⟨(rej_uniform_filter (fun _ => 9) 1 2 (fun n => if n < 3 then 255 else n) 9).1, by decide⟩

/-! ## The modular fold of `rej_eta` and the absolute value of `poly_chknorm` -/

theorem rej_eta_fold_mod (t : Nat) (h : t ≤ 14) : rej_eta_fold t = t % 5 := by
  unfold rej_eta_fold
  rw [Nat.shiftRight_eq_div_pow]
  unfold u32
  interval_cases t <;> norm_num <;> rfl

theorem rej_eta_fold_val (t : Nat) (h : t ≤ 14) :
    i32 (u32 (2 - (rej_eta_fold t : Int))) = 2 - ((t % 5 : Nat) : Int) := by
  rw [rej_eta_fold_mod t h]
  unfold i32 u32
  omega

/-- C24.  Branchless modular fold: for `0 ≤ t ≤ 14` the expression `t - (205*t >> 10)*5` in
`uint32_t` arithmetic is `t mod 5`; the value `2 - t0` that `rej_eta` stores (on a buffer
whose low nibble is `t`) is `2 - (t mod 5)`, which lies in `[-2, 2]`; and each of the five
values is the image of exactly three of the fifteen accepted nibbles. -/
theorem rej_eta_fold_spec :
    (∀ t, t ≤ 14 → rej_eta_fold t = t % 5) ∧
    (∀ (params : ml_dsa_params) (a : poly) (t : Nat), params.eta = 2 → t ≤ 14 →
      rej_eta params a 0 1 (fun _ => t) 1
        = (Function.update a 0 (i32 (u32 (2 - (rej_eta_fold t : Int)))), 1)) ∧
    (∀ t, t ≤ 14 → i32 (u32 (2 - (rej_eta_fold t : Int))) = 2 - ((t % 5 : Nat) : Int) ∧
      -2 ≤ i32 (u32 (2 - (rej_eta_fold t : Int))) ∧ i32 (u32 (2 - (rej_eta_fold t : Int))) ≤ 2) ∧
    (∀ v : Int, -2 ≤ v → v ≤ 2 →
      ((Finset.range 15).filter
        (fun t => i32 (u32 (2 - (rej_eta_fold t : Int))) = v)).card = 3) := by
  have hval := rej_eta_fold_val
  refine ⟨rej_eta_fold_mod, ?_, ?_, ?_⟩
  · intro params a t he ht
    have e0 : t &&& 0x0F = t := by interval_cases t <;> rfl
    have e1 : t >>> 4 = 0 := by interval_cases t <;> rfl
    unfold rej_eta
    rw [rej_eta_loop_step, if_pos (by omega)]
    unfold rej_eta_step
    simp only [he, e0, e1, if_true, if_pos (show t < 15 by omega)]
    rw [if_neg (by omega)]
    rfl
  · intro t ht
    rw [hval t ht]
    omega
  · intro v h1 h2
    have : (Finset.range 15).filter (fun t => i32 (u32 (2 - (rej_eta_fold t : Int))) = v)
        = (Finset.range 15).filter (fun t => 2 - ((t % 5 : Nat) : Int) = v) := by
      apply Finset.filter_congr
      intro t ht
      rw [hval t (by have := Finset.mem_range.mp ht; omega)]
    rw [this]
    interval_cases v <;> decide

theorem rej_eta_fold_spec_witness :
    rej_eta_fold 13 = 13 % 5 ∧
    rej_eta ⟨2, 39, 131072, 95232, 32⟩ (fun _ => 9) 0 1 (fun _ => 13) 1
      = (Function.update (fun _ => 9) 0 (i32 (u32 (2 - (rej_eta_fold 13 : Int)))), 1) ∧
    i32 (u32 (2 - (rej_eta_fold 13 : Int))) = 2 - ((13 % 5 : Nat) : Int) ∧
    ((Finset.range 15).filter
      (fun t => i32 (u32 (2 - (rej_eta_fold t : Int))) = -1)).card = 3 :=
  ⟨rej_eta_fold_spec.1 13 (by decide),
   rej_eta_fold_spec.2.1 ⟨2, 39, 131072, 95232, 32⟩ (fun _ => 9) 13 rfl (by decide),
   (rej_eta_fold_spec.2.2.1 13 (by decide)).1,
   rej_eta_fold_spec.2.2.2 (-1) (by decide) (by decide)⟩

theorem rej_eta_step_eq2 (params : ml_dsa_params) (he : params.eta = 2) (base len b : Nat)
    (a : poly) (ctr : Nat) :
    rej_eta_step params base len b a ctr
      = if b >>> 4 < 15 ∧
            (if b &&& 15 < 15 then
              (Function.update a (base + ctr) (i32 (u32 (2 - (rej_eta_fold (b &&& 15) : Int)))),
                ctr + 1)
            else (a, ctr)).2 < len then
          (Function.update
            (if b &&& 15 < 15 then
              (Function.update a (base + ctr) (i32 (u32 (2 - (rej_eta_fold (b &&& 15) : Int)))),
                ctr + 1)
            else (a, ctr)).1
            (base + (if b &&& 15 < 15 then
              (Function.update a (base + ctr) (i32 (u32 (2 - (rej_eta_fold (b &&& 15) : Int)))),
                ctr + 1)
            else (a, ctr)).2)
            (i32 (u32 (2 - (rej_eta_fold (b >>> 4) : Int)))),
           (if b &&& 15 < 15 then
              (Function.update a (base + ctr) (i32 (u32 (2 - (rej_eta_fold (b &&& 15) : Int)))),
                ctr + 1)
            else (a, ctr)).2 + 1)
        else
          (if b &&& 15 < 15 then
              (Function.update a (base + ctr) (i32 (u32 (2 - (rej_eta_fold (b &&& 15) : Int)))),
                ctr + 1)
            else (a, ctr)) := by
  unfold rej_eta_step rej_eta_fold
  simp only [if_pos he, Nat.cast_ofNat]

theorem rej_eta_step_eq4 (params : ml_dsa_params) (he : params.eta = 4) (base len b : Nat)
    (a : poly) (ctr : Nat) :
    rej_eta_step params base len b a ctr
      = if b >>> 4 < 9 ∧
            (if b &&& 15 < 9 then
              (Function.update a (base + ctr) (i32 (u32 (4 - ((b &&& 15 : Nat) : Int)))), ctr + 1)
            else (a, ctr)).2 < len then
          (Function.update
            (if b &&& 15 < 9 then
              (Function.update a (base + ctr) (i32 (u32 (4 - ((b &&& 15 : Nat) : Int)))), ctr + 1)
            else (a, ctr)).1
            (base + (if b &&& 15 < 9 then
              (Function.update a (base + ctr) (i32 (u32 (4 - ((b &&& 15 : Nat) : Int)))), ctr + 1)
            else (a, ctr)).2)
            (i32 (u32 (4 - ((b >>> 4 : Nat) : Int)))),
           (if b &&& 15 < 9 then
              (Function.update a (base + ctr) (i32 (u32 (4 - ((b &&& 15 : Nat) : Int)))), ctr + 1)
            else (a, ctr)).2 + 1)
        else
          (if b &&& 15 < 9 then
              (Function.update a (base + ctr) (i32 (u32 (4 - ((b &&& 15 : Nat) : Int)))), ctr + 1)
            else (a, ctr)) := by
  have h2 : ¬ params.eta = 2 := by rw [he]; decide
  unfold rej_eta_step
  simp only [if_neg h2, if_pos he, Nat.cast_ofNat]

/-- The values that one byte contributes to the reference nibble filter. -/
theorem writes_from_two (base len : Nat) (a : poly) (ctr : Nat) (h : ctr < len) (p0 p1 : Prop)
    [Decidable p0] [Decidable p1] (v0 v1 : Int) :
    writes_from base len ((if p0 then [v0] else []) ++ (if p1 then [v1] else [])) (a, ctr)
      (if p1 ∧ (if p0 then (Function.update a (base + ctr) v0, ctr + 1) else (a, ctr)).2 < len then
        (Function.update (if p0 then (Function.update a (base + ctr) v0, ctr + 1) else (a, ctr)).1
          (base + (if p0 then (Function.update a (base + ctr) v0, ctr + 1) else (a, ctr)).2) v1,
         (if p0 then (Function.update a (base + ctr) v0, ctr + 1) else (a, ctr)).2 + 1)
       else (if p0 then (Function.update a (base + ctr) v0, ctr + 1) else (a, ctr))) := by
  have h1 : writes_from base len (if p0 then [v0] else []) (a, ctr)
      (if p0 then (Function.update a (base + ctr) v0, ctr + 1) else (a, ctr)) := by
    by_cases hp : p0
    · rw [if_pos hp, if_pos hp]; exact writes_from_store base len a ctr v0 h
    · rw [if_neg hp, if_neg hp]; exact writes_from_nil base len (a, ctr) (Nat.le_of_lt h)
  have hle : (if p0 then (Function.update a (base + ctr) v0, ctr + 1) else (a, ctr)).2 ≤ len := by
    by_cases hp : p0
    · rw [if_pos hp]; exact h
    · rw [if_neg hp]; exact Nat.le_of_lt h
  generalize (if p0 then ((Function.update a (base + ctr) v0, ctr + 1) : poly × Nat)
    else (a, ctr)) = s at h1 hle ⊢
  refine writes_from_trans base len _ _ _ s _ (Nat.le_of_lt h) h1 ?_
  by_cases hq : p1
  · rw [if_pos hq]
    by_cases hs : s.2 < len
    · rw [if_pos ⟨hq, hs⟩]
      exact writes_from_store base len s.1 s.2 v1 hs
    · rw [if_neg (fun hh => hs hh.2)]
      exact writes_from_full base len _ s (by omega)
  · rw [if_neg hq, if_neg (fun hh => hq hh.1)]
    exact writes_from_nil base len s hle

theorem eta_nibble_even (buf : bytes) (p : Nat) : eta_nibble buf (2 * p) = buf p &&& 15 := by
  unfold eta_nibble
  rw [if_pos (by omega), Nat.mul_div_cancel_left p (by decide)]

theorem eta_nibble_odd (buf : bytes) (p : Nat) : eta_nibble buf (2 * p + 1) = buf p >>> 4 := by
  unfold eta_nibble
  rw [if_neg (by omega)]
  have : (2 * p + 1) / 2 = p := by omega
  rw [this]

theorem rej_eta_loop_filter (params : ml_dsa_params) (base len : Nat) (buf : bytes)
    (buflen : Nat) (p : Nat → Bool) (f : Nat → Int)
    (hstep : ∀ b a ctr, ctr < len →
      writes_from base len (List.map f (List.filter p [b &&& 15, b >>> 4])) (a, ctr)
        (rej_eta_step params base len b a ctr)) :
    ∀ fuel a ctr pos, ctr ≤ len → buflen - pos ≤ fuel →
      writes_from base len
        (List.map f (List.filter p
          (List.map (eta_nibble buf) (List.range' (2 * pos) (2 * (buflen - pos))))))
        (a, ctr) (rej_eta_loop params base len buf buflen fuel a ctr pos) := by
  intro fuel
  induction fuel with
  | zero =>
    intro a ctr pos h hf
    have e : buflen - pos = 0 := by omega
    rw [e]
    exact writes_from_nil base len (a, ctr) h
  | succ fuel ih =>
    intro a ctr pos h hf
    rw [rej_eta_loop_step]
    by_cases hc : ctr < len ∧ pos < buflen
    · rw [if_pos hc]
      obtain ⟨m, hm⟩ : ∃ m, buflen - pos = m + 1 := ⟨buflen - pos - 1, by omega⟩
      have hm' : buflen - (pos + 1) = m := by omega
      have e2 : 2 * (m + 1) = 2 * m + 1 + 1 := by ring
      have e3 : 2 * pos + 1 + 1 = 2 * (pos + 1) := by ring
      rw [hm, e2, List.range'_succ, List.range'_succ, List.map_cons, List.map_cons,
        eta_nibble_even, eta_nibble_odd, e3]
      have el : ∀ l : List Nat, (buf pos &&& 15) :: (buf pos >>> 4) :: l
          = [buf pos &&& 15, buf pos >>> 4] ++ l := fun _ => rfl
      rw [el, List.filter_append, List.map_append]
      have h1 := hstep (buf pos) a ctr hc.1
      have h2 := ih (rej_eta_step params base len (buf pos) a ctr).1
        (rej_eta_step params base len (buf pos) a ctr).2 (pos + 1)
        (rej_eta_step_mono params base len (buf pos) a ctr hc.1).2 (by omega)
      rw [hm'] at h2
      exact writes_from_trans base len _ _ _ _ _ h h1 h2
    · rw [if_neg hc]
      by_cases hl : ctr < len
      · have e : buflen - pos = 0 := by omega
        rw [e]
        exact writes_from_nil base len (a, ctr) h
      · exact writes_from_full base len _ (a, ctr) (by show ctr = len; omega)

theorem rej_eta_step_filter2 (params : ml_dsa_params) (he : params.eta = 2) (base len : Nat)
    (b : Nat) (a : poly) (ctr : Nat) (h : ctr < len) :
    writes_from base len
      (List.map (fun t : Nat => 2 - ((t % 5 : Nat) : Int))
        (List.filter (fun t : Nat => decide (t < 15)) [b &&& 15, b >>> 4]))
      (a, ctr) (rej_eta_step params base len b a ctr) := by
  have el : List.map (fun t : Nat => 2 - ((t % 5 : Nat) : Int))
        (List.filter (fun t : Nat => decide (t < 15)) [b &&& 15, b >>> 4])
      = (if b &&& 15 < 15 then [i32 (u32 (2 - (rej_eta_fold (b &&& 15) : Int)))] else [])
        ++ (if b >>> 4 < 15 then [i32 (u32 (2 - (rej_eta_fold (b >>> 4) : Int)))] else []) := by
    by_cases h0 : b &&& 15 < 15 <;> by_cases h1 : b >>> 4 < 15 <;>
      simp [h0, h1, List.filter_cons, rej_eta_fold_val _ (Nat.le_of_lt_succ _)]
  rw [el, rej_eta_step_eq2 params he]
  simp only [Nat.cast_ofNat]
  exact writes_from_two base len a ctr h _ _ _ _

theorem rej_eta_step_filter4 (params : ml_dsa_params) (he : params.eta = 4) (base len : Nat)
    (b : Nat) (a : poly) (ctr : Nat) (h : ctr < len) :
    writes_from base len
      (List.map (fun t : Nat => 4 - (t : Int))
        (List.filter (fun t : Nat => decide (t < 9)) [b &&& 15, b >>> 4]))
      (a, ctr) (rej_eta_step params base len b a ctr) := by
  have hv : ∀ t : Nat, t < 9 → i32 (u32 (4 - (t : Int))) = 4 - (t : Int) := by
    intro t ht
    unfold i32 u32
    omega
  have el : List.map (fun t : Nat => 4 - (t : Int))
        (List.filter (fun t : Nat => decide (t < 9)) [b &&& 15, b >>> 4])
      = (if b &&& 15 < 9 then [i32 (u32 (4 - ((b &&& 15 : Nat) : Int)))] else [])
        ++ (if b >>> 4 < 9 then [i32 (u32 (4 - ((b >>> 4 : Nat) : Int)))] else []) := by
    by_cases h0 : b &&& 15 < 9 <;> by_cases h1 : b >>> 4 < 9 <;>
      simp [h0, h1, List.filter_cons, hv]
  rw [el, rej_eta_step_eq4 params he]
  simp only [Nat.cast_ofNat]
  exact writes_from_two base len a ctr h _ _ _ _

theorem rej_eta_writes (params : ml_dsa_params) (heta : params.eta = 2 ∨ params.eta = 4)
    (a : poly) (base len : Nat) (buf : bytes) (buflen : Nat) :
    writes_from base len (eta_accepted params.eta buf buflen) (a, 0)
      (rej_eta params a base len buf buflen) := by
  unfold rej_eta eta_accepted
  rw [List.range_eq_range']
  rcases heta with he | he
  · rw [if_pos he]
    have := rej_eta_loop_filter params base len buf buflen (fun t : Nat => decide (t < 15))
      (fun t : Nat => 2 - ((t % 5 : Nat) : Int))
      (fun b a ctr h => rej_eta_step_filter2 params he base len b a ctr h) buflen a 0 0
      (Nat.zero_le _) (by omega)
    rw [Nat.sub_zero, Nat.mul_zero] at this
    exact this
  · have h2 : ¬ params.eta = 2 := by rw [he]; decide
    rw [if_neg h2]
    have := rej_eta_loop_filter params base len buf buflen (fun t : Nat => decide (t < 9))
      (fun t : Nat => 4 - (t : Int))
      (fun b a ctr h => rej_eta_step_filter4 params he base len b a ctr h) buflen a 0 0
      (Nat.zero_le _) (by omega)
    rw [Nat.sub_zero, Nat.mul_zero] at this
    exact this

/-- C23.  `rej_eta` equals the reference nibble filter: for `eta` in `{2, 4}`, with the
nibbles of `buf[0 .. buflen-1]` taken low nibble first and `acc` the list of the accepted
ones (`t < 15` resp. `t < 9`) mapped to `2 - (t mod 5)` resp. `4 - t`, in order, `rej_eta`
returns `ctr = min len |acc| ≤ len`, writes `a[j] = acc[j]` for `j < ctr` and leaves every
other coefficient unchanged (`base` is the offset of the pointer `a` in the array). -/
theorem rej_eta_filter (params : ml_dsa_params) (heta : params.eta = 2 ∨ params.eta = 4)
    (a : poly) (base len : Nat) (buf : bytes) (buflen : Nat) :
    (rej_eta params a base len buf buflen).2
      = min len (eta_accepted params.eta buf buflen).length ∧
    (rej_eta params a base len buf buflen).2 ≤ len ∧
    (∀ j, j < (rej_eta params a base len buf buflen).2 →
      (rej_eta params a base len buf buflen).1 (base + j)
        = (eta_accepted params.eta buf buflen).getD j 0) ∧
    (∀ j, (j < base ∨ base + (rej_eta params a base len buf buflen).2 ≤ j) →
      (rej_eta params a base len buf buflen).1 j = a j) := by
  obtain ⟨h1, h2, h3⟩ := rej_eta_writes params heta a base len buf buflen
  have e1 : (rej_eta params a base len buf buflen).2
      = min len (eta_accepted params.eta buf buflen).length := by
    have := h1
    simp only [Nat.zero_add] at this
    exact this
  refine ⟨e1, by rw [e1]; exact Nat.min_le_left _ _, fun j hj => ?_, fun j hj => ?_⟩
  · have := h2 j (Nat.zero_le _) hj
    rw [Nat.sub_zero] at this
    exact this
  · exact h3 j (by rcases hj with hj | hj; exact Or.inl (by omega); exact Or.inr hj)

theorem rej_eta_filter_witness :
    ((2 : Int) = 2 ∨ (2 : Int) = 4) ∧
    (rej_eta ⟨2, 39, 131072, 95232, 32⟩ (fun _ => 9) 1 3 (fun n => 0xF7 + n) 2).2
      = min 3 (eta_accepted 2 (fun n => 0xF7 + n) 2).length ∧
    eta_accepted 2 (fun n => 0xF7 + n) 2 = [0, -1] :=
  ⟨Or.inl rfl,
   (rej_eta_filter ⟨2, 39, 131072, 95232, 32⟩ (Or.inl rfl) (fun _ => 9) 1 3
     (fun n => 0xF7 + n) 2).1, by decide⟩

/-! ## The challenge sampler against its reference -/

theorem sign_word_step (acc k b : Nat) (hacc : acc < 2 ^ k) (hb : b < 256) (hk : k ≤ 56) :
    acc ||| (b <<< k) % 18446744073709551616 = acc + b * 2 ^ k ∧
    acc + b * 2 ^ k < 2 ^ (k + 8) := by
  have h1 : b * 2 ^ k < 2 ^ (k + 8) := by
    rw [Nat.pow_add, Nat.mul_comm]
    exact Nat.mul_lt_mul_of_pos_left hb (Nat.pow_pos (by decide))
  have h2 : (2 : Nat) ^ (k + 8) ≤ 2 ^ 64 := Nat.pow_le_pow_right (by decide) (by omega)
  have h3 : acc + b * 2 ^ k < 2 ^ (k + 8) := by
    have : (b + 1) * 2 ^ k ≤ 256 * 2 ^ k := Nat.mul_le_mul_right _ (by omega)
    rw [Nat.pow_add]
    have e : (2 : Nat) ^ 8 = 256 := by norm_num
    rw [e, Nat.mul_comm (2 ^ k) 256]
    have : (b + 1) * 2 ^ k = b * 2 ^ k + 2 ^ k := by ring
    omega
  refine ⟨?_, h3⟩
  have e64 : (18446744073709551616 : Nat) = 2 ^ 64 := by norm_num
  rw [Nat.shiftLeft_eq, e64, Nat.mod_eq_of_lt (lt_of_lt_of_le h1 h2), Nat.lor_comm,
    Nat.mul_comm b, ← Nat.mul_add_lt_is_or hacc, Nat.add_comm]

theorem sign_word_loop (buf : bytes) (hb : ∀ i, i < 8 → buf i < 256) :
    forLoop 8 (fun i signs => signs ||| (buf i <<< (8*i)) % 18446744073709551616) 0
      = challenge_sign_word buf := by
  have s0 := sign_word_step 0 (8 * 0) (buf 0) (by norm_num) (hb 0 (by decide)) (by decide)
  have s1 := sign_word_step _ (8 * 1) (buf 1) s0.2 (hb 1 (by decide)) (by decide)
  have s2 := sign_word_step _ (8 * 2) (buf 2) s1.2 (hb 2 (by decide)) (by decide)
  have s3 := sign_word_step _ (8 * 3) (buf 3) s2.2 (hb 3 (by decide)) (by decide)
  have s4 := sign_word_step _ (8 * 4) (buf 4) s3.2 (hb 4 (by decide)) (by decide)
  have s5 := sign_word_step _ (8 * 5) (buf 5) s4.2 (hb 5 (by decide)) (by decide)
  have s6 := sign_word_step _ (8 * 6) (buf 6) s5.2 (hb 6 (by decide)) (by decide)
  have s7 := sign_word_step _ (8 * 7) (buf 7) s6.2 (hb 7 (by decide)) (by decide)
  simp only [forLoop]
  rw [s0.1, s1.1, s2.1, s3.1, s4.1, s5.1, s6.1, s7.1]
  unfold challenge_sign_word
  norm_num

theorem challenge_sign_value (S j : Nat) :
    i32 (u64 (1 - 2 * (((S >>> j) &&& 1 : Nat) : Int))) = if S.testBit j then -1 else 1 := by
  rw [Nat.and_one_is_mod, Nat.testBit_to_div_mod, Nat.shiftRight_eq_div_pow]
  rcases Nat.mod_two_eq_zero_or_one (S / 2 ^ j) with e | e
  · rw [e]
    simp only [show ¬ (0 = 1) by decide, decide_False, Bool.false_eq_true, if_false]
    unfold i32 u64; norm_num
  · rw [e]
    simp only [decide_True, if_true]
    unfold i32 u64; norm_num

theorem cnt_succ (P : Int → Prop) [DecidablePred P] (c : poly) (n : Nat) :
    ((Finset.range (n + 1)).filter (fun j => P (c j))).card
      = ((Finset.range n).filter (fun j => P (c j))).card + (if P (c n) then 1 else 0) := by
  rw [Finset.range_succ, Finset.filter_insert]
  by_cases h : P (c n)
  · rw [if_pos h, if_pos h, Finset.card_insert_of_not_mem (by simp)]
  · rw [if_neg h, if_neg h]; rfl

theorem cnt_update_ge (P : Int → Prop) [DecidablePred P] (c : poly) (b : Nat) (v : Int)
    (n : Nat) (h : n ≤ b) :
    ((Finset.range n).filter (fun j => P (Function.update c b v j))).card
      = ((Finset.range n).filter (fun j => P (c j))).card := by
  congr 1
  apply Finset.filter_congr
  intro j hj
  have : j ≠ b := by have := Finset.mem_range.mp hj; omega
  rw [Function.update_noteq this]

theorem cnt_update_lt (P : Int → Prop) [DecidablePred P] (c : poly) (b : Nat) (v : Int) :
    ∀ n, b < n →
      ((Finset.range n).filter (fun j => P (Function.update c b v j))).card
          + (if P (c b) then 1 else 0)
        = ((Finset.range n).filter (fun j => P (c j))).card + (if P v then 1 else 0) := by
  intro n
  induction n with
  | zero => intro h; omega
  | succ n ih =>
    intro h
    rw [cnt_succ, cnt_succ P c n]
    by_cases hb : b = n
    · subst hb
      rw [cnt_update_ge P c b v b (le_refl _), Function.update_same]
      omega
    · have := ih (by omega)
      rw [Function.update_noteq (Ne.symm hb)]
      omega

/-- Counting under one selection step `c[i] = c[b]; c[b] = v` with `c[i]` not counted. -/
theorem cnt_select (P : Int → Prop) [DecidablePred P] (c : poly) (i b : Nat) (v : Int)
    (hi : i < 256) (hb : b ≤ i) (hci : ¬ P (c i)) :
    ((Finset.range 256).filter
        (fun x => P (Function.update (Function.update c i (c b)) b v x))).card
      = ((Finset.range 256).filter (fun x => P (c x))).card + (if P v then 1 else 0) := by
  have h1 := cnt_update_lt P (Function.update c i (c b)) b v 256 (by omega)
  have h2 := cnt_update_lt P c i (c b) 256 hi
  have h3 : Function.update c i (c b) b = c b := by
    by_cases hbi : b = i
    · subst hbi; rw [Function.update_same]
    · rw [Function.update_noteq hbi]
  rw [h3] at h1
  rw [if_neg hci] at h2
  generalize ((Finset.range 256).filter
    (fun x => P (Function.update (Function.update c i (c b)) b v x))).card = A at h1 ⊢
  generalize ((Finset.range 256).filter
    (fun x => P (Function.update c i (c b) x))).card = B at h1 h2
  generalize ((Finset.range 256).filter (fun x => P (c x))).card = C at h2 ⊢
  clear h3 hci
  omega

theorem challenge_ref_draw_le (s : Nat → Nat) (i : Nat) :
    ∀ fuel p b p', challenge_ref_draw s i fuel p = some (b, p') → b ≤ i := by
  intro fuel
  induction fuel with
  | zero => intro p b p' h; simp [challenge_ref_draw] at h
  | succ fuel ih =>
    intro p b p' h
    unfold challenge_ref_draw at h
    by_cases hc : s p > i
    · rw [if_pos hc] at h; exact ih _ _ _ h
    · rw [if_neg hc] at h
      simp only [Option.some.injEq, Prod.mk.injEq] at h
      omega

theorem challenge_ref_loop_count (s : Nat → Nat) (S fuel : Nat) :
    ∀ n i j c p r, i + n = 256 → (∀ x, i ≤ x → x < 256 → c x = 0) →
      ((Finset.range 256).filter (fun x => c x = -1)).card
        = ((Finset.range j).filter (fun t => S.testBit t = true)).card →
      challenge_ref_loop s S fuel n i j c p = some r →
      ((Finset.range 256).filter (fun x => r x = -1)).card
        = ((Finset.range (j + n)).filter (fun t => S.testBit t = true)).card := by
  intro n
  induction n with
  | zero =>
    intro i j c p r _ _ hc h
    simp only [challenge_ref_loop, Option.some.injEq] at h
    subst h
    exact hc
  | succ n ih =>
    intro i j c p r hi hz hc h
    unfold challenge_ref_loop at h
    split at h
    · exact absurd h (by simp)
    · rename_i b p' hd
      have hb := challenge_ref_draw_le s i fuel p b p' hd
      simp only at h
      have := ih (i + 1) (j + 1) _ p' r (by omega) (fun x hx1 hx2 => ?_) ?_ h
      · have e : j + 1 + n = j + (n + 1) := by omega
        rw [this, e]
      · rw [Function.update_noteq (by omega), Function.update_noteq (by omega)]
        exact hz x (by omega) hx2
      · rw [cnt_select (fun v => v = -1) c i b _ (by omega) hb
          (by rw [hz i (le_refl _) (by omega)]; decide), hc, Finset.range_succ,
          Finset.filter_insert]
        by_cases ht : S.testBit j = true
        · rw [if_pos ht, if_pos ht, if_pos rfl,
            Finset.card_insert_of_not_mem (by simp)]
        · rw [if_neg ht, if_neg ht, if_neg (by decide)]
          rfl

theorem poly_challenge_refill_inv (E : shake_engine) (hR : E.SHAKE256_RATE = 136)
    (hB : E.SHAKE256_BLOCKSIZE = 136) (bs : Nat) (X : List Nat) (s : challenge_state) (k : Nat)
    (hinv : challenge_inv E bs X s k) :
    ∃ k1, challenge_inv E bs X (poly_challenge_refill E s) k1 ∧
      (poly_challenge_refill E s).pos < 136 ∧
      136 * k1 + (poly_challenge_refill E s).pos = 136 * k + s.pos ∧
      (poly_challenge_refill E s).c = s.c ∧ (poly_challenge_refill E s).signs = s.signs := by
  unfold poly_challenge_refill
  by_cases h : s.pos ≥ E.SHAKE256_RATE
  · rw [if_pos h, hB]
    have hp : s.pos = 136 := by have := hinv.2.2; omega
    refine ⟨k + 1, ⟨?_, fun j hj => ?_, Nat.zero_le _⟩, by simp only; omega,
      by simp only; omega, rfl, rfl⟩
    · unfold SHAKE_Final
      simp only [hinv.1]
      rw [show 136 * (k + 1 + 1) = 136 * (k + 1) + 136 by omega]
    · unfold SHAKE_Final
      simp only [hinv.1]
      rw [if_pos ⟨Nat.zero_le _, by omega⟩]
      simp only [Nat.sub_zero]
  · rw [if_neg h]
    exact ⟨k, hinv, by omega, rfl, rfl, rfl⟩

theorem poly_challenge_draw_ref (E : shake_engine) (hR : E.SHAKE256_RATE = 136)
    (hB : E.SHAKE256_BLOCKSIZE = 136) (bs : Nat) (X : List Nat) (i : Nat) :
    ∀ fuel s k b s', challenge_inv E bs X s k → poly_challenge_draw E i fuel s = some (b, s') →
      ∃ k', challenge_inv E bs X s' k' ∧
        challenge_ref_draw (fun n => E.stream bs X n % 256) i fuel (136 * k + s.pos)
          = some (b, 136 * k' + s'.pos) ∧
        s'.c = s.c ∧ s'.signs = s.signs := by
  intro fuel
  induction fuel with
  | zero => intro s k b s' _ h; simp [poly_challenge_draw] at h
  | succ fuel ih =>
    intro s k b s' hinv h
    rw [poly_challenge_draw_succ] at h
    obtain ⟨k1, hinv1, hp1, hpos, hc1, hs1⟩ := poly_challenge_refill_inv E hR hB bs X s k hinv
    generalize poly_challenge_refill E s = s1 at h hinv1 hp1 hpos hc1 hs1
    have hm : (s1.pos + 1) % 4294967296 = s1.pos + 1 := Nat.mod_eq_of_lt (by omega)
    rw [hm] at h
    have hbyte : s1.buf s1.pos = E.stream bs X (136 * k + s.pos) % 256 := by
      rw [hinv1.2.1 s1.pos hp1, hpos]
    unfold challenge_ref_draw
    rw [← hbyte]
    by_cases hgt : s1.buf s1.pos > i
    · rw [if_pos hgt] at h
      rw [if_pos hgt]
      obtain ⟨k', h1, h2, h3, h4⟩ := ih ⟨s1.c, s1.signs, s1.buf, s1.pos + 1, s1.state⟩ k1 b s'
        ⟨hinv1.1, hinv1.2.1, by simp only; omega⟩ h
      refine ⟨k', h1, ?_, h3.trans hc1, h4.trans hs1⟩
      rw [← h2]
      congr 1
      simp only
      omega
    · rw [if_neg hgt] at h
      rw [if_neg hgt]
      simp only [Option.some.injEq, Prod.mk.injEq] at h
      obtain ⟨e1, e2⟩ := h
      subst e1 e2
      refine ⟨k1, ⟨hinv1.1, hinv1.2.1, by simp only; omega⟩, ?_, hc1, hs1⟩
      simp only [Option.some.injEq, Prod.mk.injEq, true_and]
      omega

theorem poly_challenge_loop_ref (E : shake_engine) (hR : E.SHAKE256_RATE = 136)
    (hB : E.SHAKE256_BLOCKSIZE = 136) (bs : Nat) (X : List Nat) (S fuel : Nat) :
    ∀ n i j s c k s', challenge_inv E bs X s k → s.signs = S >>> j → i + n = 256 →
      (∀ x, x < 256 → s.c x = c x) → poly_challenge_loop E fuel n i s = some s' →
      ∃ r, challenge_ref_loop (fun n => E.stream bs X n % 256) S fuel n i j c
          (136 * k + s.pos) = some r ∧
        ∀ x, x < 256 → s'.c x = r x := by
  intro n
  induction n with
  | zero =>
    intro i j s c k s' _ _ _ hc h
    simp only [poly_challenge_loop, Option.some.injEq] at h
    subst h
    exact ⟨c, rfl, hc⟩
  | succ n ih =>
    intro i j s c k s' hinv hsg hi hc h
    unfold poly_challenge_loop at h
    split at h
    · exact absurd h (by simp)
    · rename_i b s1 hd
      obtain ⟨hb, _, _⟩ := poly_challenge_draw_spec E i fuel s b s1 hd
      obtain ⟨k', hinv', href, hc1, hs1⟩ :=
        poly_challenge_draw_ref E hR hB bs X i fuel s k b s1 hinv hd
      simp only at h
      unfold challenge_ref_loop
      rw [href]
      simp only
      refine ih (i + 1) (j + 1)
        ⟨Function.update (Function.update s1.c i (s1.c b)) b
            (i32 (u64 (1 - 2 * ((s1.signs &&& 1 : Nat) : Int)))),
          s1.signs >>> 1, s1.buf, s1.pos, s1.state⟩ _ k' s'
        ⟨hinv'.1, hinv'.2.1, hinv'.2.2⟩ ?_ (by omega) (fun x hx => ?_) h
      · show s1.signs >>> 1 = S >>> (j + 1)
        rw [hs1, hsg, Nat.shiftRight_add]
      · show Function.update (Function.update s1.c i (s1.c b)) b
            (i32 (u64 (1 - 2 * ((s1.signs &&& 1 : Nat) : Int)))) x
          = Function.update (Function.update c i (c b)) b (if S.testBit j then -1 else 1) x
        rw [hs1, hsg, challenge_sign_value, hc1, hc b (by omega)]
        simp only [Function.update_apply]
        rw [hc x hx]

/-- C26.  Challenge signs come from the first 8 stream bytes.  With the rate and block size
`136` of SHAKE256 and `tau ≤ 64`, when `poly_challenge` returns, its 256 coefficients are
those of the reference sampler `challenge_ref` on the stream keyed by the seed: the sign
word `S` is the 64-bit little-endian integer formed from stream bytes `0 .. 7`, selection
step `j` assigns `+1` if bit `j` of `S` is `0` and `-1` if it is `1`, and the candidate bytes
are the stream bytes from offset `8` onward; and the number of coefficients `-1` is the
number of set bits among bits `0 .. tau-1` of `S`. -/
theorem poly_challenge_signs (E : shake_engine) (params : ml_dsa_params) (c : poly)
    (seed buf0 : bytes) (fuel : Nat) (out : challenge_state)
    (hR : E.SHAKE256_RATE = 136 ∧ E.SHAKE256_BLOCKSIZE = 136) (htau : params.tau ≤ 64)
    (h : poly_challenge E params c seed buf0 fuel = some out) :
    (∃ r, challenge_ref
          (fun n => E.stream E.SHAKE256_BLOCKSIZE
            (SHA3_Update (SHAKE_Init E.SHAKE256_BLOCKSIZE) seed params.c_tilde_bytes).absorbed
            n % 256) params.tau fuel = some r ∧
        ∀ x, x < 256 → out.c x = r x) ∧
    ((Finset.range 256).filter (fun x => out.c x = -1)).card
      = ((Finset.range params.tau).filter
          (fun j => (challenge_sign_word
            (fun n => E.stream E.SHAKE256_BLOCKSIZE
              (SHA3_Update (SHAKE_Init E.SHAKE256_BLOCKSIZE) seed
                params.c_tilde_bytes).absorbed n % 256)).testBit j = true)).card := by
  unfold poly_challenge at h
  simp only at h
  have hi0 : u32 ((N : Int) - (params.tau : Int)) = 256 - params.tau := by
    unfold u32 N; omega
  rw [hi0] at h
  have hn : N - (256 - params.tau) = params.tau := by unfold N; omega
  rw [hn] at h
  split at h
  · exact absurd h (by simp)
  · rename_i s hl
    simp only [Option.some.injEq] at h
    subst h
    simp only
    have hbuf : ∀ j, j < 136 →
        (SHAKE_Final E buf0 0
          (SHA3_Update (SHAKE_Init E.SHAKE256_BLOCKSIZE) seed params.c_tilde_bytes)
          E.SHAKE256_BLOCKSIZE).1 j
        = E.stream E.SHAKE256_BLOCKSIZE
            (SHA3_Update (SHAKE_Init E.SHAKE256_BLOCKSIZE) seed params.c_tilde_bytes).absorbed
            (136 * 0 + j) % 256 := by
      intro j hj
      simp only [SHAKE_Final, SHA3_Update, SHAKE_Init, hR.2, Nat.zero_add, Nat.mul_zero,
        Nat.sub_zero]
      rw [if_pos ⟨Nat.zero_le _, hj⟩]
    have hsw : forLoop 8 (fun i signs =>
          signs ||| ((SHAKE_Final E buf0 0
            (SHA3_Update (SHAKE_Init E.SHAKE256_BLOCKSIZE) seed params.c_tilde_bytes)
            E.SHAKE256_BLOCKSIZE).1 i <<< (8*i)) % 18446744073709551616) 0
        = challenge_sign_word (fun n => E.stream E.SHAKE256_BLOCKSIZE
            (SHA3_Update (SHAKE_Init E.SHAKE256_BLOCKSIZE) seed params.c_tilde_bytes).absorbed
            n % 256) := by
      rw [sign_word_loop _ (fun i hi => by
        rw [hbuf i (by omega)]; exact Nat.mod_lt _ (by decide))]
      unfold challenge_sign_word
      rw [hbuf 0 (by decide), hbuf 1 (by decide), hbuf 2 (by decide), hbuf 3 (by decide),
        hbuf 4 (by decide), hbuf 5 (by decide), hbuf 6 (by decide), hbuf 7 (by decide)]
    have hz := forLoop_zero_fill c N
    obtain ⟨r, hr, hcr⟩ := poly_challenge_loop_ref E hR.1 hR.2 E.SHAKE256_BLOCKSIZE
      (SHA3_Update (SHAKE_Init E.SHAKE256_BLOCKSIZE) seed params.c_tilde_bytes).absorbed
      (challenge_sign_word (fun n => E.stream E.SHAKE256_BLOCKSIZE
        (SHA3_Update (SHAKE_Init E.SHAKE256_BLOCKSIZE) seed params.c_tilde_bytes).absorbed
        n % 256)) fuel params.tau (256 - params.tau) 0 _ (fun _ => 0) 0 s
      ⟨by simp only [SHAKE_Final, SHA3_Update, SHAKE_Init, hR.2, Nat.zero_add],
        hbuf, by simp only; omega⟩
      (by simp only; rw [hsw]; rfl) (by omega)
      (fun x hx => hz x (by unfold N; omega)) hl
    simp only [Nat.mul_zero, Nat.zero_add] at hr
    have hcount := challenge_ref_loop_count _ _ fuel params.tau (256 - params.tau) 0
      (fun _ => 0) 8 r (by omega) (fun _ _ _ => rfl) (by simp) hr
    rw [Nat.zero_add] at hcount
    refine ⟨⟨r, hr, hcr⟩, ?_⟩
    rw [← hcount]
    congr 1
    apply Finset.filter_congr
    intro x hx
    rw [hcr x (Finset.mem_range.mp hx)]

set_option maxRecDepth 1000000 in
theorem poly_challenge_signs_witness :
    ((136 : Nat) = 136 ∧ (136 : Nat) = 136) ∧ (4 : Nat) ≤ 64 ∧
    ∃ out, poly_challenge ⟨168, 168, 136, 136, fun _ _ n => 5 * n⟩ ⟨2, 4, 131072, 95232, 32⟩
        (fun _ => 7) (fun _ => 0) (fun _ => 0) 300 = some out ∧
      ((Finset.range 256).filter (fun x => out.c x = -1)).card
        = ((Finset.range 4).filter
            (fun j => (challenge_sign_word (fun n => (5 * n) % 256)).testBit j = true)).card := by
  have hs : (poly_challenge ⟨168, 168, 136, 136, fun _ _ n => 5 * n⟩ ⟨2, 4, 131072, 95232, 32⟩
      (fun _ => 7) (fun _ => 0) (fun _ => 0) 300).isSome = true := by decide
  obtain ⟨out, hout⟩ := Option.isSome_iff_exists.mp hs
  exact ⟨⟨rfl, rfl⟩, by decide, out, hout,
    (poly_challenge_signs _ ⟨2, 4, 131072, 95232, 32⟩ _ _ _ _ out ⟨rfl, rfl⟩ (by decide)
      hout).2⟩

/-! ## Nonce domain separation -/

theorem SHAKE_Final_congr (E E' : shake_engine) (md : bytes) (off : Nat) (ctx : KECCAK1600_CTX)
    (len : Nat)
    (h : ∀ n, E.stream ctx.block_size ctx.absorbed n % 256
      = E'.stream ctx.block_size ctx.absorbed n % 256) :
    SHAKE_Final E md off ctx len = SHAKE_Final E' md off ctx len := by
  unfold SHAKE_Final
  congr 1
  funext j
  rw [h]

theorem poly_uniform_loop_succ (E : shake_engine) (fuel : Nat) (s : uniform_state) :
    poly_uniform_loop E (fuel + 1) s
      = if s.ctr < N then
          poly_uniform_loop E fuel
            ⟨(rej_uniform s.a s.ctr (N - s.ctr)
                (SHAKE_Final E
                  (forLoop (s.buflen % 3)
                    (fun i buf => Function.update buf i (buf (s.buflen - s.buflen % 3 + i)))
                    s.buf)
                  (s.buflen % 3) s.state
                  (POLY_UNIFORM_NBLOCKS E * E.SHAKE128_BLOCKSIZE)).1
                (E.SHAKE128_RATE + s.buflen % 3)).1,
             s.ctr + (rej_uniform s.a s.ctr (N - s.ctr)
                (SHAKE_Final E
                  (forLoop (s.buflen % 3)
                    (fun i buf => Function.update buf i (buf (s.buflen - s.buflen % 3 + i)))
                    s.buf)
                  (s.buflen % 3) s.state
                  (POLY_UNIFORM_NBLOCKS E * E.SHAKE128_BLOCKSIZE)).1
                (E.SHAKE128_RATE + s.buflen % 3)).2,
             (SHAKE_Final E
                  (forLoop (s.buflen % 3)
                    (fun i buf => Function.update buf i (buf (s.buflen - s.buflen % 3 + i)))
                    s.buf)
                  (s.buflen % 3) s.state
                  (POLY_UNIFORM_NBLOCKS E * E.SHAKE128_BLOCKSIZE)).1,
             E.SHAKE128_RATE + s.buflen % 3,
             (SHAKE_Final E
                  (forLoop (s.buflen % 3)
                    (fun i buf => Function.update buf i (buf (s.buflen - s.buflen % 3 + i)))
                    s.buf)
                  (s.buflen % 3) s.state
                  (POLY_UNIFORM_NBLOCKS E * E.SHAKE128_BLOCKSIZE)).2⟩
        else some s := rfl

theorem poly_uniform_loop_congr (E E' : shake_engine)
    (hR : E'.SHAKE128_RATE = E.SHAKE128_RATE) (hB : E'.SHAKE128_BLOCKSIZE = E.SHAKE128_BLOCKSIZE)
    (bs : Nat) (X : List Nat) (h : ∀ n, E.stream bs X n % 256 = E'.stream bs X n % 256) :
    ∀ fuel s, s.state.block_size = bs → s.state.absorbed = X →
      poly_uniform_loop E fuel s = poly_uniform_loop E' fuel s := by
  intro fuel
  induction fuel with
  | zero => intro s _ _; rfl
  | succ fuel ih =>
    intro s h1 h2
    have hn : POLY_UNIFORM_NBLOCKS E' = POLY_UNIFORM_NBLOCKS E := by
      unfold POLY_UNIFORM_NBLOCKS; rw [hR]
    have hsf : ∀ md off len, SHAKE_Final E' md off s.state len = SHAKE_Final E md off s.state len :=
      fun md off len => (SHAKE_Final_congr E E' md off s.state len (by rw [h1, h2]; exact h)).symm
    rw [poly_uniform_loop_succ, poly_uniform_loop_succ, hn, hR, hB, hsf]
    by_cases hc : s.ctr < N
    · rw [if_pos hc, if_pos hc]
      exact ih _ (by simp only [SHAKE_Final]; exact h1) (by simp only [SHAKE_Final]; exact h2)
    · rw [if_neg hc, if_neg hc]

theorem poly_uniform_eta_loop_succ (E : shake_engine) (params : ml_dsa_params) (fuel : Nat)
    (s : uniform_state) :
    poly_uniform_eta_loop E params (fuel + 1) s
      = if s.ctr < N then
          poly_uniform_eta_loop E params fuel
            ⟨(rej_eta params s.a s.ctr (N - s.ctr)
                (SHAKE_Final E s.buf 0 s.state E.SHAKE256_BLOCKSIZE).1 E.SHAKE256_RATE).1,
             s.ctr + (rej_eta params s.a s.ctr (N - s.ctr)
                (SHAKE_Final E s.buf 0 s.state E.SHAKE256_BLOCKSIZE).1 E.SHAKE256_RATE).2,
             (SHAKE_Final E s.buf 0 s.state E.SHAKE256_BLOCKSIZE).1, s.buflen,
             (SHAKE_Final E s.buf 0 s.state E.SHAKE256_BLOCKSIZE).2⟩
        else some s := rfl

theorem poly_uniform_eta_loop_congr (E E' : shake_engine) (params : ml_dsa_params)
    (hR : E'.SHAKE256_RATE = E.SHAKE256_RATE) (hB : E'.SHAKE256_BLOCKSIZE = E.SHAKE256_BLOCKSIZE)
    (bs : Nat) (X : List Nat) (h : ∀ n, E.stream bs X n % 256 = E'.stream bs X n % 256) :
    ∀ fuel s, s.state.block_size = bs → s.state.absorbed = X →
      poly_uniform_eta_loop E params fuel s = poly_uniform_eta_loop E' params fuel s := by
  intro fuel
  induction fuel with
  | zero => intro s _ _; rfl
  | succ fuel ih =>
    intro s h1 h2
    have hsf : ∀ md off len, SHAKE_Final E' md off s.state len = SHAKE_Final E md off s.state len :=
      fun md off len => (SHAKE_Final_congr E E' md off s.state len (by rw [h1, h2]; exact h)).symm
    rw [poly_uniform_eta_loop_succ, poly_uniform_eta_loop_succ, hR, hB, hsf]
    by_cases hc : s.ctr < N
    · rw [if_pos hc, if_pos hc]
      exact ih _ (by simp only [SHAKE_Final]; exact h1) (by simp only [SHAKE_Final]; exact h2)
    · rw [if_neg hc, if_neg hc]

theorem nonce_absorbed (bs len : Nat) (seed : bytes) (nonce : Nat) :
    (SHA3_Update (SHA3_Update (SHAKE_Init bs) seed len) (nonce_bytes nonce) 2).absorbed
      = (List.range len).map (fun i => seed i % 256)
          ++ [(nonce &&& 0xff) % 256, (nonce >>> 8) % 256] := by
  unfold SHA3_Update SHAKE_Init nonce_bytes
  simp [List.range_succ]

theorem nonce_le_bytes (nonce : Nat) :
    nonce &&& 0xff = nonce % 256 ∧ nonce >>> 8 = nonce / 256 := by
  have e : (0xff : Nat) = 2 ^ 8 - 1 := by norm_num
  rw [e, Nat.and_pow_two_sub_one_eq_mod, Nat.shiftRight_eq_div_pow]
  norm_num

theorem poly_uniform_congr (E E' : shake_engine) (C : dilithium_consts)
    (hR : E'.SHAKE128_RATE = E.SHAKE128_RATE) (hB : E'.SHAKE128_BLOCKSIZE = E.SHAKE128_BLOCKSIZE)
    (a : poly) (seed : bytes) (nonce : Nat) (buf0 : bytes) (fuel : Nat)
    (h : ∀ n, xof_stream E' E.SHAKE128_BLOCKSIZE seed C.SEEDBYTES nonce n
      = xof_stream E E.SHAKE128_BLOCKSIZE seed C.SEEDBYTES nonce n) :
    poly_uniform E' C a seed nonce buf0 fuel = poly_uniform E C a seed nonce buf0 fuel := by
  have hn : POLY_UNIFORM_NBLOCKS E' = POLY_UNIFORM_NBLOCKS E := by
    unfold POLY_UNIFORM_NBLOCKS; rw [hR]
  have hsf : ∀ md off len,
      SHAKE_Final E' md off
        (SHA3_Update (SHA3_Update (SHAKE_Init E.SHAKE128_BLOCKSIZE) seed C.SEEDBYTES)
          (nonce_bytes nonce) 2) len
      = SHAKE_Final E md off
        (SHA3_Update (SHA3_Update (SHAKE_Init E.SHAKE128_BLOCKSIZE) seed C.SEEDBYTES)
          (nonce_bytes nonce) 2) len :=
    fun md off len => SHAKE_Final_congr E' E md off _ len h
  unfold poly_uniform
  simp only
  rw [hn, hR, hB, hsf]
  rw [poly_uniform_loop_congr E E' hR hB E.SHAKE128_BLOCKSIZE
    (SHA3_Update (SHA3_Update (SHAKE_Init E.SHAKE128_BLOCKSIZE) seed C.SEEDBYTES)
      (nonce_bytes nonce) 2).absorbed (fun n => (h n).symm) fuel _ rfl rfl]

theorem poly_uniform_eta_congr (E E' : shake_engine) (C : dilithium_consts)
    (params : ml_dsa_params)
    (hR : E'.SHAKE256_RATE = E.SHAKE256_RATE) (hB : E'.SHAKE256_BLOCKSIZE = E.SHAKE256_BLOCKSIZE)
    (a : poly) (seed : bytes) (nonce : Nat) (buf0 : bytes) (fuel : Nat)
    (h : ∀ n, xof_stream E' E.SHAKE256_BLOCKSIZE seed C.CRHBYTES nonce n
      = xof_stream E E.SHAKE256_BLOCKSIZE seed C.CRHBYTES nonce n) :
    poly_uniform_eta E' C params a seed nonce buf0 fuel
      = poly_uniform_eta E C params a seed nonce buf0 fuel := by
  have hsf : ∀ md off len,
      SHAKE_Final E' md off
        (SHA3_Update (SHA3_Update (SHAKE_Init E.SHAKE256_BLOCKSIZE) seed C.CRHBYTES)
          (nonce_bytes nonce) 2) len
      = SHAKE_Final E md off
        (SHA3_Update (SHA3_Update (SHAKE_Init E.SHAKE256_BLOCKSIZE) seed C.CRHBYTES)
          (nonce_bytes nonce) 2) len :=
    fun md off len => SHAKE_Final_congr E' E md off _ len h
  unfold poly_uniform_eta
  simp only
  rw [hR, hB, hsf]
  rw [poly_uniform_eta_loop_congr E E' params hR hB E.SHAKE256_BLOCKSIZE
    (SHA3_Update (SHA3_Update (SHAKE_Init E.SHAKE256_BLOCKSIZE) seed C.CRHBYTES)
      (nonce_bytes nonce) 2).absorbed (fun n => (h n).symm) fuel _ rfl rfl]

theorem poly_uniform_gamma1_congr (E E' : shake_engine) (C : dilithium_consts)
    (params : ml_dsa_params)
    (hR : E'.SHAKE256_RATE = E.SHAKE256_RATE) (hB : E'.SHAKE256_BLOCKSIZE = E.SHAKE256_BLOCKSIZE)
    (a : poly) (seed : bytes) (nonce : Nat) (buf0 : bytes)
    (h : ∀ n, xof_stream E' E.SHAKE256_BLOCKSIZE seed C.CRHBYTES nonce n
      = xof_stream E E.SHAKE256_BLOCKSIZE seed C.CRHBYTES nonce n) :
    poly_uniform_gamma1 E' C params a seed nonce buf0
      = poly_uniform_gamma1 E C params a seed nonce buf0 := by
  have hn : POLY_UNIFORM_GAMMA1_NBLOCKS E' C = POLY_UNIFORM_GAMMA1_NBLOCKS E C := by
    unfold POLY_UNIFORM_GAMMA1_NBLOCKS; rw [hR]
  have hsf : ∀ md off len,
      SHAKE_Final E' md off
        (SHA3_Update (SHA3_Update (SHAKE_Init E.SHAKE256_BLOCKSIZE) seed C.CRHBYTES)
          (nonce_bytes nonce) 2) len
      = SHAKE_Final E md off
        (SHA3_Update (SHA3_Update (SHAKE_Init E.SHAKE256_BLOCKSIZE) seed C.CRHBYTES)
          (nonce_bytes nonce) 2) len :=
    fun md off len => SHAKE_Final_congr E' E md off _ len h
  unfold poly_uniform_gamma1
  simp only
  rw [hn, hR, hB, hsf]

/-- C27.  Nonce domain separation.  The input absorbed by the context that `poly_uniform`,
`poly_uniform_eta` and `poly_uniform_gamma1` build is the seed followed by exactly the two
bytes `nonce & 0xff`, `nonce >> 8`, the 16-bit nonce in little-endian order; for a fixed
seed it is an injective function of the nonce on the 65536 nonces; and the result of each of
the three samplers depends on the stream engine only through its rates and the stream keyed
by that input. -/
theorem nonce_domain_separation (bs len : Nat) (seed : bytes) :
    (∀ nonce, nonce < 65536 →
      (SHA3_Update (SHA3_Update (SHAKE_Init bs) seed len) (nonce_bytes nonce) 2).absorbed
        = (List.range len).map (fun i => seed i % 256) ++ [nonce &&& 0xff, nonce >>> 8] ∧
      nonce &&& 0xff = nonce % 256 ∧ nonce >>> 8 = nonce / 256) ∧
    (∀ nonce nonce', nonce < 65536 → nonce' < 65536 →
      (SHA3_Update (SHA3_Update (SHAKE_Init bs) seed len) (nonce_bytes nonce) 2).absorbed
        = (SHA3_Update (SHA3_Update (SHAKE_Init bs) seed len) (nonce_bytes nonce') 2).absorbed →
      nonce = nonce') ∧
    (∀ (E : shake_engine) (f : Nat → List Nat → Nat → Nat) (C : dilithium_consts)
        (params : ml_dsa_params) (a : poly) (nonce : Nat) (buf0 : bytes) (fuel : Nat),
      ((∀ n, xof_stream ⟨E.SHAKE128_RATE, E.SHAKE128_BLOCKSIZE, E.SHAKE256_RATE,
            E.SHAKE256_BLOCKSIZE, f⟩ E.SHAKE128_BLOCKSIZE seed C.SEEDBYTES nonce n
          = xof_stream E E.SHAKE128_BLOCKSIZE seed C.SEEDBYTES nonce n) →
        poly_uniform ⟨E.SHAKE128_RATE, E.SHAKE128_BLOCKSIZE, E.SHAKE256_RATE,
            E.SHAKE256_BLOCKSIZE, f⟩ C a seed nonce buf0 fuel
          = poly_uniform E C a seed nonce buf0 fuel) ∧
      ((∀ n, xof_stream ⟨E.SHAKE128_RATE, E.SHAKE128_BLOCKSIZE, E.SHAKE256_RATE,
            E.SHAKE256_BLOCKSIZE, f⟩ E.SHAKE256_BLOCKSIZE seed C.CRHBYTES nonce n
          = xof_stream E E.SHAKE256_BLOCKSIZE seed C.CRHBYTES nonce n) →
        poly_uniform_eta ⟨E.SHAKE128_RATE, E.SHAKE128_BLOCKSIZE, E.SHAKE256_RATE,
            E.SHAKE256_BLOCKSIZE, f⟩ C params a seed nonce buf0 fuel
          = poly_uniform_eta E C params a seed nonce buf0 fuel ∧
        poly_uniform_gamma1 ⟨E.SHAKE128_RATE, E.SHAKE128_BLOCKSIZE, E.SHAKE256_RATE,
            E.SHAKE256_BLOCKSIZE, f⟩ C params a seed nonce buf0
          = poly_uniform_gamma1 E C params a seed nonce buf0)) := by
  refine ⟨fun nonce hn => ?_, fun nonce nonce' hn hn' he => ?_,
    fun E f C params a nonce buf0 fuel => ⟨fun h => ?_, fun h => ⟨?_, ?_⟩⟩⟩
  · obtain ⟨e1, e2⟩ := nonce_le_bytes nonce
    have e3 : (nonce &&& 0xff) % 256 = nonce &&& 0xff := Nat.mod_eq_of_lt (by omega)
    have e4 : (nonce >>> 8) % 256 = nonce >>> 8 := Nat.mod_eq_of_lt (by omega)
    rw [nonce_absorbed, e3, e4]
    exact ⟨rfl, e1, e2⟩
  · rw [nonce_absorbed, nonce_absorbed] at he
    have := List.append_cancel_left he
    simp only [List.cons.injEq, and_true] at this
    obtain ⟨e1, e2⟩ := nonce_le_bytes nonce
    obtain ⟨e1', e2'⟩ := nonce_le_bytes nonce'
    rw [e1, e2, e1', e2'] at this
    omega
  · exact poly_uniform_congr E ⟨E.SHAKE128_RATE, E.SHAKE128_BLOCKSIZE, E.SHAKE256_RATE,
      E.SHAKE256_BLOCKSIZE, f⟩ C rfl rfl a seed nonce buf0 fuel h
  · exact poly_uniform_eta_congr E ⟨E.SHAKE128_RATE, E.SHAKE128_BLOCKSIZE, E.SHAKE256_RATE,
      E.SHAKE256_BLOCKSIZE, f⟩ C params rfl rfl a seed nonce buf0 fuel h
  · exact poly_uniform_gamma1_congr E ⟨E.SHAKE128_RATE, E.SHAKE128_BLOCKSIZE, E.SHAKE256_RATE,
      E.SHAKE256_BLOCKSIZE, f⟩ C params rfl rfl a seed nonce buf0 h

theorem nonce_domain_separation_witness :
    (SHA3_Update (SHA3_Update (SHAKE_Init 136) (fun i => i + 1) 3) (nonce_bytes 0x1234)
        2).absorbed = [1, 2, 3, 0x34, 0x12] ∧
    (SHA3_Update (SHA3_Update (SHAKE_Init 136) (fun i => i + 1) 3) (nonce_bytes 0x1234)
        2).absorbed
      ≠ (SHA3_Update (SHA3_Update (SHAKE_Init 136) (fun i => i + 1) 3) (nonce_bytes 0x3412)
        2).absorbed :=
  ⟨((nonce_domain_separation 136 3 (fun i => i + 1)).1 0x1234 (by decide)).1,
   fun h => absurd
     ((nonce_domain_separation 136 3 (fun i => i + 1)).2.1 0x1234 0x3412 (by decide)
       (by decide) h) (by decide)⟩

/-! ## The `z` codec on byte strings -/

theorem bytes_eq_of_bits (w P : Nat) (hw : 0 < w) (hP : 8 * P = w * 256) (x y : bytes)
    (hx : ∀ j, j < P → x j < 256) (hy : ∀ j, j < P → y j < 256)
    (hbits : ∀ m k, m < 256 → k < w →
      (x ((w * m + k) / 8)).testBit ((w * m + k) % 8)
        = (y ((w * m + k) / 8)).testBit ((w * m + k) % 8)) :
    ∀ j, j < P → x j = y j := by
  intro j hj
  apply Nat.eq_of_testBit_eq
  intro t
  by_cases ht : t < 8
  · have hn : 8 * j + t < w * 256 := by omega
    have hm : (8 * j + t) / w < 256 := (Nat.div_lt_iff_lt_mul hw).mpr (by rw [Nat.mul_comm 256 w]; exact hn)
    have hk : (8 * j + t) % w < w := Nat.mod_lt _ hw
    have e : w * ((8 * j + t) / w) + (8 * j + t) % w = 8 * j + t := Nat.div_add_mod _ _
    have := hbits _ _ hm hk
    rw [e] at this
    have e1 : (8 * j + t) / 8 = j := by omega
    have e2 : (8 * j + t) % 8 = t := by omega
    rw [e1, e2] at this
    exact this
  · rw [tb_high (w := 8) (hx j hj) t (by omega), tb_high (w := 8) (hy j hj) t (by omega)]

theorem polyz_repack17 (params : ml_dsa_params) (hp : params.gamma1 = 131072) (r : poly)
    (r' : bytes) (b : bytes) (hb : ∀ n, n < 576 → b n < 256) :
    ∀ j, j < 576 → polyz_pack params r' (polyz_unpack params r b) j = b j := by
  have hr := polyz_unpack17_in_range params hp r b hb
  refine bytes_eq_of_bits 18 576 (by decide) (by decide) _ _
    (polyz_pack17_lt params hp r' _) hb (fun m k hm hk => ?_)
  rw [polyz_pack17_bits params hp r' _ (fun m hm => by have := hr m hm; rw [hp] at this; omega)
    m k hm hk, polyz_unpack17_bits params hp r b hb m k hm]
  simp [hk]

theorem polyz_repack19 (params : ml_dsa_params) (hp : params.gamma1 = 524288) (r : poly)
    (r' : bytes) (b : bytes) (hb : ∀ n, n < 640 → b n < 256) :
    ∀ j, j < 640 → polyz_pack params r' (polyz_unpack params r b) j = b j := by
  have hr := polyz_unpack19_in_range params hp r b hb
  refine bytes_eq_of_bits 20 640 (by decide) (by decide) _ _
    (polyz_pack19_lt params hp r' _) hb (fun m k hm hk => ?_)
  rw [polyz_pack19_bits params hp r' _ (fun m hm => by have := hr m hm; rw [hp] at this; omega)
    m k hm hk, polyz_unpack19_bits params hp r b hb m k hm]
  simp [hk]

theorem polyz_pack_congr17 (params : ml_dsa_params) (hp : params.gamma1 = 131072) (r' : bytes)
    (a a' : poly) (ha : ∀ m, m < 256 → -131071 ≤ a m ∧ a m ≤ 131072)
    (he : ∀ m, m < 256 → a m = a' m) :
    ∀ j, j < 576 → polyz_pack params r' a j = polyz_pack params r' a' j := by
  refine bytes_eq_of_bits 18 576 (by decide) (by decide) _ _
    (polyz_pack17_lt params hp r' _) (polyz_pack17_lt params hp r' _) (fun m k hm hk => ?_)
  rw [polyz_pack17_bits params hp r' a ha m k hm hk,
    polyz_pack17_bits params hp r' a' (fun m hm => by rw [← he m hm]; exact ha m hm) m k hm hk,
    he m hm]

theorem polyz_pack_congr19 (params : ml_dsa_params) (hp : params.gamma1 = 524288) (r' : bytes)
    (a a' : poly) (ha : ∀ m, m < 256 → -524287 ≤ a m ∧ a m ≤ 524288)
    (he : ∀ m, m < 256 → a m = a' m) :
    ∀ j, j < 640 → polyz_pack params r' a j = polyz_pack params r' a' j := by
  refine bytes_eq_of_bits 20 640 (by decide) (by decide) _ _
    (polyz_pack19_lt params hp r' _) (polyz_pack19_lt params hp r' _) (fun m k hm hk => ?_)
  rw [polyz_pack19_bits params hp r' a ha m k hm hk,
    polyz_pack19_bits params hp r' a' (fun m hm => by rw [← he m hm]; exact ha m hm) m k hm hk,
    he m hm]

/-- C28.  The `z` codec is a bijection on byte strings: for `gamma1` in `{2^17, 2^19}` and
every byte array `b` of the packed length `P` (576 resp. 640), every coefficient of
`polyz_unpack(b)` lies in `[-(gamma1-1), gamma1]`, `polyz_pack(polyz_unpack(b))` has the
bytes of `b`, and two byte arrays that unpack to the same 256 coefficients have the same `P`
bytes; whatever the prior contents of the output arrays. -/
theorem polyz_pack_unpack (params : ml_dsa_params) (P : Nat)
    (hg : (params.gamma1 = 2 ^ 17 ∧ P = 576) ∨ (params.gamma1 = 2 ^ 19 ∧ P = 640))
    (r : poly) (r' : bytes) (b : bytes) (hb : ∀ n, n < P → b n < 256) :
    (∀ m, m < 256 → -(params.gamma1 - 1) ≤ polyz_unpack params r b m ∧
      polyz_unpack params r b m ≤ params.gamma1) ∧
    (∀ j, j < P → polyz_pack params r' (polyz_unpack params r b) j = b j) ∧
    (∀ (r2 : poly) (b2 : bytes), (∀ n, n < P → b2 n < 256) →
      (∀ m, m < 256 → polyz_unpack params r b m = polyz_unpack params r2 b2 m) →
      ∀ j, j < P → b j = b2 j) := by
  rcases hg with ⟨hp, rfl⟩ | ⟨hp, rfl⟩
  · have hp' : params.gamma1 = 131072 := by rw [hp]; norm_num
    have hr := polyz_unpack17_in_range params hp' r b hb
    refine ⟨hr, polyz_repack17 params hp' r r' b hb, fun r2 b2 hb2 he j hj => ?_⟩
    rw [← polyz_repack17 params hp' r r' b hb j hj,
      ← polyz_repack17 params hp' r2 r' b2 hb2 j hj]
    exact polyz_pack_congr17 params hp' r' _ _
      (fun m hm => by have := hr m hm; rw [hp'] at this; omega) he j hj
  · have hp' : params.gamma1 = 524288 := by rw [hp]; norm_num
    have hr := polyz_unpack19_in_range params hp' r b hb
    refine ⟨hr, polyz_repack19 params hp' r r' b hb, fun r2 b2 hb2 he j hj => ?_⟩
    rw [← polyz_repack19 params hp' r r' b hb j hj,
      ← polyz_repack19 params hp' r2 r' b2 hb2 j hj]
    exact polyz_pack_congr19 params hp' r' _ _
      (fun m hm => by have := hr m hm; rw [hp'] at this; omega) he j hj

theorem polyz_pack_unpack_witness :
    (((2 : Int) ^ 19 = 2 ^ 17 ∧ 640 = 576) ∨ ((2 : Int) ^ 19 = 2 ^ 19 ∧ 640 = 640)) ∧
    (∀ j, j < 640 →
      polyz_pack ⟨4, 49, 2 ^ 19, 261888, 48⟩ (fun _ => 0)
        (polyz_unpack ⟨4, 49, 2 ^ 19, 261888, 48⟩ (fun _ => 0) (fun n => (7 * n + 3) % 256)) j
        = (7 * j + 3) % 256) :=
  ⟨Or.inr ⟨rfl, rfl⟩,
   (polyz_pack_unpack ⟨4, 49, 2 ^ 19, 261888, 48⟩ 640 (Or.inr ⟨rfl, rfl⟩) (fun _ => 0)
     (fun _ => 0) (fun n => (7 * n + 3) % 256) (fun n _ => Nat.mod_lt _ (by decide))).2.1⟩

/-! ## Codecs outside their legal ranges -/

theorem polyt0_unpack_congr (r r' : poly) (b b' : bytes) (hb : ∀ n, n < 416 → b n = b' n)
    (m : Nat) (hm : m < 256) : polyt0_unpack r b m = polyt0_unpack r' b' m := by
  obtain ⟨i, c, hi, hc, rfl⟩ : ∃ i c, i < 32 ∧ c < 8 ∧ m = 8 * i + c :=
    ⟨m / 8, m % 8, by omega, by omega, by omega⟩
  rw [polyt0_unpack_at r b i c hi hc, polyt0_unpack_at r' b' i c hi hc]
  have h0 := hb (13 * i + 0) (by omega)
  have h1 := hb (13 * i + 1) (by omega)
  have h2 := hb (13 * i + 2) (by omega)
  have h3 := hb (13 * i + 3) (by omega)
  have h4 := hb (13 * i + 4) (by omega)
  have h5 := hb (13 * i + 5) (by omega)
  have h6 := hb (13 * i + 6) (by omega)
  have h7 := hb (13 * i + 7) (by omega)
  have h8 := hb (13 * i + 8) (by omega)
  have h9 := hb (13 * i + 9) (by omega)
  have h10 := hb (13 * i + 10) (by omega)
  have h11 := hb (13 * i + 11) (by omega)
  have h12 := hb (13 * i + 12) (by omega)
  simp only [Nat.add_zero] at h0
  interval_cases c <;>
    simp [polyt0_unpack_body, h0, h1, h2, h3, h4, h5, h6, h7, h8, h9, h10, h11, h12]

set_option maxRecDepth 1000000 in
/-- C30.  The legal range of the `t0` codec is tight at its lower end: the polynomial with
`a[0] = -2^12` and every other coefficient `0` has all but one coefficient in
`(-2^12, 2^12]` and is not given back by `polyt0_unpack` after `polyt0_pack`, whatever the
prior contents of the two output arrays.  Coefficient `0` comes back as `2^12`, since
`2^12 - (-2^12) = 2^13` has no bit among the low 13, and its bit 13 lands in the field of
coefficient `1`, which comes back as `-1` instead of `0`. -/
theorem polyt0_lower_bound_tight :
    ∃ a : poly, a 0 = -2 ^ (D - 1) ∧
      (∀ i, 0 < i → i < 256 → -(2 : Int) ^ (D - 1) < a i ∧ a i ≤ 2 ^ (D - 1)) ∧
      ∀ (r : poly) (r' : bytes),
        polyt0_unpack r (polyt0_pack r' a) 0 = 2 ^ (D - 1) ∧
        polyt0_unpack r (polyt0_pack r' a) 0 ≠ a 0 ∧
        a 1 = 0 ∧ polyt0_unpack r (polyt0_pack r' a) 1 = -1 := by
  refine ⟨fun i => if i = 0 then -4096 else 0, by norm_num [D], fun i h0 _ => ?_, fun r r' => ?_⟩
  · have hi : i ≠ 0 := by omega
    simp only [if_neg hi]
    norm_num [D]
  · have e : ∀ m, m < 256 →
        polyt0_unpack r (polyt0_pack r' (fun i => if i = 0 then -4096 else 0)) m
          = polyt0_unpack (fun _ => 0)
              (polyt0_pack (fun _ => 0) (fun i => if i = 0 then -4096 else 0)) m :=
      fun m hm => polyt0_unpack_congr _ _ _ _ (fun n hn => polyt0_pack_indep _ _ _ n hn) m hm
    have v0 : polyt0_unpack (fun _ => 0)
        (polyt0_pack (fun _ => 0) (fun i => if i = 0 then -4096 else 0)) 0 = 4096 := by decide
    have v1 : polyt0_unpack (fun _ => 0)
        (polyt0_pack (fun _ => 0) (fun i => if i = 0 then -4096 else 0)) 1 = -1 := by decide
    rw [e 0 (by decide), e 1 (by decide), v0, v1]
    norm_num [D]

theorem tb_255 (k : Nat) (hk : k < 8) : (255 : Nat).testBit k = true := by
  interval_cases k <;> rfl

theorem polyeta_unpack2_ff (params : ml_dsa_params) (hp : params.eta = 2) (r : poly) (m : Nat)
    (hm : m < 256) : polyeta_unpack params r (fun _ => 255) m = -5 := by
  have hX := polyeta_unpack2_bits params hp r (fun _ => 255) (fun _ _ => show (255 : Nat) < 256 by decide) m
  have h7 : u32 (params.eta - polyeta_unpack params r (fun _ => 255) m) = 7 := by
    apply Nat.eq_of_testBit_eq
    intro j
    rw [hX j hm]
    by_cases hj : j < 3
    · rw [tb_255 _ (Nat.mod_lt _ (by decide))]
      interval_cases j <;> rfl
    · rw [tb_high (w := 3) (t := 7) (by decide) j (by omega)]
      simp [hj]
  have hr := polyeta_unpack2_range params hp r (fun _ => 255) m hm
  rw [hp] at h7
  unfold u32 at h7
  omega

theorem polyeta_unpack4_ff (params : ml_dsa_params) (hp : params.eta = 4) (r : poly) (m : Nat)
    (hm : m < 256) : polyeta_unpack params r (fun _ => 255) m = -11 := by
  have hX := polyeta_unpack4_bits params hp r (fun _ => 255) (fun _ _ => show (255 : Nat) < 256 by decide) m
  have h15 : u32 (params.eta - polyeta_unpack params r (fun _ => 255) m) = 15 := by
    apply Nat.eq_of_testBit_eq
    intro j
    rw [hX j hm]
    by_cases hj : j < 4
    · rw [tb_255 _ (Nat.mod_lt _ (by decide))]
      interval_cases j <;> rfl
    · rw [tb_high (w := 4) (t := 15) (by decide) j (by omega)]
      simp [hj]
  have hr := polyeta_unpack4_range params hp r (fun _ => 255) m hm
  rw [hp] at h15
  unfold u32 at h15
  omega

/-- C29.  `polyeta_unpack` does not validate its input: for every byte array, each unpacked
coefficient lies in `[-5, 2]` when `eta = 2` and in `[-11, 4]` when `eta = 4`; on the array
whose bytes are all `0xFF` every coefficient is `-5` resp. `-11`, so the lower bounds are
attained and the unpacked polynomial has coefficients outside `[-eta, eta]`. -/
theorem polyeta_unpack_unvalidated (params : ml_dsa_params) (r : poly) :
    (params.eta = 2 →
      (∀ b : bytes, (∀ n, n < 96 → b n < 256) → ∀ m, m < 256 →
        -5 ≤ polyeta_unpack params r b m ∧ polyeta_unpack params r b m ≤ 2) ∧
      (∀ m, m < 256 → polyeta_unpack params r (fun _ => 255) m = -5) ∧
      ∃ b : bytes, (∀ n, b n < 256) ∧ ∃ m, m < 256 ∧
        ¬ (-params.eta ≤ polyeta_unpack params r b m ∧
            polyeta_unpack params r b m ≤ params.eta)) ∧
    (params.eta = 4 →
      (∀ b : bytes, (∀ n, n < 128 → b n < 256) → ∀ m, m < 256 →
        -11 ≤ polyeta_unpack params r b m ∧ polyeta_unpack params r b m ≤ 4) ∧
      (∀ m, m < 256 → polyeta_unpack params r (fun _ => 255) m = -11) ∧
      ∃ b : bytes, (∀ n, b n < 256) ∧ ∃ m, m < 256 ∧
        ¬ (-params.eta ≤ polyeta_unpack params r b m ∧
            polyeta_unpack params r b m ≤ params.eta)) := by
  constructor
  · intro hp
    refine ⟨fun b hb m hm => ?_, polyeta_unpack2_ff params hp r,
      ⟨fun _ => 255, fun _ => show (255 : Nat) < 256 by decide, 0, by decide, ?_⟩⟩
    · have hX := polyeta_unpack2_bits params hp r b hb m
      have hlt : u32 (params.eta - polyeta_unpack params r b m) < 2 ^ 3 := by
        apply Nat.lt_pow_two_of_testBit
        intro j hj
        rw [hX j hm]
        simp [show ¬ j < 3 by omega]
      have hr := polyeta_unpack2_range params hp r b m hm
      rw [hp] at hlt
      unfold u32 at hlt
      omega
    · rw [polyeta_unpack2_ff params hp r 0 (by decide), hp]
      omega
  · intro hp
    refine ⟨fun b hb m hm => ?_, polyeta_unpack4_ff params hp r,
      ⟨fun _ => 255, fun _ => show (255 : Nat) < 256 by decide, 0, by decide, ?_⟩⟩
    · have hX := polyeta_unpack4_bits params hp r b hb m
      have hlt : u32 (params.eta - polyeta_unpack params r b m) < 2 ^ 4 := by
        apply Nat.lt_pow_two_of_testBit
        intro j hj
        rw [hX j hm]
        simp [show ¬ j < 4 by omega]
      have hr := polyeta_unpack4_range params hp r b m hm
      rw [hp] at hlt
      unfold u32 at hlt
      omega
    · rw [polyeta_unpack4_ff params hp r 0 (by decide), hp]
      omega

theorem polyeta_unpack_unvalidated_witness :
    polyeta_unpack ⟨2, 39, 131072, 95232, 32⟩ (fun _ => 0) (fun _ => 255) 7 = -5 ∧
    polyeta_unpack ⟨4, 49, 524288, 261888, 48⟩ (fun _ => 0) (fun _ => 255) 7 = -11 :=
  ⟨((polyeta_unpack_unvalidated ⟨2, 39, 131072, 95232, 32⟩ (fun _ => 0)).1 rfl).2.1 7
      (by decide),
   ((polyeta_unpack_unvalidated ⟨4, 49, 524288, 261888, 48⟩ (fun _ => 0)).2 rfl).2.1 7
      (by decide)⟩

/-! ## The carry-over offset of the uniform sampler -/

theorem poly_uniform_loop_refill (E : shake_engine) (fuel : Nat) (s : uniform_state) :
    poly_uniform_loop E (fuel + 1) s
      = if s.ctr < N then poly_uniform_loop E fuel (poly_uniform_refill E s) else some s := rfl

theorem poly_uniform_from_entry (E : shake_engine) (C : dilithium_consts) (a : poly)
    (seed : bytes) (nonce : Nat) (buf0 : bytes) (fuel : Nat) :
    poly_uniform E C a seed nonce buf0 fuel
      = match poly_uniform_loop E fuel (poly_uniform_entry E C a seed nonce buf0) with
        | none => none
        | some s =>
          some ⟨s.a, s.ctr,
            OPENSSL_cleanse s.buf (POLY_UNIFORM_NBLOCKS E * E.SHAKE128_RATE + 2),
            s.buflen, OPENSSL_cleanse_ctx s.state⟩ := rfl

theorem poly_uniform_entry_buflen (E : shake_engine) (hR : E.SHAKE128_RATE = 168)
    (C : dilithium_consts) (a : poly) (seed : bytes) (nonce : Nat) (buf0 : bytes) :
    (poly_uniform_entry E C a seed nonce buf0).buflen = 840 := by
  unfold poly_uniform_entry
  simp only [poly_uniform_nblocks E hR, hR]

theorem poly_uniform_entry_frame (E : shake_engine) (hR : E.SHAKE128_RATE = 168)
    (hB : E.SHAKE128_BLOCKSIZE = 168) (C : dilithium_consts) (a : poly) (seed : bytes)
    (nonce : Nat) (buf0 : bytes) (j : Nat) (hj : 840 ≤ j) :
    (poly_uniform_entry E C a seed nonce buf0).buf j = buf0 j := by
  unfold poly_uniform_entry SHAKE_Final
  simp only [poly_uniform_nblocks E hR, hB]
  rw [if_neg (by omega)]

theorem poly_uniform_refill_buflen (E : shake_engine) (hR : E.SHAKE128_RATE = 168)
    (s : uniform_state) (h : s.buflen % 3 = 0) : (poly_uniform_refill E s).buflen = 168 := by
  unfold poly_uniform_refill
  simp only [h, hR]

theorem poly_uniform_refill_frame (E : shake_engine) (hR : E.SHAKE128_RATE = 168)
    (hB : E.SHAKE128_BLOCKSIZE = 168) (s : uniform_state) (h : s.buflen % 3 = 0) (j : Nat)
    (hj : 840 ≤ j) : (poly_uniform_refill E s).buf j = s.buf j := by
  unfold poly_uniform_refill SHAKE_Final
  simp only [h, poly_uniform_nblocks E hR, hB]
  rw [if_neg (by omega)]
  rfl

theorem poly_uniform_iterate_inv (E : shake_engine) (hR : E.SHAKE128_RATE = 168)
    (C : dilithium_consts) (a : poly) (seed : bytes) (nonce : Nat) (buf0 : bytes) :
    ∀ n, (Nat.iterate (poly_uniform_refill E) n
        (poly_uniform_entry E C a seed nonce buf0)).buflen = (if n = 0 then 840 else 168) := by
  intro n
  induction n with
  | zero => exact poly_uniform_entry_buflen E hR C a seed nonce buf0
  | succ n ih =>
    rw [Function.iterate_succ_apply', if_neg (Nat.succ_ne_zero n)]
    apply poly_uniform_refill_buflen E hR
    rw [ih]
    split <;> rfl

theorem poly_uniform_iterate_frame (E : shake_engine) (hR : E.SHAKE128_RATE = 168)
    (hB : E.SHAKE128_BLOCKSIZE = 168) (C : dilithium_consts) (a : poly) (seed : bytes)
    (nonce : Nat) (buf0 : bytes) (j : Nat) (hj : 840 ≤ j) :
    ∀ n, (Nat.iterate (poly_uniform_refill E) n
        (poly_uniform_entry E C a seed nonce buf0)).buf j = buf0 j := by
  intro n
  induction n with
  | zero => exact poly_uniform_entry_frame E hR hB C a seed nonce buf0 j hj
  | succ n ih =>
    rw [Function.iterate_succ_apply',
      poly_uniform_refill_frame E hR hB _ (by
        rw [poly_uniform_iterate_inv E hR C a seed nonce buf0 n]
        split <;> rfl) j hj, ih]

theorem poly_uniform_loop_reaches (E : shake_engine) :
    ∀ fuel s s', poly_uniform_loop E fuel s = some s' →
      ∃ n, n ≤ fuel ∧ s' = Nat.iterate (poly_uniform_refill E) n s := by
  intro fuel
  induction fuel with
  | zero =>
    intro s s' h
    unfold poly_uniform_loop at h
    by_cases hc : s.ctr < N
    · rw [if_pos hc] at h; exact absurd h (by simp)
    · rw [if_neg hc] at h
      simp only [Option.some.injEq] at h
      exact ⟨0, le_refl _, h.symm⟩
  | succ fuel ih =>
    intro s s' h
    rw [poly_uniform_loop_refill] at h
    by_cases hc : s.ctr < N
    · rw [if_pos hc] at h
      obtain ⟨n, hn, e⟩ := ih _ _ h
      exact ⟨n + 1, by omega, by rw [Function.iterate_succ_apply]; exact e⟩
    · rw [if_neg hc] at h
      simp only [Option.some.injEq] at h
      exact ⟨0, Nat.zero_le _, h.symm⟩

/-- C31.  In `poly_uniform` the carry-over offset is always zero.  With
`SHAKE128_RATE = 168`, `buflen` is `840` when the refill loop is first reached and
`168 + off` after an iteration; at the head of every iteration (the locals after `n` runs of
the loop body, for every `n`) `off = buflen % 3` is `0` and the leftover-copy loop leaves
`buf` as it is.  With `SHAKE128_BLOCKSIZE = 168` as well, no byte of `buf` at an index
`≥ 842` is ever changed, at any iteration and at the return. -/
theorem poly_uniform_offset_zero (E : shake_engine) (C : dilithium_consts) (a : poly)
    (seed : bytes) (nonce : Nat) (buf0 : bytes) (hR : E.SHAKE128_RATE = 168) :
    (poly_uniform_entry E C a seed nonce buf0).buflen = 840 ∧
    (∀ n,
      (Nat.iterate (poly_uniform_refill E) n
        (poly_uniform_entry E C a seed nonce buf0)).buflen % 3 = 0 ∧
      (poly_uniform_refill E (Nat.iterate (poly_uniform_refill E) n
        (poly_uniform_entry E C a seed nonce buf0))).buflen
        = 168 + (Nat.iterate (poly_uniform_refill E) n
            (poly_uniform_entry E C a seed nonce buf0)).buflen % 3 ∧
      forLoop ((Nat.iterate (poly_uniform_refill E) n
            (poly_uniform_entry E C a seed nonce buf0)).buflen % 3)
          (fun i buf => Function.update buf i
            (buf ((Nat.iterate (poly_uniform_refill E) n
                (poly_uniform_entry E C a seed nonce buf0)).buflen
              - (Nat.iterate (poly_uniform_refill E) n
                (poly_uniform_entry E C a seed nonce buf0)).buflen % 3 + i)))
          (Nat.iterate (poly_uniform_refill E) n
            (poly_uniform_entry E C a seed nonce buf0)).buf
        = (Nat.iterate (poly_uniform_refill E) n
            (poly_uniform_entry E C a seed nonce buf0)).buf) ∧
    (E.SHAKE128_BLOCKSIZE = 168 → ∀ n j, 842 ≤ j →
      (Nat.iterate (poly_uniform_refill E) n
        (poly_uniform_entry E C a seed nonce buf0)).buf j = buf0 j) ∧
    (∀ fuel out, poly_uniform E C a seed nonce buf0 fuel = some out →
      (∃ n, n ≤ fuel ∧ out.buflen = (Nat.iterate (poly_uniform_refill E) n
        (poly_uniform_entry E C a seed nonce buf0)).buflen) ∧
      out.buflen % 3 = 0 ∧
      (E.SHAKE128_BLOCKSIZE = 168 → ∀ j, 842 ≤ j → out.buf j = buf0 j)) := by
  have hinv := poly_uniform_iterate_inv E hR C a seed nonce buf0
  have hmod : ∀ n, (Nat.iterate (poly_uniform_refill E) n
      (poly_uniform_entry E C a seed nonce buf0)).buflen % 3 = 0 := by
    intro n
    rw [hinv n]
    split <;> rfl
  refine ⟨poly_uniform_entry_buflen E hR C a seed nonce buf0, fun n => ⟨hmod n, ?_, ?_⟩,
    fun hB n j hj => poly_uniform_iterate_frame E hR hB C a seed nonce buf0 j (by omega) n,
    fun fuel out h => ?_⟩
  · rw [poly_uniform_refill_buflen E hR _ (hmod n), hmod n]
  · rw [hmod n]
    rfl
  · rw [poly_uniform_from_entry] at h
    split at h
    · exact absurd h (by simp)
    · rename_i s hl
      simp only [Option.some.injEq] at h
      subst h
      obtain ⟨n, hn, e⟩ := poly_uniform_loop_reaches E fuel _ s hl
      subst e
      refine ⟨⟨n, hn, rfl⟩, hmod n, fun hB j hj => ?_⟩
      simp only [OPENSSL_cleanse, poly_uniform_nblocks E hR, hR]
      rw [if_neg (by omega)]
      exact poly_uniform_iterate_frame E hR hB C a seed nonce buf0 j (by omega) n

set_option maxRecDepth 1000000 in
theorem poly_uniform_offset_zero_witness :
    (168 : Nat) = 168 ∧
    (Nat.iterate
      (poly_uniform_refill ⟨168, 168, 136, 136, fun _ _ n => if n < 1008 then 255 else n⟩) 2
      (poly_uniform_entry ⟨168, 168, 136, 136, fun _ _ n => if n < 1008 then 255 else n⟩
        ⟨32, 64, 2, 640⟩ (fun _ => 0) (fun _ => 0) 0 (fun _ => 7))).buflen % 3 = 0 ∧
    (∃ out, poly_uniform ⟨168, 168, 136, 136, fun _ _ n => if n < 1008 then 255 else n⟩
        ⟨32, 64, 2, 640⟩ (fun _ => 0) (fun _ => 0) 0 (fun _ => 7) 8 = some out ∧
      out.buflen % 3 = 0 ∧ ∀ j, 842 ≤ j → out.buf j = 7) := by
  have t := poly_uniform_offset_zero
    ⟨168, 168, 136, 136, fun _ _ n => if n < 1008 then 255 else n⟩ ⟨32, 64, 2, 640⟩
    (fun _ => 0) (fun _ => 0) 0 (fun _ => 7) rfl
  have hs : (poly_uniform ⟨168, 168, 136, 136, fun _ _ n => if n < 1008 then 255 else n⟩
      ⟨32, 64, 2, 640⟩ (fun _ => 0) (fun _ => 0) 0 (fun _ => 7) 8).isSome = true := by decide
  obtain ⟨out, hout⟩ := Option.isSome_iff_exists.mp hs
  exact ⟨rfl, (t.2.1 2).1, out, hout, (t.2.2.2 8 out hout).2.1,
    (t.2.2.2 8 out hout).2.2 rfl⟩

end Dilithium
